import Mathlib

/-!
Lux interpreter: verification of the specification against the source.

A shallow embedding of the Lux language implementation (lexer, parser,
type checker, tree-walking evaluator and task executor) translated from
the Rust sources under `src/`, together with theorems settling the
claims about it.

Modelling conventions:
* Rust `i64` is modelled as `Int`; the two `i64` operations whose
  overflow/abort behaviour matters to the claims (division and
  remainder) are modelled with their divisor-zero aborts made explicit
  (`RunErr.panicked`); `as usize` / `as i64` casts are modelled by
  reduction modulo 2^64.
* Rust `f64` is modelled by Lean's `Float` (both IEEE-754 doubles); the
  embedding never needs to compute a float value.
* A Rust `panic!` / arithmetic abort is `RunErr.panicked`, distinct from
  the `LuxError` error values the interpreter returns (`RunErr.lux`).
* `HashMap<String, _>` is modelled as an association list with
  insert-replace semantics; iteration order of the model is the list
  order (the Rust iteration order is unspecified).
* Recursion in the evaluator, lexer, parser and checker is made total
  with an explicit fuel parameter; exhausting fuel is the distinguished
  outcome `RunErr.fuel`, an artifact of the embedding.
* The host filesystem is modelled as empty: module resolution and the
  file-reading builtins fail as they would on a host without the
  requested files.
-/

namespace Lux

/-- Source location: 1-based line and column plus optional filename
(`error/mod.rs`, `SourceLocation`). -/
structure SourceLocation where
  line : Nat
  column : Nat
  filename : Option String
deriving Repr, DecidableEq

def SourceLocation.at (line column : Nat) : SourceLocation :=
  ⟨line, column, none⟩

def SourceLocation.display (l : SourceLocation) : String :=
  match l.filename with
  | some f => f ++ ":" ++ toString l.line ++ ":" ++ toString l.column
  | none => toString l.line ++ ":" ++ toString l.column

/-- The closed error taxonomy (`error/mod.rs`, `LuxError`). -/
inductive LuxError where
  | lexerError (message : String) (location : SourceLocation)
  | parseError (message : String) (location : SourceLocation)
  | typeError (message : String) (location : SourceLocation)
  | semanticError (message : String) (location : SourceLocation)
  | runtimeError (message : String) (location : Option SourceLocation)
  | internalError (message : String)
deriving Repr, DecidableEq

def LuxError.kind : LuxError → String
  | .lexerError .. => "Lexer Error"
  | .parseError .. => "Parse Error"
  | .typeError .. => "Type Error"
  | .semanticError .. => "Semantic Error"
  | .runtimeError .. => "Runtime Error"
  | .internalError .. => "Internal Error"

def LuxError.message : LuxError → String
  | .lexerError m _ => m
  | .parseError m _ => m
  | .typeError m _ => m
  | .semanticError m _ => m
  | .runtimeError m _ => m
  | .internalError m => m

def LuxError.location : LuxError → Option SourceLocation
  | .lexerError _ l => some l
  | .parseError _ l => some l
  | .typeError _ l => some l
  | .semanticError _ l => some l
  | .runtimeError _ l => l
  | .internalError _ => none

/-- `Display for LuxError`. -/
def LuxError.display (e : LuxError) : String :=
  match e.location with
  | some l => e.kind ++ ": " ++ e.message ++ " at " ++ l.display
  | none => e.kind ++ ": " ++ e.message

/-- Keywords (`lexer/token.rs`, `Keyword`). -/
inductive Keyword where
  | kLocal | kConst | kFn | kReturn | kIf | kElse | kWhile | kFor
  | kBreak | kContinue | kInt | kFloat | kString | kBool | kNil | kTable
  | kTrue | kFalse | kAsync | kAwait | kSpawn | kAnd | kOr | kNot | kImport
deriving Repr, DecidableEq

/-- `Keyword::from_str`. -/
def Keyword.ofString (s : String) : Option Keyword :=
  if s = "local" then some .kLocal
  else if s = "const" then some .kConst
  else if s = "fn" then some .kFn
  else if s = "return" then some .kReturn
  else if s = "if" then some .kIf
  else if s = "else" then some .kElse
  else if s = "while" then some .kWhile
  else if s = "for" then some .kFor
  else if s = "break" then some .kBreak
  else if s = "continue" then some .kContinue
  else if s = "int" then some .kInt
  else if s = "float" then some .kFloat
  else if s = "string" then some .kString
  else if s = "bool" then some .kBool
  else if s = "nil" then some .kNil
  else if s = "table" then some .kTable
  else if s = "true" then some .kTrue
  else if s = "false" then some .kFalse
  else if s = "async" then some .kAsync
  else if s = "await" then some .kAwait
  else if s = "spawn" then some .kSpawn
  else if s = "and" then some .kAnd
  else if s = "or" then some .kOr
  else if s = "not" then some .kNot
  else if s = "import" then some .kImport
  else none

/-- Literal payload of a token (`lexer/token.rs`, `Literal`). -/
inductive TokenLit where
  | integer (n : Int)
  | float (f : Float)
  | string (s : String)

/-- Token tags (`lexer/token.rs`, `TokenType`). -/
inductive TokenType where
  | literal (l : TokenLit)
  | identifier
  | keyword (k : Keyword)
  | plus | minus | star | slash | percent
  | equal | notEqual | less | lessEqual | greater | greaterEqual
  | andOp | orOp | notOp
  | assign | colonAssign
  | hash | ampersand
  | leftParen | rightParen | leftBrace | rightBrace
  | leftBracket | rightBracket
  | comma | dot | colon | semicolon | arrow
  | newline | eof

/-- `std::mem::discriminant` equality used by `Parser::check`: two token
types match when they have the same constructor, ignoring payloads. -/
def TokenType.sameDiscriminant : TokenType → TokenType → Bool
  | .literal _, .literal _ => true
  | .identifier, .identifier => true
  | .keyword _, .keyword _ => true
  | .plus, .plus => true
  | .minus, .minus => true
  | .star, .star => true
  | .slash, .slash => true
  | .percent, .percent => true
  | .equal, .equal => true
  | .notEqual, .notEqual => true
  | .less, .less => true
  | .lessEqual, .lessEqual => true
  | .greater, .greater => true
  | .greaterEqual, .greaterEqual => true
  | .andOp, .andOp => true
  | .orOp, .orOp => true
  | .notOp, .notOp => true
  | .assign, .assign => true
  | .colonAssign, .colonAssign => true
  | .hash, .hash => true
  | .ampersand, .ampersand => true
  | .leftParen, .leftParen => true
  | .rightParen, .rightParen => true
  | .leftBrace, .leftBrace => true
  | .rightBrace, .rightBrace => true
  | .leftBracket, .leftBracket => true
  | .rightBracket, .rightBracket => true
  | .comma, .comma => true
  | .dot, .dot => true
  | .colon, .colon => true
  | .semicolon, .semicolon => true
  | .arrow, .arrow => true
  | .newline, .newline => true
  | .eof, .eof => true
  | _, _ => false

/-- A token (`lexer/token.rs`, `Token`). -/
structure Token where
  tokenType : TokenType
  lexeme : String
  location : SourceLocation

/-- Type terms (`parser/ast.rs` `Type`, extended with the `Pointer`
constructor that `parser.rs`, `checker.rs` and `interpreter.rs` all
use; the copy of `ast.rs` in `src/` predates it). -/
inductive Ty where
  | int | float | string | bool | nil | table
  | function (params : List Ty) (returnType : Ty)
  | pointer (inner : Ty)

mutual

/-- Structural equality of type terms (`PartialEq for Type`). -/
def Ty.beq : Ty → Ty → Bool
  | .int, .int => true
  | .float, .float => true
  | .string, .string => true
  | .bool, .bool => true
  | .nil, .nil => true
  | .table, .table => true
  | .function ps r, .function qs s => Ty.beqList ps qs && Ty.beq r s
  | .pointer a, .pointer b => Ty.beq a b
  | _, _ => false

def Ty.beqList : List Ty → List Ty → Bool
  | [], [] => true
  | a :: as_, b :: bs => Ty.beq a b && Ty.beqList as_ bs
  | _, _ => false

end

mutual

/-- `Debug` formatting of a type term (derived `Debug` in Rust),
as interpolated into checker error messages. -/
def Ty.debug : Ty → String
  | .int => "Int"
  | .float => "Float"
  | .string => "String"
  | .bool => "Bool"
  | .nil => "Nil"
  | .table => "Table"
  | .function ps r =>
    "Function \x7b params: [" ++ Ty.debugList ps ++ "], return_type: "
      ++ Ty.debug r ++ " \x7d"
  | .pointer a => "Pointer(" ++ Ty.debug a ++ ")"

def Ty.debugList : List Ty → String
  | [] => ""
  | [a] => Ty.debug a
  | a :: rest => Ty.debug a ++ ", " ++ Ty.debugList rest

end

/-- AST literal (`parser/ast.rs`, `Literal`). -/
inductive Literal where
  | integer (n : Int)
  | float (f : Float)
  | string (s : String)
  | boolean (b : Bool)
  | nil

/-- Binary operators (`parser/ast.rs`, `BinaryOp`). -/
inductive BinaryOp where
  | add | subtract | multiply | divide | modulo
  | equal | notEqual | less | lessEqual | greater | greaterEqual
deriving Repr, DecidableEq

/-- Unary operators (`parser/ast.rs` `UnaryOp`, extended with the
`AddressOf`/`Dereference` constructors used by `parser.rs`,
`checker.rs` and `interpreter.rs`). -/
inductive UnaryOp where
  | negate | notOp | length | addressOf | dereference
deriving Repr, DecidableEq

/-- Logical operators (`parser/ast.rs`, `LogicalOp`). -/
inductive LogicalOp where
  | andOp | orOp
deriving Repr, DecidableEq

mutual

/-- Statements (`parser/ast.rs` `Stmt`, including the `Import`
constructor used by `parser.rs`, `checker.rs` and `interpreter.rs`). -/
inductive Stmt where
  | varDecl (name : String) ( typeAnnotation : Option Ty)
      (initializer : Option Expr) (isConst : Bool)
      (location : SourceLocation)
  | functionDecl (name : String) (params : List (String × Ty))
      (returnType : Option Ty) (body : List Stmt) (isAsync : Bool)
      (location : SourceLocation)
  | exprStmt (expr : Expr) (location : SourceLocation)
  | ifStmt (condition : Expr) (thenBranch : List Stmt)
      (elseBranch : Option (List Stmt)) (location : SourceLocation)
  | whileStmt (condition : Expr) (body : List Stmt)
      (location : SourceLocation)
  | forStmt (initializer : Option Stmt) (condition : Option Expr)
      (increment : Option Expr) (body : List Stmt)
      (location : SourceLocation)
  | returnStmt (value : Option Expr) (location : SourceLocation)
  | breakStmt (location : SourceLocation)
  | continueStmt (location : SourceLocation)
  | block (statements : List Stmt) (location : SourceLocation)
  | importStmt (path : String) (location : SourceLocation)

/-- Expressions (`parser/ast.rs` `Expr`, with the `Spawn`/`Await`
constructors used by `parser.rs`, `checker.rs` and `interpreter.rs`,
and with the assignment target an expression as `Parser::assignment`
builds it: a variable reference or a table access). -/
inductive Expr where
  | literal (value : Literal) (location : SourceLocation)
  | variable (name : String) (location : SourceLocation)
  | binary (left : Expr) (operator : BinaryOp) (right : Expr)
      (location : SourceLocation)
  | unary (operator : UnaryOp) (operand : Expr)
      (location : SourceLocation)
  | assign (target : Expr) (value : Expr) (location : SourceLocation)
  | call (callee : Expr) (arguments : List Expr)
      (location : SourceLocation)
  | table (fields : List (TableKey × Expr)) (location : SourceLocation)
  | tableAccess (table : Expr) (key : Expr) (location : SourceLocation)
  | logical (left : Expr) (operator : LogicalOp) (right : Expr)
      (location : SourceLocation)
  | function (params : List (String × Ty)) (returnType : Option Ty)
      (body : List Stmt) (location : SourceLocation)
  | spawn (callExpr : Expr) (location : SourceLocation)
  | await (task : Expr) (location : SourceLocation)

/-- Keys in table constructors (`parser/ast.rs`, `TableKey`). -/
inductive TableKey where
  | identifier (name : String)
  | expression (e : Expr)

end

/-- A program (`parser/ast.rs`, `Ast`). -/
structure Ast where
  statements : List Stmt

/-- User-function value (`runtime/value.rs`, `FunctionValue`). -/
structure FunctionValue where
  name : String
  params : List String
  body : List Stmt
  isAsync : Bool

/-- Native-function value (`runtime/value.rs`, `NativeFunctionValue`).
The Rust `fn(&[Value]) -> Result<Value, String>` pointer is host code;
the model dispatches on the registered name when a native is called. -/
structure NativeFunctionValue where
  name : String
  arity : Nat

mutual

/-- Runtime values (`runtime/value.rs`, `Value`). The pointer payload
is the contents of the shared cell: the evaluator only ever stores a
snapshot into a fresh cell (`&x`) and reads a snapshot out (`*p`), so a
cell's contents model it faithfully for every supported operation. -/
inductive Value where
  | int (n : Int)
  | float (f : Float)
  | string (s : String)
  | bool (b : Bool)
  | nil
  | table (t : TableValue)
  | function (f : FunctionValue)
  | nativeFunction (f : NativeFunctionValue)
  | pointer (cell : Value)

/-- Table value (`runtime/value.rs`, `TableValue`): named-field map,
dense positional array, optional metatable. -/
inductive TableValue where
  | mk (fields : List (String × Value)) (array : List Value)
      (metatable : Option TableValue)

end

def TableValue.fields : TableValue → List (String × Value)
  | .mk f _ _ => f

def TableValue.array : TableValue → List Value
  | .mk _ a _ => a

def TableValue.metatable : TableValue → Option TableValue
  | .mk _ _ m => m

/-- `TableValue::new`. -/
def TableValue.new : TableValue := .mk [] [] none

/-- `HashMap::insert` on the association-list model of the field map:
replace the binding if the key is present, otherwise append. -/
def insertField (fields : List (String × Value)) (key : String)
    (v : Value) : List (String × Value) :=
  match fields with
  | [] => [(key, v)]
  | (k, w) :: rest =>
    if k = key then (k, v) :: rest
    else (k, w) :: insertField rest key v

def lookupField (fields : List (String × Value)) (key : String) :
    Option Value :=
  match fields with
  | [] => none
  | (k, w) :: rest => if k = key then some w else lookupField rest key

/-- `TableValue::get`: positive `Int` keys index the 1-based positional
array, `String` keys the field map, anything else yields `None`. -/
def TableValue.get (t : TableValue) (key : Value) : Option Value :=
  match key with
  | .int n => if 0 < n then t.array.getD (n - 1).toNat Value.nil |>
      (fun v => if (n - 1).toNat < t.array.length then some v else none)
    else none
  | .string s => lookupField t.fields s
  | _ => none

/-- `Vec::resize` to length `n`, filling with `fill`. -/
def listResize (l : List Value) (n : Nat) (fill : Value) : List Value :=
  if l.length ≥ n then l else l ++ List.replicate (n - l.length) fill

/-- `TableValue::set`: a positive `Int` key writes the 1-based
positional slot (growing the array with `Nil`), a `String` key writes
the field map, and any other key is silently ignored. -/
def TableValue.set (t : TableValue) (key : Value) (v : Value) :
    TableValue :=
  match key with
  | .int n =>
    if 0 < n then
      let index := (n - 1).toNat
      let arr := if index ≥ t.array.length
        then listResize t.array (index + 1) Value.nil else t.array
      .mk t.fields (arr.set index v) t.metatable
    else t
  | .string s => .mk (insertField t.fields s v) t.array t.metatable
  | _ => t

/-- `TableValue::len`: the length of the positional array only. -/
def TableValue.len (t : TableValue) : Nat := t.array.length

/-- `Value::is_truthy`: only `Nil` and `false` are falsy. -/
def Value.isTruthy : Value → Bool
  | .nil => false
  | .bool b => b
  | _ => true

/-- `Value::type_name`. -/
def Value.typeName : Value → String
  | .int _ => "int"
  | .float _ => "float"
  | .string _ => "string"
  | .bool _ => "bool"
  | .nil => "nil"
  | .table _ => "table"
  | .function _ => "function"
  | .nativeFunction _ => "function"
  | .pointer _ => "pointer"

/-- `PartialEq for Value`: same-tag comparison on the primitive tags,
everything else (tables, functions, pointers, cross-tag) is `false`.
Float comparison is IEEE `==`. -/
def valueEq : Value → Value → Bool
  | .int a, .int b => a == b
  | .float a, .float b => a == b
  | .string a, .string b => a == b
  | .bool a, .bool b => a == b
  | .nil, .nil => true
  | _, _ => false

mutual

/-- `Display for Value`. -/
def Value.display : Value → String
  | .int n => toString n
  | .float f => toString f
  | .string s => s
  | .bool b => if b then "true" else "false"
  | .nil => "nil"
  | .table t => TableValue.displayTable t
  | .function f => "<fn " ++ f.name ++ ">"
  | .nativeFunction f => "<native fn " ++ f.name ++ ">"
  | .pointer cell => "<pointer to " ++ cell.typeName ++ ">"

/-- The table branch of `Display for Value`. -/
def TableValue.displayTable : TableValue → String
  | .mk fields array _ =>
    if array.isEmpty && fields.isEmpty then "{}"
    else if fields.isEmpty then "[" ++ displayJoin array ++ "]"
    else "{...}"

/-- Comma-joined rendering of a positional array. -/
def displayJoin : List Value → String
  | [] => ""
  | [v] => v.display
  | v :: rest => v.display ++ ", " ++ displayJoin rest

end

/-- Task state (`async_runtime/executor.rs`, `TaskState`). -/
inductive TaskState where
  | pending
  | running
  | completed (v : Value)
  | failed (message : String)

/-- A spawned task (`async_runtime/executor.rs`, `Task`). -/
structure Task where
  id : Nat
  name : String
  body : List Stmt
  state : TaskState
  function : Option FunctionValue
  arguments : List Value

/-- `Task::new_with_function`. -/
def Task.newWithFunction (id : Nat) (f : FunctionValue)
    (arguments : List Value) : Task :=
  ⟨id, f.name, f.body, .pending, some f, arguments⟩

/-- Executor state (`async_runtime/executor.rs`, `AsyncExecutor`):
task vector, FIFO ready queue, next-id counter. -/
structure ExecutorSt where
  tasks : List Task
  readyQueue : List Nat
  nextTaskId : Nat

/-- `AsyncExecutor::new`. -/
def ExecutorSt.new : ExecutorSt := ⟨[], [], 0⟩

/-- `AsyncExecutor::spawn_function`: allocate the next id, append a
`Pending` task holding the function and arguments; the ready queue is
not touched (execution is demand-driven). Returns the new id. -/
def ExecutorSt.spawnFunction (e : ExecutorSt) (f : FunctionValue)
    (arguments : List Value) : Nat × ExecutorSt :=
  (e.nextTaskId,
   ⟨e.tasks ++ [Task.newWithFunction e.nextTaskId f arguments],
    e.readyQueue, e.nextTaskId + 1⟩)

/-- `AsyncExecutor::get_task`: first task with the given id. -/
def ExecutorSt.getTask (e : ExecutorSt) (taskId : Nat) : Option Task :=
  e.tasks.find? (fun t => t.id == taskId)

/-- The `iter_mut().find(...)` update of `update_task_state`: set the
state of the first task with the given id. -/
def updateTasks : List Task → Nat → TaskState → List Task
  | [], _, _ => []
  | t :: rest, taskId, state =>
    if t.id == taskId then { t with state := state } :: rest
    else t :: updateTasks rest taskId state

/-- `AsyncExecutor::update_task_state`: set the state of the first task
with the given id; a missing id is a no-op. -/
def ExecutorSt.updateTaskState (e : ExecutorSt) (taskId : Nat)
    (state : TaskState) : ExecutorSt :=
  ⟨updateTasks e.tasks taskId state, e.readyQueue, e.nextTaskId⟩

/-- Variable store (`runtime/interpreter.rs`, `Environment`); the head
of the list is the innermost scope (the Rust code keeps the innermost
scope at the end of a `Vec` and walks it in reverse). -/
structure Env where
  scopes : List (List (String × Value))

def Env.new : Env := ⟨[[]]⟩

/-- `Environment::push_scope`. -/
def Env.pushScope (e : Env) : Env := ⟨[] :: e.scopes⟩

/-- `Environment::pop_scope`: the outermost scope is never popped. -/
def Env.popScope (e : Env) : Env :=
  match e.scopes with
  | s :: rest => if rest.isEmpty then ⟨[s]⟩ else ⟨rest⟩
  | [] => ⟨[]⟩

/-- `Environment::define`: insert into the innermost scope. -/
def Env.define (e : Env) (name : String) (v : Value) : Env :=
  match e.scopes with
  | s :: rest => ⟨insertField s name v :: rest⟩
  | [] => ⟨[]⟩

/-- `Environment::get`: walk scopes from innermost to outermost. -/
def Env.get (e : Env) (name : String) : Option Value :=
  envLookup e.scopes name
where
  envLookup : List (List (String × Value)) → String → Option Value
    | [], _ => none
    | s :: rest, name =>
      match lookupField s name with
      | some v => some v
      | none => envLookup rest name

/-- `Environment::set`: overwrite the binding in the innermost scope
that already contains the name; returns `none` (Rust `false`) when no
scope binds it. -/
def Env.set (e : Env) (name : String) (v : Value) : Option Env :=
  (envAssign e.scopes name v).map Env.mk
where
  envAssign : List (List (String × Value)) → String → Value →
      Option (List (List (String × Value)))
    | [], _, _ => none
    | s :: rest, name, v =>
      if (lookupField s name).isSome then
        some (insertField s name v :: rest)
      else
        (envAssign rest name v).map (fun r => s :: r)

/-- Control-flow register (`runtime/interpreter.rs`, `ControlFlow`). -/
inductive CtrlFlow where
  | none
  | ret (v : Value)
  | breakLoop
  | continueLoop

/-- Interpreter state (`runtime/interpreter.rs`, `Interpreter`): the
variable store, the control-flow register, the shared executor handle,
and the text printed to stdout so far (one entry per `println!`). -/
structure IState where
  env : Env
  control : CtrlFlow
  exec : ExecutorSt
  output : List String
  loadedModules : List String
  currentFileDir : Option String

/-- Failure modes of an evaluator step: a `LuxError` value returned by
the code, a Rust abort (panic), or fuel exhaustion (embedding artifact). -/
inductive RunErr where
  | lux (e : LuxError)
  | panicked (message : String)
  | fuel

/-- Outcome of a stateful step; errors also carry the state at the
point of failure, as mutations through `&mut self` persist in Rust. -/
inductive Res (α : Type) where
  | ok (a : α) (st : IState)
  | err (e : RunErr) (st : IState)

/-- The interpreter state carried out of a computation, on either path. -/
def Res.state {α : Type} : Res α → IState
  | .ok _ st => st
  | .err _ st => st

/-- State-passing computation over the interpreter state. -/
def M (α : Type) : Type := IState → Res α

def M.pure {α : Type} (a : α) : M α := fun st => .ok a st

def M.bind {α β : Type} (m : M α) (f : α → M β) : M β := fun st =>
  match m st with
  | .ok a st' => f a st'
  | .err e st' => .err e st'

instance : Monad M where
  pure := M.pure
  bind := M.bind

def M.throw {α : Type} (e : RunErr) : M α := fun st => .err e st

def M.runtimeErr {α : Type} (message : String)
    (loc : Option SourceLocation) : M α :=
  M.throw (.lux (.runtimeError message loc))

def M.getState : M IState := fun st => .ok st st

def M.setState (st : IState) : M Unit := fun _ => .ok () st

def M.modifyEnv (f : Env → Env) : M Unit := fun st =>
  .ok () { st with env := f st.env }

def M.modifyExec (f : ExecutorSt → ExecutorSt) : M Unit := fun st =>
  .ok () { st with exec := f st.exec }

/-- `println!` of a rendered value. -/
def M.printLine (s : String) : M Unit := fun st =>
  .ok () { st with output := st.output ++ [s] }

/-- Rust `as usize` on an `i64`: two's-complement wrap into 64 bits. -/
def usizeOfI64 (n : Int) : Nat := (n % ((2 : Int) ^ 64)).toNat

/-- Rust `as i64` on a `usize`: two's-complement wrap into 64 bits. -/
def i64OfUsize (n : Nat) : Int :=
  let m : Nat := n % 2 ^ 64
  if m < 2 ^ 63 then (m : Int) else (m : Int) - 2 ^ 64

/-- `Debug` formatting of a binary operator (derived in Rust). -/
def BinaryOp.debug : BinaryOp → String
  | .add => "Add"
  | .subtract => "Subtract"
  | .multiply => "Multiply"
  | .divide => "Divide"
  | .modulo => "Modulo"
  | .equal => "Equal"
  | .notEqual => "NotEqual"
  | .less => "Less"
  | .lessEqual => "LessEqual"
  | .greater => "Greater"
  | .greaterEqual => "GreaterEqual"

/-- `Interpreter::eval_binary` (`runtime/interpreter.rs:1426`). `i64`
overflow aside, Rust `/` is truncated division (`Int.tdiv`) and `%`
truncated remainder (`Int.tmod`). The `Divide` arm checks for a zero
divisor and returns a `LuxError`; the `Modulo` arm computes `a % b`
directly, which in Rust aborts the process when `b == 0` — modelled as
`RunErr.panicked`. -/
def evalBinary (left : Value) (op : BinaryOp) (right : Value)
    (loc : SourceLocation) : Except RunErr Value :=
  match left, right with
  | .int a, .int b =>
    match op with
    | .add => .ok (.int (a + b))
    | .subtract => .ok (.int (a - b))
    | .multiply => .ok (.int (a * b))
    | .divide =>
      if b = 0 then
        .error (.lux (.runtimeError "Division by zero" (some loc)))
      else .ok (.int (a.tdiv b))
    | .modulo =>
      if b = 0 then
        .error (.panicked
          "attempt to calculate the remainder with a divisor of zero")
      else .ok (.int (a.tmod b))
    | .equal => .ok (.bool (a == b))
    | .notEqual => .ok (.bool (a != b))
    | .less => .ok (.bool (a < b))
    | .lessEqual => .ok (.bool (a ≤ b))
    | .greater => .ok (.bool (b < a))
    | .greaterEqual => .ok (.bool (b ≤ a))
  | .float a, .float b =>
    match op with
    | .add => .ok (.float (a + b))
    | .subtract => .ok (.float (a - b))
    | .multiply => .ok (.float (a * b))
    | .divide => .ok (.float (a / b))
    | .modulo => .ok (.float (floatRem a b))
    | .equal => .ok (.bool (a == b))
    | .notEqual => .ok (.bool (a != b))
    | .less => .ok (.bool (decide (a < b)))
    | .lessEqual => .ok (.bool (decide (a ≤ b)))
    | .greater => .ok (.bool (decide (b < a)))
    | .greaterEqual => .ok (.bool (decide (b ≤ a)))
  | .string a, .string b =>
    match op with
    | .add => .ok (.string (a ++ b))
    | .equal => .ok (.bool (a == b))
    | .notEqual => .ok (.bool (a != b))
    | _ => .error (.lux (.runtimeError
      ("Unsupported operation " ++ op.debug ++ " for strings")
      (some loc)))
  | a, b =>
    if op = .equal then .ok (.bool (valueEq a b))
    else if op = .notEqual then .ok (.bool (!valueEq a b))
    else .error (.lux (.runtimeError
      ("Type mismatch: cannot apply " ++ op.debug ++ " to "
        ++ a.typeName ++ " and " ++ b.typeName) (some loc)))
where
  /-- Rust `%` on `f64` (C `fmod`, remainder with the dividend's sign):
  `a - b * trunc(a / b)`. `Float` is opaque to the kernel, so this
  symbolic rendering is never evaluated by any proof. -/
  floatRem (a b : Float) : Float :=
    a - b * (if a / b < 0 then (a / b).ceil else (a / b).floor)

/-- `Interpreter::eval_unary` (`runtime/interpreter.rs:1489`). The
string length is the Rust byte length. The poisoned-mutex branch of
`Dereference` cannot arise in the snapshot model of pointer cells. -/
def evalUnary (op : UnaryOp) (operand : Value) (loc : SourceLocation) :
    Except RunErr Value :=
  match op with
  | .negate =>
    match operand with
    | .int n => .ok (.int (-n))
    | .float f => .ok (.float (-f))
    | _ => .error (.lux (.runtimeError
      ("Cannot negate " ++ operand.typeName) (some loc)))
  | .notOp => .ok (.bool (!operand.isTruthy))
  | .length =>
    match operand with
    | .table t => .ok (.int (t.len : Int))
    | .string s => .ok (.int (s.utf8ByteSize : Int))
    | _ => .error (.lux (.runtimeError
      ("Cannot get length of " ++ operand.typeName) (some loc)))
  | .addressOf => .ok (.pointer operand)
  | .dereference =>
    match operand with
    | .pointer cell => .ok cell
    | _ => .error (.lux (.runtimeError
      ("Cannot dereference non-pointer type " ++ operand.typeName)
      (some loc)))

/-- The names and arities registered by
`Interpreter::register_builtins`, in registration order. -/
def builtinNatives : List (String × Nat) :=
  [("print", 1), ("setmetatable", 2), ("getmetatable", 1),
   ("read_file", 1), ("write_file", 2), ("string_split", 2),
   ("string_contains", 2), ("string_starts_with", 2),
   ("string_trim", 1), ("string_length", 1), ("table_length", 1),
   ("table_push", 2), ("parse_lux", 1), ("type_of", 1),
   ("to_string", 1), ("to_int", 1), ("to_float", 1), ("substring", 3),
   ("string_replace", 3), ("string_upper", 1), ("string_lower", 1),
   ("string_ends_with", 2), ("sqrt", 1), ("pow", 2), ("abs", 1),
   ("floor", 1), ("ceil", 1), ("min", 2), ("max", 2)]

/-- The host procedure bound to a registered native name, dispatched by
name (the Rust registry stores a function pointer). `print` and the
metatable accessors belong to the specified core and are modelled in
full; the spec places the remaining builtins outside the core
("external collaborators"), and none is reached by any claim — they
are modelled as host procedures whose behaviour is not specified,
reporting an error through the native error-string channel. -/
def runNative (name : String) (args : List Value)
    (loc : SourceLocation) : M Value :=
  if name = "print" then do
    M.printLine (args.getD 0 .nil).display
    pure .nil
  else if name = "setmetatable" then
    match args.getD 0 .nil, args.getD 1 .nil with
    | .table t, .table m => pure (.table (.mk t.fields t.array (some m)))
    | _, _ => M.runtimeErr "setmetatable expects two tables" (some loc)
  else if name = "getmetatable" then
    match args.getD 0 .nil with
    | .table t =>
      match t.metatable with
      | some m => pure (.table m)
      | none => pure .nil
    | _ => M.runtimeErr "getmetatable expects a table" (some loc)
  else
    M.runtimeErr (name ++ ": host procedure outside the modelled core")
      (some loc)

/-- `Interpreter::new` plus `register_builtins`: the global scope holds
every registered native. -/
def initialEnv : Env :=
  builtinNatives.foldl
    (fun e p => e.define p.1 (.nativeFunction ⟨p.1, p.2⟩)) Env.new

/-- The interpreter state `Interpreter::new` constructs. -/
def IState.initial : IState :=
  ⟨initialEnv, .none, ExecutorSt.new, [], [], none⟩

/-- The bundle of mutually recursive evaluator entry points
(`runtime/interpreter.rs`); recursion is closed off by fuel in
`evalFns` below. -/
structure EvalFns where
  evalExpr : Expr → M Value
  execStmt : Stmt → M Unit
  whileLoop : Expr → List Stmt → M Unit
  forIter : Option Expr → Option Expr → List Stmt → M Unit
  callFunction : Value → List Value → SourceLocation → M Value
  executeTask : Nat → FunctionValue → List Value → M Value

/-- Left-to-right evaluation of call arguments
(`Expr::Call` / `Expr::Spawn` argument loops). -/
def evalArgsWith (ev : Expr → M Value) : List Expr → M (List Value)
  | [] => pure []
  | e :: rest => do
    let v ← ev e
    let vs ← evalArgsWith ev rest
    pure (v :: vs)

/-- The `Expr::Table` constructor loop: each entry's value is evaluated
first; an identifier key inserts into the field map, a computed key
goes through `TableValue::set`. -/
def evalEntriesWith (ev : Expr → M Value) :
    List (TableKey × Expr) → TableValue → M TableValue
  | [], acc => pure acc
  | (key, valueExpr) :: rest, acc => do
    let v ← ev valueExpr
    match key with
    | .identifier name =>
      evalEntriesWith ev rest (.mk (insertField acc.fields name v)
        acc.array acc.metatable)
    | .expression keyExpr => do
      let kv ← ev keyExpr
      evalEntriesWith ev rest (acc.set kv v)

/-- Statement-list execution that stops as soon as the control-flow
register leaves `None` (the loop shape of `Stmt::Block` and the `If`
branches). -/
def execSeqWith (ex : Stmt → M Unit) : List Stmt → M Unit
  | [] => pure ()
  | s :: rest => do
    ex s
    let st ← M.getState
    match st.control with
    | .none => execSeqWith ex rest
    | _ => pure ()

/-- Statement-list execution that stops only on `Return` (the body
loops of `Interpreter::call_function` and `Interpreter::execute_task`). -/
def execRetOnlyWith (ex : Stmt → M Unit) : List Stmt → M Unit
  | [] => pure ()
  | s :: rest => do
    ex s
    let st ← M.getState
    match st.control with
    | .ret _ => pure ()
    | _ => execRetOnlyWith ex rest

/-- Signal produced by one pass over a loop body. -/
inductive LoopSig where
  | normal
  | brk
  | cont
  | ret

/-- The body loop shared by `While` and `For`: run statements until the
register leaves `None`, reporting which signal stopped the pass. -/
def loopBodyWith (ex : Stmt → M Unit) : List Stmt → M LoopSig
  | [] => pure .normal
  | s :: rest => do
    ex s
    let st ← M.getState
    match st.control with
    | .none => loopBodyWith ex rest
    | .breakLoop => pure .brk
    | .continueLoop => pure .cont
    | .ret _ => pure .ret

def M.setControl (c : CtrlFlow) : M Unit := fun st =>
  .ok () { st with control := c }

/-- Assignment into an assignment target. A plain variable goes
through `Environment::set` exactly as `interpreter.rs:1105` does.

Modelled from the spec: the evaluator's handling of an assignment
whose target is a table-access expression is missing from `src/` (the
`Expr::Assign` arm of `interpreter.rs` predates `parser.rs`, which
builds expression targets, and only handles a plain variable name);
following §4.2/§4.4 and scenario 5 of the spec, the base is read, the
keyed slot is updated through `TableValue::set`, and the updated table
is written back into the base location. -/
def assignIntoWith (ev : Expr → M Value) :
    Expr → Value → SourceLocation → M Unit
  | .variable name _, val, loc => do
    let st ← M.getState
    match st.env.set name val with
    | some env' => M.setState { st with env := env' }
    | none =>
      M.runtimeErr ("Undefined variable '" ++ name ++ "'") (some loc)
  | .tableAccess base key _, val, loc => do
    let bv ← ev base
    let kv ← ev key
    match bv with
    | .table t => assignIntoWith ev base (.table (t.set kv val)) loc
    | _ => M.runtimeErr "Can only index tables" (some loc)
  | _, _, loc => M.runtimeErr "Invalid assignment target" (some loc)

/-- The single-task case of `Expr::Await`
(`runtime/interpreter.rs:1230`). -/
def awaitIntWith (F : EvalFns) (taskId : Int)
    (loc : SourceLocation) : M Value := do
  let st ← M.getState
  match st.exec.getTask (usizeOfI64 taskId) with
  | some task =>
    match task.state with
    | .completed v => pure v
    | .failed msg =>
      M.runtimeErr ("Task " ++ toString taskId ++ " failed: " ++ msg)
        (some loc)
    | .pending =>
      match task.function with
      | some f => F.executeTask (usizeOfI64 taskId) f task.arguments
      | none =>
        M.runtimeErr
          ("Task " ++ toString taskId ++ " has no function to execute")
          (some loc)
    | .running =>
      M.runtimeErr ("Task " ++ toString taskId ++ " is in invalid state")
        (some loc)
  | none =>
    M.runtimeErr ("Task " ++ toString taskId ++ " not found") (some loc)

/-- One join-thread of the table case of `Expr::Await`: a fresh
interpreter over a clone of the variable store and the shared executor
handle runs the task. The join model is sequential (§4.5's demand-
driven semantics): the thread's `LuxResult` is discarded at the join
exactly as `handle.join()` discards it — only a panic aborts —
while its executor and stdout effects are shared. -/
def runTaskThreadWith
    (exec : Nat → FunctionValue → List Value → M Value)
    (tid : Nat) (f : FunctionValue) (args : List Value) : M Unit :=
  fun st =>
    let threadSt : IState :=
      ⟨st.env, .none, st.exec, st.output, [], none⟩
    match exec tid f args threadSt with
    | .ok _ st' =>
      .ok () { st with exec := st'.exec, output := st'.output }
    | .err (.lux _) st' =>
      .ok () { st with exec := st'.exec, output := st'.output }
    | .err .fuel st' =>
      .err .fuel { st with exec := st'.exec, output := st'.output }
    | .err (.panicked m) st' =>
      .err (.panicked m)
        { st with exec := st'.exec, output := st'.output }

/-- The first collection loop of the table `Await`: each positional
entry must be an `Int` id naming a registered task; every `Pending`
task that holds a function is dispatched. Returns the ids in input
order. -/
def runPendingListWith
    (exec : Nat → FunctionValue → List Value → M Value)
    (loc : SourceLocation) : List Value → M (List Nat)
  | [] => pure []
  | v :: rest =>
    match v with
    | .int taskId => do
      let tid := usizeOfI64 taskId
      let st ← M.getState
      match st.exec.getTask tid with
      | some task => do
        (match task.state, task.function with
         | .pending, some f => runTaskThreadWith exec tid f task.arguments
         | _, _ => pure ())
        let tids ← runPendingListWith exec loc rest
        pure (tid :: tids)
      | none =>
        M.runtimeErr ("Task " ++ toString taskId ++ " not found")
          (some loc)
    | _ =>
      M.runtimeErr "await table must contain only task IDs (integers)"
        (some loc)

/-- The named-field analogue of `runPendingListWith`. -/
def runPendingFieldsWith
    (exec : Nat → FunctionValue → List Value → M Value)
    (loc : SourceLocation) :
    List (String × Value) → M (List (String × Nat))
  | [] => pure []
  | (key, v) :: rest =>
    match v with
    | .int taskId => do
      let tid := usizeOfI64 taskId
      let st ← M.getState
      match st.exec.getTask tid with
      | some task => do
        (match task.state, task.function with
         | .pending, some f => runTaskThreadWith exec tid f task.arguments
         | _, _ => pure ())
        let pairs ← runPendingFieldsWith exec loc rest
        pure ((key, tid) :: pairs)
      | none =>
        M.runtimeErr ("Task " ++ toString taskId ++ " not found")
          (some loc)
    | _ =>
      M.runtimeErr "await table must contain only task IDs (integers)"
        (some loc)

/-- The result-collection loop over positional ids: a `Completed` task
contributes its value, a `Failed` task aborts the join, and (as in the
source's `if let Some`) an id that is no longer registered is silently
skipped. -/
def collectArr (loc : SourceLocation) : List Nat → M (List Value)
  | [] => pure []
  | tid :: rest => do
    let st ← M.getState
    match st.exec.getTask tid with
    | some task =>
      match task.state with
      | .completed v => do
        let vs ← collectArr loc rest
        pure (v :: vs)
      | .failed msg =>
        M.runtimeErr ("Task " ++ toString tid ++ " failed: " ++ msg)
          (some loc)
      | _ =>
        M.runtimeErr ("Task " ++ toString tid ++ " did not complete")
          (some loc)
    | none => collectArr loc rest

/-- The result-collection loop over named ids. -/
def collectFields (loc : SourceLocation) :
    List (String × Nat) → M (List (String × Value))
  | [] => pure []
  | (key, tid) :: rest => do
    let st ← M.getState
    match st.exec.getTask tid with
    | some task =>
      match task.state with
      | .completed v => do
        let fs ← collectFields loc rest
        pure ((key, v) :: fs)
      | .failed msg =>
        M.runtimeErr ("Task " ++ toString tid ++ " failed: " ++ msg)
          (some loc)
      | _ =>
        M.runtimeErr ("Task " ++ toString tid ++ " did not complete")
          (some loc)
    | none => collectFields loc rest

/-- The table case of `Expr::Await` (`runtime/interpreter.rs:1263`):
dispatch every pending task of the join set (array entries first, then
named fields), join, then assemble the result table mirroring the
input shape. A panic in a join thread surfaces as the
`"Task thread panicked"` runtime error (the payload rendered as Rust's
`Box<dyn Any>` debug output). -/
def awaitTableWith (F : EvalFns) (t : TableValue)
    (loc : SourceLocation) : M (Value) := fun st =>
  match (do
      let tids ← runPendingListWith F.executeTask loc t.array
      let pairs ← runPendingFieldsWith F.executeTask loc t.fields
      pure (tids, pairs)) st with
  | .err (.panicked _) st' =>
    .err (.lux (.runtimeError "Task thread panicked: Any { .. }"
      (some loc))) st'
  | .err e st' => .err e st'
  | .ok (tids, pairs) st' =>
    (do
      let vs ← collectArr loc tids
      let fs ← collectFields loc pairs
      pure (Value.table (.mk fs vs none))) st'

/-- Parameter binding of `call_function`: positional `zip`. -/
def bindParams (pairs : List (String × Value)) : M Unit :=
  M.modifyEnv (fun env =>
    pairs.foldl (fun e p => e.define p.1 p.2) env)

/-- One level of every evaluator entry point, with the recursive
occurrences supplied by `F` (`runtime/interpreter.rs`). -/
def stepFns (F : EvalFns) : EvalFns where
  evalExpr e :=
    match e with
    | .literal v _ =>
      match v with
      | .integer n => pure (.int n)
      | .float f => pure (.float f)
      | .string s => pure (.string s)
      | .boolean b => pure (.bool b)
      | .nil => pure .nil
    | .variable name loc => do
      let st ← M.getState
      match st.env.get name with
      | some v => pure v
      | none =>
        M.runtimeErr ("Undefined variable '" ++ name ++ "'") (some loc)
    | .binary left op right loc => do
      let lv ← F.evalExpr left
      let rv ← F.evalExpr right
      match evalBinary lv op rv loc with
      | .ok v => pure v
      | .error e => M.throw e
    | .unary op operand loc => do
      let v ← F.evalExpr operand
      match evalUnary op v loc with
      | .ok r => pure r
      | .error e => M.throw e
    | .assign target value loc => do
      let val ← F.evalExpr value
      assignIntoWith F.evalExpr target val loc
      pure val
    | .call callee arguments loc => do
      let func ← F.evalExpr callee
      let args ← evalArgsWith F.evalExpr arguments
      F.callFunction func args loc
    | .table fields _ => do
      let t ← evalEntriesWith F.evalExpr fields TableValue.new
      pure (.table t)
    | .tableAccess tbl key loc => do
      let tv ← F.evalExpr tbl
      let kv ← F.evalExpr key
      match tv with
      | .table t => pure ((t.get kv).getD .nil)
      | _ => M.runtimeErr "Can only index tables" (some loc)
    | .logical left op right _ => do
      let lv ← F.evalExpr left
      match op with
      | .andOp => if !lv.isTruthy then pure lv else F.evalExpr right
      | .orOp => if lv.isTruthy then pure lv else F.evalExpr right
    | .function params _ body _ =>
      pure (.function ⟨"<anonymous>", params.map Prod.fst, body, false⟩)
    | .spawn callExpr loc =>
      match callExpr with
      | .call callee arguments _ => do
        let funcValue ← F.evalExpr callee
        match funcValue with
        | .function f => do
          let args ← evalArgsWith F.evalExpr arguments
          let st ← M.getState
          let (taskId, exec') := st.exec.spawnFunction f args
          M.setState { st with exec := exec' }
          pure (.int (i64OfUsize taskId))
        | _ =>
          M.runtimeErr "spawn expects a function call" (some loc)
      | _ =>
        M.runtimeErr "spawn expects a function call expression"
          (some loc)
    | .await task loc => do
      let tv ← F.evalExpr task
      match tv with
      | .int taskId => awaitIntWith F taskId loc
      | .table t => awaitTableWith F t loc
      | _ =>
        M.runtimeErr
          "await expects a task ID (integer) or table of task IDs"
          (some loc)
  execStmt s :=
    match s with
    | .importStmt path loc => do
      let st ← M.getState
      if st.loadedModules.contains path then pure ()
      else
        -- The host filesystem is modelled as empty, so
        -- `resolve_module_path` finds no candidate file.
        M.runtimeErr ("Module '" ++ path ++ "' not found") (some loc)
    | .varDecl name _ initializer _ _ => do
      let value ← match initializer with
        | some init => F.evalExpr init
        | none => pure Value.nil
      M.modifyEnv (fun env => env.define name value)
    | .functionDecl name params _ body isAsync _ =>
      M.modifyEnv (fun env =>
        env.define name (.function ⟨name, params.map Prod.fst, body,
          isAsync⟩))
    | .exprStmt e _ => do
      let _ ← F.evalExpr e
      pure ()
    | .ifStmt condition thenBranch elseBranch _ => do
      let cond ← F.evalExpr condition
      if cond.isTruthy then execSeqWith F.execStmt thenBranch
      else
        match elseBranch with
        | some elseStmts => execSeqWith F.execStmt elseStmts
        | none => pure ()
    | .whileStmt condition body _ => F.whileLoop condition body
    | .forStmt initializer condition increment body _ => do
      M.modifyEnv Env.pushScope
      (match initializer with
       | some init => F.execStmt init
       | none => pure ())
      F.forIter condition increment body
    | .returnStmt value _ => do
      let v ← match value with
        | some e => F.evalExpr e
        | none => pure Value.nil
      M.setControl (.ret v)
    | .breakStmt _ => M.setControl .breakLoop
    | .continueStmt _ => M.setControl .continueLoop
    | .block statements _ => do
      M.modifyEnv Env.pushScope
      execSeqWith F.execStmt statements
      M.modifyEnv Env.popScope
  whileLoop condition body := do
    let cond ← F.evalExpr condition
    if !cond.isTruthy then pure ()
    else do
      let sig ← loopBodyWith F.execStmt body
      match sig with
      | .brk => M.setControl .none
      | .ret => pure ()
      | .cont => do
        M.setControl .none
        F.whileLoop condition body
      | .normal => F.whileLoop condition body
  forIter condition increment body := do
    let proceed ← match condition with
      | some cond => do
        let v ← F.evalExpr cond
        pure v.isTruthy
      | none => pure true
    if !proceed then M.modifyEnv Env.popScope
    else do
      let sig ← loopBodyWith F.execStmt body
      match sig with
      | .brk => do
        M.setControl .none
        M.modifyEnv Env.popScope
      | .ret => M.modifyEnv Env.popScope
      | .cont => do
        M.setControl .none
        (match increment with
         | some inc => do
           let _ ← F.evalExpr inc
           pure ()
         | none => pure ())
        F.forIter condition increment body
      | .normal => do
        (match increment with
         | some inc => do
           let _ ← F.evalExpr inc
           pure ()
         | none => pure ())
        F.forIter condition increment body
  callFunction func args loc :=
    match func with
    | .nativeFunction native =>
      if args.length ≠ native.arity then
        M.runtimeErr ("Expected " ++ toString native.arity
          ++ " arguments but got " ++ toString args.length) (some loc)
      else runNative native.name args loc
    | .function userFunc =>
      if args.length ≠ userFunc.params.length then
        M.runtimeErr ("Expected " ++ toString userFunc.params.length
          ++ " arguments but got " ++ toString args.length) (some loc)
      else do
        M.modifyEnv Env.pushScope
        bindParams (userFunc.params.zip args)
        execRetOnlyWith F.execStmt userFunc.body
        let st ← M.getState
        match st.control with
        | .ret v => do
          M.setControl .none
          M.modifyEnv Env.popScope
          pure v
        | _ => do
          M.modifyEnv Env.popScope
          M.setControl .none
          pure .nil
    | _ =>
      M.runtimeErr ("Cannot call " ++ func.typeName) (some loc)
  executeTask taskId f args := fun st =>
    let st0 : IState := { st with env := st.env.pushScope }
    let st1 : IState := { st0 with
      env := (f.params.zip args).foldl
        (fun env p => env.define p.1 p.2) st0.env }
    match execRetOnlyWith F.execStmt f.body st1 with
    | .err (.lux e) st2 =>
      let st3 : IState := { st2 with
        exec := st2.exec.updateTaskState taskId (.failed e.display),
        env := st2.env.popScope }
      .err (.lux e) st3
    | .err other st2 => .err other st2
    | .ok () st2 =>
      let returnValue := match st2.control with
        | .ret v => v
        | _ => Value.nil
      let st3 : IState := { st2 with
        control := .none,
        exec := st2.exec.updateTaskState taskId
          (.completed returnValue),
        env := st2.env.popScope }
      .ok returnValue st3

/-- The evaluator with `fuel` levels of recursion; exhausted fuel is
the distinguished outcome `RunErr.fuel`. -/
def evalFns : Nat → EvalFns
  | 0 =>
    ⟨fun _ => M.throw .fuel, fun _ => M.throw .fuel,
     fun _ _ => M.throw .fuel, fun _ _ _ => M.throw .fuel,
     fun _ _ _ => M.throw .fuel, fun _ _ _ => M.throw .fuel⟩
  | fuel + 1 => stepFns (evalFns fuel)

/-- `Interpreter::eval_expr`. -/
def evalExpr (fuel : Nat) (e : Expr) : M Value := (evalFns fuel).evalExpr e

/-- `Interpreter::execute_stmt`. -/
def execStmt (fuel : Nat) (s : Stmt) : M Unit := (evalFns fuel).execStmt s

/-- `Interpreter::call_function`. -/
def callFunction (fuel : Nat) (func : Value) (args : List Value)
    (loc : SourceLocation) : M Value :=
  (evalFns fuel).callFunction func args loc

/-- `Interpreter::execute_task`. -/
def executeTask (fuel : Nat) (taskId : Nat) (f : FunctionValue)
    (args : List Value) : M Value :=
  (evalFns fuel).executeTask taskId f args

/-- The table case of `Expr::Await` at a given fuel. -/
def awaitTable (fuel : Nat) (t : TableValue) (loc : SourceLocation) :
    M Value :=
  awaitTableWith (evalFns fuel) t loc

/-- `Interpreter::interpret`: run the top-level statements, stopping
early only on a `Return` in the register. -/
def interpretStmts (fuel : Nat) : List Stmt → M Unit
  | [] => pure ()
  | s :: rest => do
    execStmt fuel s
    let st ← M.getState
    match st.control with
    | .ret _ => pure ()
    | _ => interpretStmts fuel rest

def interpret (fuel : Nat) (ast : Ast) : M Unit :=
  interpretStmts fuel ast.statements

/-! ## Lexer (`lexer/scanner.rs`) -/

/-- Lexer state (`Lexer`): character vector, emitted tokens, token
start, cursor, 1-based line/column, optional filename. -/
structure LexSt where
  source : List Char
  tokens : List Token
  start : Nat
  current : Nat
  line : Nat
  column : Nat
  filename : Option String

/-- `Lexer::new`. -/
def LexSt.new (source : String) (filename : Option String) : LexSt :=
  ⟨source.toList, [], 0, 0, 1, 1, filename⟩

/-- Lexer computations; indexing beyond the character vector is the
Rust out-of-bounds abort. -/
def LexM (α : Type) : Type := LexSt → Except RunErr (α × LexSt)

def LexM.pure {α : Type} (a : α) : LexM α := fun st => .ok (a, st)

def LexM.bind {α β : Type} (m : LexM α) (f : α → LexM β) : LexM β :=
  fun st =>
    match m st with
    | .ok (a, st') => f a st'
    | .error e => .error e

instance : Monad LexM where
  pure := LexM.pure
  bind := LexM.bind

def LexM.get : LexM LexSt := fun st => .ok (st, st)

def LexM.set (st : LexSt) : LexM Unit := fun _ => .ok ((), st)

def LexM.fail {α : Type} (e : RunErr) : LexM α := fun _ => .error e

def LexSt.isAtEnd (st : LexSt) : Bool := st.current ≥ st.source.length

def LexSt.currentLocation (st : LexSt) : SourceLocation :=
  ⟨st.line, st.column, st.filename⟩

/-- `Lexer::error`. -/
def LexM.lexError {α : Type} (message : String) : LexM α := fun st =>
  .error (.lux (.lexerError message st.currentLocation))

/-- `Lexer::advance`: read the cursor character, move the cursor and
column. -/
def LexM.advance : LexM Char := fun st =>
  match st.source.get? st.current with
  | some c =>
    .ok (c, { st with current := st.current + 1,
                      column := st.column + 1 })
  | none => .error (.panicked "index out of bounds")

/-- `Lexer::peek` (`'\0'` at end of input). -/
def LexSt.peek (st : LexSt) : Char :=
  if st.isAtEnd then '\x00' else st.source.getD st.current '\x00'

/-- `Lexer::peek_next`. -/
def LexSt.peekNext (st : LexSt) : Char :=
  if st.current + 1 ≥ st.source.length then '\x00'
  else st.source.getD (st.current + 1) '\x00'

/-- `Lexer::match_char`. -/
def LexM.matchChar (expected : Char) : LexM Bool := fun st =>
  if st.isAtEnd || st.source.getD st.current '\x00' ≠ expected then
    .ok (false, st)
  else
    .ok (true, { st with current := st.current + 1,
                         column := st.column + 1 })

/-- `Lexer::add_token`: the lexeme is the source slice from `start` to
`current`; the recorded column is backed up by the lexeme length. -/
def LexM.addToken (tokenType : TokenType) : LexM Unit := fun st =>
  let lexeme := String.mk ((st.source.drop st.start).take
    (st.current - st.start))
  let location : SourceLocation :=
    ⟨st.line, st.column - (st.current - st.start), st.filename⟩
  .ok ((), { st with tokens := st.tokens ++ [⟨tokenType, lexeme,
    location⟩] })

/-- Digit run to a natural number. -/
def digitsToNat (cs : List Char) : Nat :=
  cs.foldl (fun acc c => acc * 10 + (c.toNat - '0'.toNat)) 0

/-- `//` comment: skip to end of line. -/
def skipLineComment : Nat → LexM Unit
  | 0 => LexM.fail .fuel
  | fuel + 1 => do
    let st ← LexM.get
    if st.peek ≠ '\n' && !st.isAtEnd then do
      let _ ← LexM.advance
      skipLineComment fuel
    else pure ()

/-- `Lexer::scan_multiline_comment`: nesting depth counter. -/
def scanMultilineComment : Nat → Nat → LexM Unit
  | 0, _ => LexM.fail .fuel
  | fuel + 1, depth =>
    if depth = 0 then pure ()
    else do
      let st ← LexM.get
      if st.isAtEnd then
        LexM.lexError "Unterminated multi-line comment"
      else if st.peek = '/' && st.peekNext = '*' then do
        let _ ← LexM.advance
        let _ ← LexM.advance
        scanMultilineComment fuel (depth + 1)
      else if st.peek = '*' && st.peekNext = '/' then do
        let _ ← LexM.advance
        let _ ← LexM.advance
        scanMultilineComment fuel (depth - 1)
      else do
        (if st.peek = '\n' then
          LexM.set { st with line := st.line + 1, column := 1 }
        else pure ())
        let _ ← LexM.advance
        scanMultilineComment fuel depth

/-- The body loop of `Lexer::scan_string`, accumulating the decoded
value. -/
def scanStringLoop : Nat → String → LexM String
  | 0, _ => LexM.fail .fuel
  | fuel + 1, value => do
    let st ← LexM.get
    if st.peek ≠ '"' && !st.isAtEnd then do
      (if st.peek = '\n' then
        LexM.set { st with line := st.line + 1, column := 1 }
      else pure ())
      let st' ← LexM.get
      if st'.peek = '\\' then do
        let _ ← LexM.advance
        let escaped ← LexM.advance
        match escaped with
        | 'n' => scanStringLoop fuel (value.push '\n')
        | 't' => scanStringLoop fuel (value.push '\t')
        | 'r' => scanStringLoop fuel (value.push '\r')
        | '\\' => scanStringLoop fuel (value.push '\\')
        | '"' => scanStringLoop fuel (value.push '"')
        | c =>
          LexM.lexError ("Invalid escape sequence '\\"
            ++ String.mk [c] ++ "'")
      else do
        let c ← LexM.advance
        scanStringLoop fuel (value.push c)
    else pure value

/-- `Lexer::scan_string`. -/
def scanString (fuel : Nat) : LexM Unit := do
  let value ← scanStringLoop fuel ""
  let st ← LexM.get
  if st.isAtEnd then LexM.lexError "Unterminated string"
  else do
    let _ ← LexM.advance
    LexM.addToken (.literal (.string value))

/-- Digit-run loop of `Lexer::scan_number`. -/
def scanDigits : Nat → LexM Unit
  | 0 => LexM.fail .fuel
  | fuel + 1 => do
    let st ← LexM.get
    if st.peek.isDigit then do
      let _ ← LexM.advance
      scanDigits fuel
    else pure ()

/-- `Lexer::scan_number`: digits, then a fractional part only when a
`.` is followed by a digit. Integer literals beyond `i64::MAX` fail to
parse. -/
def scanNumber (fuel : Nat) : LexM Unit := do
  scanDigits fuel
  let st ← LexM.get
  let isFloat ←
    if st.peek = '.' && st.peekNext.isDigit then do
      let _ ← LexM.advance
      scanDigits fuel
      pure true
    else pure false
  let st' ← LexM.get
  let lexChars := (st'.source.drop st'.start).take
    (st'.current - st'.start)
  if isFloat then
    let intPart := lexChars.takeWhile (fun c => c ≠ '.')
    let fracPart := (lexChars.dropWhile (fun c => c ≠ '.')).drop 1
    LexM.addToken (.literal (.float
      (Float.ofScientific (digitsToNat (intPart ++ fracPart)) true
        fracPart.length)))
  else
    let n := digitsToNat lexChars
    if n < 2 ^ 63 then
      LexM.addToken (.literal (.integer (n : Int)))
    else
      LexM.lexError ("Invalid integer literal '"
        ++ String.mk lexChars ++ "'")

/-- Identifier-continuation loop of `Lexer::scan_identifier`. -/
def scanIdentChars : Nat → LexM Unit
  | 0 => LexM.fail .fuel
  | fuel + 1 => do
    let st ← LexM.get
    if st.peek.isAlphanum || st.peek = '_' then do
      let _ ← LexM.advance
      scanIdentChars fuel
    else pure ()

/-- `Lexer::scan_identifier`: capture, then keyword lookup. -/
def scanIdentifier (fuel : Nat) : LexM Unit := do
  scanIdentChars fuel
  let st ← LexM.get
  let lexeme := String.mk ((st.source.drop st.start).take
    (st.current - st.start))
  match Keyword.ofString lexeme with
  | some k => LexM.addToken (.keyword k)
  | none => LexM.addToken .identifier

/-- `Lexer::scan_token`. -/
def scanToken (fuel : Nat) : LexM Unit := do
  let c ← LexM.advance
  match c with
  | ' ' => pure ()
  | '\r' => pure ()
  | '\t' => pure ()
  | '\n' => do
    let st ← LexM.get
    LexM.set { st with line := st.line + 1, column := 1 }
  | '(' => LexM.addToken .leftParen
  | ')' => LexM.addToken .rightParen
  | '{' => LexM.addToken .leftBrace
  | '}' => LexM.addToken .rightBrace
  | '[' => LexM.addToken .leftBracket
  | ']' => LexM.addToken .rightBracket
  | ',' => LexM.addToken .comma
  | '.' => LexM.addToken .dot
  | ';' => LexM.addToken .semicolon
  | '+' => LexM.addToken .plus
  | '*' => LexM.addToken .star
  | '%' => LexM.addToken .percent
  | '#' => LexM.addToken .hash
  | '-' => do
    let m ← LexM.matchChar '>'
    if m then LexM.addToken .arrow else LexM.addToken .minus
  | '=' => do
    let m ← LexM.matchChar '='
    if m then LexM.addToken .equal else LexM.addToken .assign
  | '!' => do
    let m ← LexM.matchChar '='
    if m then LexM.addToken .notEqual
    else LexM.lexError "Unexpected character '!'. Did you mean '!='?"
  | '<' => do
    let m ← LexM.matchChar '='
    if m then LexM.addToken .lessEqual else LexM.addToken .less
  | '>' => do
    let m ← LexM.matchChar '='
    if m then LexM.addToken .greaterEqual else LexM.addToken .greater
  | ':' => do
    let m ← LexM.matchChar '='
    if m then LexM.addToken .colonAssign else LexM.addToken .colon
  | '/' => do
    let m ← LexM.matchChar '/'
    if m then skipLineComment fuel
    else do
      let m2 ← LexM.matchChar '*'
      if m2 then scanMultilineComment fuel 1
      else LexM.addToken .slash
  | '"' => scanString fuel
  | c =>
    if c.isDigit then scanNumber fuel
    else if c.isAlpha || c = '_' then scanIdentifier fuel
    else
      LexM.lexError ("Unexpected character '" ++ String.mk [c] ++ "'")

/-- The main loop of `Lexer::tokenize`. -/
def tokenizeLoop : Nat → LexM Unit
  | 0 => LexM.fail .fuel
  | fuel + 1 => do
    let st ← LexM.get
    if st.isAtEnd then pure ()
    else do
      LexM.set { st with start := st.current }
      scanToken fuel
      tokenizeLoop fuel

/-- `Lexer::tokenize`: scan every token, then append the end-of-input
sentinel. -/
def tokenize (fuel : Nat) (source : String) (filename : Option String) :
    Except RunErr (List Token) :=
  match (tokenizeLoop fuel) (LexSt.new source filename) with
  | .ok (_, st) =>
    .ok (st.tokens ++ [⟨.eof, "", st.currentLocation⟩])
  | .error e => .error e

/-! ## Parser (`parser/parser.rs`) -/

/-- `Expr::location` (`parser/parser.rs:820`). -/
def Expr.location : Expr → SourceLocation
  | .literal _ l => l
  | .variable _ l => l
  | .binary _ _ _ l => l
  | .unary _ _ l => l
  | .assign _ _ l => l
  | .call _ _ l => l
  | .table _ l => l
  | .tableAccess _ _ l => l
  | .logical _ _ _ l => l
  | .function _ _ _ l => l
  | .spawn _ l => l
  | .await _ l => l

/-- Parser state (`Parser`): token vector and cursor. -/
structure PSt where
  tokens : List Token
  current : Nat

def PM (α : Type) : Type := PSt → Except RunErr (α × PSt)

def PM.pure {α : Type} (a : α) : PM α := fun st => .ok (a, st)

def PM.bind {α β : Type} (m : PM α) (f : α → PM β) : PM β := fun st =>
  match m st with
  | .ok (a, st') => f a st'
  | .error e => .error e

instance : Monad PM where
  pure := PM.pure
  bind := PM.bind

def PM.fail {α : Type} (e : RunErr) : PM α := fun _ => .error e

/-- `Parser::peek` (out-of-bounds indexing is the Rust abort). -/
def PM.peekTok : PM Token := fun st =>
  match st.tokens.get? st.current with
  | some t => .ok (t, st)
  | none => .error (.panicked "index out of bounds")

/-- `Parser::previous`. -/
def PM.prevTok : PM Token := fun st =>
  if st.current = 0 then
    .error (.panicked "attempt to subtract with overflow")
  else
    match st.tokens.get? (st.current - 1) with
    | some t => .ok (t, st)
    | none => .error (.panicked "index out of bounds")

/-- `Parser::is_at_end`. -/
def PM.isAtEnd : PM Bool := do
  let t ← PM.peekTok
  match t.tokenType with
  | .eof => pure true
  | _ => pure false

/-- `Parser::advance`. -/
def PM.advanceTok : PM Token := do
  let atEnd ← PM.isAtEnd
  if !atEnd then
    fun st => .ok ((), { st with current := st.current + 1 })
  else pure ()
  PM.prevTok

/-- `Parser::check` (discriminant comparison). -/
def PM.check (tokenType : TokenType) : PM Bool := do
  let atEnd ← PM.isAtEnd
  if atEnd then pure false
  else do
    let t ← PM.peekTok
    pure (t.tokenType.sameDiscriminant tokenType)

/-- `Parser::check_keyword` (exact keyword comparison). -/
def PM.checkKeyword (k : Keyword) : PM Bool := do
  let atEnd ← PM.isAtEnd
  if atEnd then pure false
  else do
    let t ← PM.peekTok
    match t.tokenType with
    | .keyword k' => pure (k' = k)
    | _ => pure false

/-- `Parser::match_token`. -/
def PM.matchToken (tokenType : TokenType) : PM Bool := do
  if ← PM.check tokenType then do
    let _ ← PM.advanceTok
    pure true
  else pure false

/-- `Parser::match_tokens`. -/
def PM.matchTokens : List TokenType → PM Bool
  | [] => pure false
  | t :: rest => do
    if ← PM.check t then do
      let _ ← PM.advanceTok
      pure true
    else PM.matchTokens rest

/-- `Parser::match_keyword`. -/
def PM.matchKeyword (k : Keyword) : PM Bool := do
  if ← PM.checkKeyword k then do
    let _ ← PM.advanceTok
    pure true
  else pure false

/-- `Parser::parse_error` construction at the peek location. -/
def PM.parseErr {α : Type} (message : String) : PM α := do
  let t ← PM.peekTok
  PM.fail (.lux (.parseError message t.location))

/-- `Parser::consume`. -/
def PM.consume (tokenType : TokenType) (message : String) : PM Token := do
  if ← PM.check tokenType then PM.advanceTok
  else PM.parseErr message

/-- `Parser::consume_keyword`. -/
def PM.consumeKeyword (k : Keyword) (message : String) : PM Token := do
  if ← PM.checkKeyword k then PM.advanceTok
  else PM.parseErr message

/-- `Parser::consume_identifier`. -/
def PM.consumeIdentifier (message : String) : PM String := do
  if ← PM.check .identifier then do
    let t ← PM.advanceTok
    pure t.lexeme
  else PM.parseErr message

/-- `Parser::parse_type` (right-associative `*T` pointers, then the
primitive keywords). -/
def pParseType : Nat → PM Ty
  | 0 => PM.fail .fuel
  | fuel + 1 => do
    if ← PM.matchToken .star then do
      let inner ← pParseType fuel
      pure (.pointer inner)
    else if ← PM.matchKeyword .kInt then pure .int
    else if ← PM.matchKeyword .kFloat then pure .float
    else if ← PM.matchKeyword .kString then pure .string
    else if ← PM.matchKeyword .kBool then pure .bool
    else if ← PM.matchKeyword .kNil then pure .nil
    else if ← PM.matchKeyword .kTable then pure .table
    else PM.parseErr "Expected type"

/-- The parameter-list loop shared by `Parser::function_declaration`
and `Parser::function_expression`: untyped parameters default to the
`Nil` ("any") type. -/
def pParamsLoop : Nat → List (String × Ty) → PM (List (String × Ty))
  | 0, _ => PM.fail .fuel
  | fuel + 1, acc => do
    let paramName ← PM.consumeIdentifier "Expected parameter name"
    let paramType ←
      if ← PM.matchToken .colon then pParseType fuel
      else pure Ty.nil
    let acc := acc ++ [(paramName, paramType)]
    if ← PM.matchToken .comma then pParamsLoop fuel acc
    else pure acc

mutual

/-- `Parser::declaration`. -/
def pDeclaration : Nat → PM Stmt
  | 0 => PM.fail .fuel
  | fuel + 1 => do
    if ← PM.matchKeyword .kImport then pImportDecl fuel
    else if ← PM.matchKeyword .kLocal then pVarDecl fuel false
    else if ← PM.matchKeyword .kConst then pVarDecl fuel true
    else do
      let isFn ← PM.checkKeyword .kFn
      let isAsync ← PM.checkKeyword .kAsync
      if isFn || isAsync then pFunctionDecl fuel
      else pStatement fuel

/-- `Parser::import_declaration`. -/
def pImportDecl : Nat → PM Stmt
  | 0 => PM.fail .fuel
  | _ + 1 => do
    let prev ← PM.prevTok
    let t ← PM.peekTok
    match t.tokenType with
    | .literal (.string path) => do
      let _ ← PM.advanceTok
      pure (.importStmt path prev.location)
    | _ => PM.parseErr "Expected string path after 'import'"

/-- `Parser::var_declaration`. -/
def pVarDecl : Nat → Bool → PM Stmt
  | 0, _ => PM.fail .fuel
  | fuel + 1, isConst => do
    let prev ← PM.prevTok
    let location := prev.location
    let name ← PM.consumeIdentifier "Expected variable name"
    let typeAnnotation ←
      if ← PM.matchToken .colon then do
        let t ← pParseType fuel
        pure (some t)
      else pure none
    let hasInit ← do
      let a ← PM.matchToken .assign
      if a then pure true else PM.matchToken .colonAssign
    let initializer ←
      if hasInit then do
        let e ← pExpression fuel
        pure (some e)
      else pure none
    pure (.varDecl name typeAnnotation initializer isConst location)

/-- `Parser::function_declaration`. -/
def pFunctionDecl : Nat → PM Stmt
  | 0 => PM.fail .fuel
  | fuel + 1 => do
    let isAsync ← PM.matchKeyword .kAsync
    let _ ← PM.consumeKeyword .kFn "Expected 'fn'"
    let prev ← PM.prevTok
    let location := prev.location
    let name ← PM.consumeIdentifier "Expected function name"
    let _ ← PM.consume .leftParen "Expected '(' after function name"
    let params ←
      if ← PM.check .rightParen then pure []
      else pParamsLoop fuel []
    let _ ← PM.consume .rightParen "Expected ')' after parameters"
    let returnType ←
      if ← PM.matchToken .arrow then do
        let t ← pParseType fuel
        pure (some t)
      else pure none
    let _ ← PM.consume .leftBrace "Expected '\x7b' before function body"
    let body ← pBlockStmts fuel []
    pure (.functionDecl name params returnType body isAsync location)

/-- `Parser::statement`. -/
def pStatement : Nat → PM Stmt
  | 0 => PM.fail .fuel
  | fuel + 1 => do
    if ← PM.matchKeyword .kIf then pIfStmt fuel
    else if ← PM.matchKeyword .kWhile then pWhileStmt fuel
    else if ← PM.matchKeyword .kFor then pForStmt fuel
    else if ← PM.matchKeyword .kReturn then pReturnStmt fuel
    else if ← PM.matchKeyword .kBreak then do
      let prev ← PM.prevTok
      pure (.breakStmt prev.location)
    else if ← PM.matchKeyword .kContinue then do
      let prev ← PM.prevTok
      pure (.continueStmt prev.location)
    else if ← PM.matchToken .leftBrace then do
      let prev ← PM.prevTok
      let statements ← pBlockStmts fuel []
      pure (.block statements prev.location)
    else pExprStmt fuel

/-- `Parser::if_statement`. -/
def pIfStmt : Nat → PM Stmt
  | 0 => PM.fail .fuel
  | fuel + 1 => do
    let prev ← PM.prevTok
    let location := prev.location
    let condition ← pExpression fuel
    let _ ← PM.consume .leftBrace "Expected '\x7b' after if condition"
    let thenBranch ← pBlockStmts fuel []
    let elseBranch ←
      if ← PM.matchKeyword .kElse then
        if ← PM.matchKeyword .kIf then do
          let s ← pIfStmt fuel
          pure (some [s])
        else do
          let _ ← PM.consume .leftBrace "Expected '\x7b' after else"
          let stmts ← pBlockStmts fuel []
          pure (some stmts)
      else pure none
    pure (.ifStmt condition thenBranch elseBranch location)

/-- `Parser::while_statement`. -/
def pWhileStmt : Nat → PM Stmt
  | 0 => PM.fail .fuel
  | fuel + 1 => do
    let prev ← PM.prevTok
    let location := prev.location
    let condition ← pExpression fuel
    let _ ← PM.consume .leftBrace "Expected '\x7b' after while condition"
    let body ← pBlockStmts fuel []
    pure (.whileStmt condition body location)

/-- `Parser::for_statement`. -/
def pForStmt : Nat → PM Stmt
  | 0 => PM.fail .fuel
  | fuel + 1 => do
    let prev ← PM.prevTok
    let location := prev.location
    let initializer ←
      if ← PM.matchKeyword .kLocal then do
        let s ← pVarDecl fuel false
        pure (some s)
      else do
        let semi ← PM.check .semicolon
        if !semi then do
          let s ← pExprStmt fuel
          pure (some s)
        else pure none
    let _ ← PM.consume .semicolon "Expected ';' after for initializer"
    let condition ← do
      let semi ← PM.check .semicolon
      if !semi then do
        let e ← pExpression fuel
        pure (some e)
      else pure none
    let _ ← PM.consume .semicolon "Expected ';' after for condition"
    let increment ← do
      let brace ← PM.check .leftBrace
      if !brace then do
        let e ← pExpression fuel
        pure (some e)
      else pure none
    let _ ← PM.consume .leftBrace "Expected '\x7b' after for clauses"
    let body ← pBlockStmts fuel []
    pure (.forStmt initializer condition increment body location)

/-- `Parser::return_statement`. -/
def pReturnStmt : Nat → PM Stmt
  | 0 => PM.fail .fuel
  | fuel + 1 => do
    let prev ← PM.prevTok
    let location := prev.location
    let brace ← PM.check .rightBrace
    let atEnd ← PM.isAtEnd
    let value ←
      if !brace && !atEnd then do
        let e ← pExpression fuel
        pure (some e)
      else pure none
    pure (.returnStmt value location)

/-- `Parser::expression_statement`. -/
def pExprStmt : Nat → PM Stmt
  | 0 => PM.fail .fuel
  | fuel + 1 => do
    let e ← pExpression fuel
    pure (.exprStmt e e.location)

/-- `Parser::block_statements`. -/
def pBlockStmts : Nat → List Stmt → PM (List Stmt)
  | 0, _ => PM.fail .fuel
  | fuel + 1, acc => do
    let brace ← PM.check .rightBrace
    let atEnd ← PM.isAtEnd
    if !brace && !atEnd then do
      let s ← pDeclaration fuel
      pBlockStmts fuel (acc ++ [s])
    else do
      let _ ← PM.consume .rightBrace "Expected '\x7d' after block"
      pure acc

/-- `Parser::expression`. -/
def pExpression : Nat → PM Expr
  | 0 => PM.fail .fuel
  | fuel + 1 => pAssignment fuel

/-- `Parser::assignment`: right-associative; the target must be a
variable reference or a table access. -/
def pAssignment : Nat → PM Expr
  | 0 => PM.fail .fuel
  | fuel + 1 => do
    let e ← pLogicalOr fuel
    if ← PM.matchToken .assign then do
      let prev ← PM.prevTok
      let location := prev.location
      let value ← pAssignment fuel
      match e with
      | .variable _ _ => pure (.assign e value location)
      | .tableAccess _ _ _ => pure (.assign e value location)
      | _ => fun _ =>
          .error (.lux (.parseError "Invalid assignment target" location))
    else pure e

/-- `Parser::logical_or`. -/
def pLogicalOr : Nat → PM Expr
  | 0 => PM.fail .fuel
  | fuel + 1 => do
    let e ← pLogicalAnd fuel
    pLogicalOrLoop fuel e

def pLogicalOrLoop : Nat → Expr → PM Expr
  | 0, _ => PM.fail .fuel
  | fuel + 1, e => do
    if ← PM.matchKeyword .kOr then do
      let prev ← PM.prevTok
      let right ← pLogicalAnd fuel
      pLogicalOrLoop fuel (.logical e .orOp right prev.location)
    else pure e

/-- `Parser::logical_and`. -/
def pLogicalAnd : Nat → PM Expr
  | 0 => PM.fail .fuel
  | fuel + 1 => do
    let e ← pEquality fuel
    pLogicalAndLoop fuel e

def pLogicalAndLoop : Nat → Expr → PM Expr
  | 0, _ => PM.fail .fuel
  | fuel + 1, e => do
    if ← PM.matchKeyword .kAnd then do
      let prev ← PM.prevTok
      let right ← pEquality fuel
      pLogicalAndLoop fuel (.logical e .andOp right prev.location)
    else pure e

/-- `Parser::equality`. -/
def pEquality : Nat → PM Expr
  | 0 => PM.fail .fuel
  | fuel + 1 => do
    let e ← pComparison fuel
    pEqualityLoop fuel e

def pEqualityLoop : Nat → Expr → PM Expr
  | 0, _ => PM.fail .fuel
  | fuel + 1, e => do
    if ← PM.matchTokens [.equal, .notEqual] then do
      let prev ← PM.prevTok
      let operator : BinaryOp :=
        match prev.tokenType with
        | .equal => .equal
        | _ => .notEqual
      let right ← pComparison fuel
      pEqualityLoop fuel (.binary e operator right prev.location)
    else pure e

/-- `Parser::comparison`. -/
def pComparison : Nat → PM Expr
  | 0 => PM.fail .fuel
  | fuel + 1 => do
    let e ← pTerm fuel
    pComparisonLoop fuel e

def pComparisonLoop : Nat → Expr → PM Expr
  | 0, _ => PM.fail .fuel
  | fuel + 1, e => do
    if ← PM.matchTokens [.greater, .greaterEqual, .less, .lessEqual]
    then do
      let prev ← PM.prevTok
      let operator : BinaryOp :=
        match prev.tokenType with
        | .greater => .greater
        | .greaterEqual => .greaterEqual
        | .less => .less
        | _ => .lessEqual
      let right ← pTerm fuel
      pComparisonLoop fuel (.binary e operator right prev.location)
    else pure e

/-- `Parser::term`. -/
def pTerm : Nat → PM Expr
  | 0 => PM.fail .fuel
  | fuel + 1 => do
    let e ← pFactor fuel
    pTermLoop fuel e

def pTermLoop : Nat → Expr → PM Expr
  | 0, _ => PM.fail .fuel
  | fuel + 1, e => do
    if ← PM.matchTokens [.plus, .minus] then do
      let prev ← PM.prevTok
      let operator : BinaryOp :=
        match prev.tokenType with
        | .plus => .add
        | _ => .subtract
      let right ← pFactor fuel
      pTermLoop fuel (.binary e operator right prev.location)
    else pure e

/-- `Parser::factor`. -/
def pFactor : Nat → PM Expr
  | 0 => PM.fail .fuel
  | fuel + 1 => do
    let e ← pUnary fuel
    pFactorLoop fuel e

def pFactorLoop : Nat → Expr → PM Expr
  | 0, _ => PM.fail .fuel
  | fuel + 1, e => do
    if ← PM.matchTokens [.star, .slash, .percent] then do
      let prev ← PM.prevTok
      let operator : BinaryOp :=
        match prev.tokenType with
        | .star => .multiply
        | .slash => .divide
        | _ => .modulo
      let right ← pUnary fuel
      pFactorLoop fuel (.binary e operator right prev.location)
    else pure e

/-- `Parser::unary`. -/
def pUnary : Nat → PM Expr
  | 0 => PM.fail .fuel
  | fuel + 1 => do
    let matched ←
      PM.matchTokens [.minus, .hash, .ampersand, .star]
    let matchedNot ←
      if matched then pure false else PM.matchKeyword .kNot
    if matched || matchedNot then do
      let prev ← PM.prevTok
      let operator : UnaryOp :=
        match prev.tokenType with
        | .minus => .negate
        | .hash => .length
        | .ampersand => .addressOf
        | .star => .dereference
        | _ => .notOp
      let operand ← pUnary fuel
      pure (.unary operator operand prev.location)
    else pCall fuel

/-- `Parser::call`: postfix calls, `.field` access (a string-literal
key) and `[expr]` indexing. -/
def pCall : Nat → PM Expr
  | 0 => PM.fail .fuel
  | fuel + 1 => do
    let e ← pPrimary fuel
    pCallLoop fuel e

def pCallLoop : Nat → Expr → PM Expr
  | 0, _ => PM.fail .fuel
  | fuel + 1, e => do
    if ← PM.matchToken .leftParen then do
      let e' ← pFinishCall fuel e
      pCallLoop fuel e'
    else if ← PM.matchToken .dot then do
      let prev ← PM.prevTok
      let location := prev.location
      let field ← PM.consumeIdentifier "Expected property name after '.'"
      pCallLoop fuel (.tableAccess e
        (.literal (.string field) location) location)
    else if ← PM.matchToken .leftBracket then do
      let prev ← PM.prevTok
      let location := prev.location
      let key ← pExpression fuel
      let _ ← PM.consume .rightBracket "Expected ']' after table index"
      pCallLoop fuel (.tableAccess e key location)
    else pure e

/-- `Parser::finish_call`. -/
def pFinishCall : Nat → Expr → PM Expr
  | 0, _ => PM.fail .fuel
  | fuel + 1, callee => do
    let prev ← PM.prevTok
    let location := prev.location
    let args ←
      if ← PM.check .rightParen then pure []
      else pArgsLoop fuel []
    let _ ← PM.consume .rightParen "Expected ')' after arguments"
    pure (.call callee args location)

def pArgsLoop : Nat → List Expr → PM (List Expr)
  | 0, _ => PM.fail .fuel
  | fuel + 1, acc => do
    let e ← pExpression fuel
    let acc := acc ++ [e]
    if ← PM.matchToken .comma then pArgsLoop fuel acc
    else pure acc

/-- `Parser::primary`. -/
def pPrimary : Nat → PM Expr
  | 0 => PM.fail .fuel
  | fuel + 1 => do
    let t ← PM.peekTok
    let location := t.location
    match t.tokenType with
    | .literal lit => do
      let value : Literal :=
        match lit with
        | .integer n => .integer n
        | .float f => .float f
        | .string s => .string s
      let _ ← PM.advanceTok
      pure (.literal value location)
    | _ => do
      if ← PM.matchKeyword .kTrue then
        pure (.literal (.boolean true) location)
      else if ← PM.matchKeyword .kFalse then
        pure (.literal (.boolean false) location)
      else if ← PM.matchKeyword .kNil then
        pure (.literal .nil location)
      else if ← PM.check .identifier then do
        let tk ← PM.advanceTok
        pure (.variable tk.lexeme location)
      else if ← PM.matchToken .leftParen then do
        let e ← pExpression fuel
        let _ ← PM.consume .rightParen "Expected ')' after expression"
        pure e
      else if ← PM.matchToken .leftBrace then
        pTableLiteral fuel location []
      else if ← PM.matchKeyword .kFn then
        pFunctionExpr fuel location
      else if ← PM.matchKeyword .kSpawn then do
        let c ← pUnary fuel
        pure (.spawn c location)
      else if ← PM.matchKeyword .kAwait then do
        let task ← pUnary fuel
        pure (.await task location)
      else PM.parseErr "Expected expression"

/-- `Parser::function_expression`. -/
def pFunctionExpr : Nat → SourceLocation → PM Expr
  | 0, _ => PM.fail .fuel
  | fuel + 1, location => do
    let _ ← PM.consume .leftParen "Expected '(' after 'fn'"
    let params ←
      if ← PM.check .rightParen then pure []
      else pParamsLoop fuel []
    let _ ← PM.consume .rightParen "Expected ')' after parameters"
    let returnType ←
      if ← PM.matchToken .arrow then do
        let ty ← pParseType fuel
        pure (some ty)
      else pure none
    let _ ← PM.consume .leftBrace "Expected '\x7b' before function body"
    let body ← pBlockStmts fuel []
    pure (.function params returnType body location)

/-- The entry loop of `Parser::table_literal`: an identifier entry not
followed by `=` backtracks one token and re-parses as a positional
expression; positional entries receive the implicit key
`fields.len() + 1`. -/
def pTableLiteral : Nat → SourceLocation → List (TableKey × Expr) →
    PM Expr
  | 0, _, _ => PM.fail .fuel
  | fuel + 1, location, fields0 => do
    if ← PM.check .rightBrace then do
      let _ ← PM.consume .rightBrace "Expected '\x7d' after table literal"
      pure (.table fields0 location)
    else do
      let fields ← pTableEntry fuel location fields0
      if ← PM.matchToken .comma then
        pTableLiteralMore fuel location fields
      else do
        let _ ← PM.consume .rightBrace "Expected '\x7d' after table literal"
        pure (.table fields location)

/-- Continuation of the table-literal entry loop after a comma. -/
def pTableLiteralMore : Nat → SourceLocation →
    List (TableKey × Expr) → PM Expr
  | 0, _, _ => PM.fail .fuel
  | fuel + 1, location, fields0 => do
    let fields ← pTableEntry fuel location fields0
    if ← PM.matchToken .comma then
      pTableLiteralMore fuel location fields
    else do
      let _ ← PM.consume .rightBrace "Expected '\x7d' after table literal"
      pure (.table fields location)

/-- One entry of a table literal. -/
def pTableEntry : Nat → SourceLocation → List (TableKey × Expr) →
    PM (List (TableKey × Expr))
  | 0, _, _ => PM.fail .fuel
  | fuel + 1, location, fields => do
    if ← PM.check .identifier then do
      let checkpoint ← fun st => (.ok (st.current, st) : Except RunErr _)
      let tk ← PM.advanceTok
      let name := tk.lexeme
      if ← PM.matchToken .assign then do
        let value ← pExpression fuel
        pure (fields ++ [(.identifier name, value)])
      else do
        (fun st => (.ok ((), { st with current := checkpoint })
          : Except RunErr _))
        let value ← pExpression fuel
        pure (fields ++ [(.expression (.literal
          (.integer ((fields.length : Int) + 1)) location), value)])
    else if ← PM.matchToken .leftBracket then do
      let keyExpr ← pExpression fuel
      let _ ← PM.consume .rightBracket "Expected ']' after table key"
      let _ ← PM.consume .assign "Expected '=' after table key"
      let value ← pExpression fuel
      pure (fields ++ [(.expression keyExpr, value)])
    else do
      let value ← pExpression fuel
      pure (fields ++ [(.expression (.literal
        (.integer ((fields.length : Int) + 1)) location), value)])

end

/-- The top-level loop of `Parser::parse`. -/
def pProgram : Nat → List Stmt → PM (List Stmt)
  | 0, _ => PM.fail .fuel
  | fuel + 1, acc => do
    let atEnd ← PM.isAtEnd
    if atEnd then pure acc
    else do
      let s ← pDeclaration fuel
      pProgram fuel (acc ++ [s])

/-- `Parser::new` + `Parser::parse`. -/
def parseTokens (fuel : Nat) (tokens : List Token) :
    Except RunErr Ast :=
  match pProgram fuel [] ⟨tokens, 0⟩ with
  | .ok (stmts, _) => .ok ⟨stmts⟩
  | .error e => .error e

/-! ## Type checker (`types/checker.rs`) -/

/-- `TypeChecker::types_compatible` (`types/checker.rs:899`): nominal
on primitives, permissive on `Function` (every function type matches
every function type), recursive on `Pointer`; `Nil` matches only
`Nil`. -/
def typesCompatible : Ty → Ty → Bool
  | .int, .int => true
  | .float, .float => true
  | .string, .string => true
  | .bool, .bool => true
  | .nil, .nil => true
  | .table, .table => true
  | .function _ _, .function _ _ => true
  | .pointer expectedInner, .pointer actualInner =>
    typesCompatible expectedInner actualInner
  | _, _ => false

/-- Checker state (`TypeChecker`): scope stack of name→type (innermost
at the head), the enclosing function's declared return type, loaded
modules. -/
structure CSt where
  scopes : List (List (String × Ty))
  currentFunctionReturnType : Option Ty
  loadedModules : List String

def insertTy (scope : List (String × Ty)) (key : String) (t : Ty) :
    List (String × Ty) :=
  match scope with
  | [] => [(key, t)]
  | (k, u) :: rest =>
    if k = key then (k, t) :: rest else (k, u) :: insertTy rest key t

def lookupTy (scope : List (String × Ty)) (key : String) : Option Ty :=
  match scope with
  | [] => none
  | (k, u) :: rest => if k = key then some u else lookupTy rest key

def CSt.define (st : CSt) (name : String) (t : Ty) : CSt :=
  match st.scopes with
  | s :: rest => { st with scopes := insertTy s name t :: rest }
  | [] => st

def CSt.get (st : CSt) (name : String) : Option Ty :=
  tyLookup st.scopes name
where
  tyLookup : List (List (String × Ty)) → String → Option Ty
    | [], _ => none
    | s :: rest, name =>
      match lookupTy s name with
      | some t => some t
      | none => tyLookup rest name

def CSt.pushScope (st : CSt) : CSt :=
  { st with scopes := [] :: st.scopes }

def CSt.popScope (st : CSt) : CSt :=
  match st.scopes with
  | s :: rest => if rest.isEmpty then { st with scopes := [s] }
    else { st with scopes := rest }
  | [] => st

/-- The builtin function types `TypeChecker::new` registers
(`types/checker.rs:56`); a parameter type `Nil` is the "any"
placeholder. -/
def builtinTypes : List (String × Ty) :=
  [("print", .function [.nil] .nil),
   ("setmetatable", .function [.table, .table] .table),
   ("getmetatable", .function [.table] .nil),
   ("read_file", .function [.string] .string),
   ("write_file", .function [.string, .string] .nil),
   ("string_split", .function [.string, .string] .table),
   ("string_contains", .function [.string, .string] .bool),
   ("string_starts_with", .function [.string, .string] .bool),
   ("string_trim", .function [.string] .string),
   ("string_length", .function [.string] .int),
   ("table_length", .function [.table] .int),
   ("table_push", .function [.table, .nil] .table),
   ("parse_lux", .function [.string] .table),
   ("type_of", .function [.nil] .string),
   ("to_string", .function [.nil] .string),
   ("to_int", .function [.nil] .int),
   ("to_float", .function [.nil] .float),
   ("substring", .function [.string, .int, .int] .string),
   ("string_replace", .function [.string, .string, .string] .string),
   ("string_upper", .function [.string] .string),
   ("string_lower", .function [.string] .string),
   ("string_ends_with", .function [.string, .string] .bool),
   ("sqrt", .function [.float] .float),
   ("pow", .function [.float, .float] .float),
   ("abs", .function [.nil] .nil),
   ("floor", .function [.float] .int),
   ("ceil", .function [.float] .int),
   ("min", .function [.nil, .nil] .nil),
   ("max", .function [.nil, .nil] .nil)]

/-- `TypeChecker::new`. -/
def CSt.initial : CSt :=
  ⟨[builtinTypes.foldl (fun s p => insertTy s p.1 p.2) []], none, []⟩

/-- Checker computations. -/
def CM (α : Type) : Type := CSt → Except RunErr (α × CSt)

def CM.pure {α : Type} (a : α) : CM α := fun st => .ok (a, st)

def CM.bind {α β : Type} (m : CM α) (f : α → CM β) : CM β := fun st =>
  match m st with
  | .ok (a, st') => f a st'
  | .error e => .error e

instance : Monad CM where
  pure := CM.pure
  bind := CM.bind

def CM.fail {α : Type} (e : RunErr) : CM α := fun _ => .error e

def CM.typeErr {α : Type} (message : String) (loc : SourceLocation) :
    CM α :=
  CM.fail (.lux (.typeError message loc))

def CM.get : CM CSt := fun st => .ok (st, st)

def CM.set (st : CSt) : CM Unit := fun _ => .ok ((), st)

def CM.modify (f : CSt → CSt) : CM Unit := fun st => .ok ((), f st)

mutual

/-- `TypeChecker::check_stmt` (`types/checker.rs:402`). -/
def checkStmt : Nat → Stmt → CM Unit
  | 0, _ => CM.fail .fuel
  | fuel + 1, s =>
    match s with
    | .importStmt path loc => do
      let st ← CM.get
      if st.loadedModules.contains path then pure ()
      else
        -- The host filesystem is modelled as empty, so
        -- `resolve_module_path` finds no candidate file.
        CM.typeErr ("Module '" ++ path ++ "' not found") loc
    | .varDecl name typeAnnotation initializer _ loc => do
      let initType ← match initializer with
        | some init => do
          let t ← checkExpr fuel init
          pure (some t)
        | none => pure none
      let varType ←
        match typeAnnotation, initType with
        | some annotated, some init =>
          if !typesCompatible annotated init then
            CM.typeErr ("Type mismatch: variable '" ++ name
              ++ "' declared as " ++ annotated.debug
              ++ " but initialized with " ++ init.debug) loc
          else pure annotated
        | some annotated, none => pure annotated
        | none, some init => pure init
        | none, none =>
          CM.typeErr ("Variable '" ++ name
            ++ "' must have either a type annotation or an initializer")
            loc
      CM.modify (fun st => st.define name varType)
    | .functionDecl name params returnType body _ _ => do
      let funcType : Ty := .function (params.map Prod.snd)
        (returnType.getD .nil)
      CM.modify (fun st => st.define name funcType)
      CM.modify CSt.pushScope
      CM.modify (fun st => params.foldl
        (fun acc p => acc.define p.1 p.2) st)
      let prevReturnType ← do
        let st ← CM.get
        pure st.currentFunctionReturnType
      CM.modify (fun st =>
        { st with currentFunctionReturnType := returnType })
      checkStmts fuel body
      CM.modify (fun st =>
        { st with currentFunctionReturnType := prevReturnType })
      CM.modify CSt.popScope
    | .exprStmt e _ => do
      let _ ← checkExpr fuel e
      pure ()
    | .ifStmt condition thenBranch elseBranch _ => do
      let _ ← checkExpr fuel condition
      CM.modify CSt.pushScope
      checkStmts fuel thenBranch
      CM.modify CSt.popScope
      match elseBranch with
      | some elseStmts => do
        CM.modify CSt.pushScope
        checkStmts fuel elseStmts
        CM.modify CSt.popScope
      | none => pure ()
    | .whileStmt condition body _ => do
      let _ ← checkExpr fuel condition
      CM.modify CSt.pushScope
      checkStmts fuel body
      CM.modify CSt.popScope
    | .forStmt initializer condition increment body _ => do
      CM.modify CSt.pushScope
      (match initializer with
       | some init => checkStmt fuel init
       | none => pure ())
      (match condition with
       | some cond => do
         let _ ← checkExpr fuel cond
         pure ()
       | none => pure ())
      (match increment with
       | some inc => do
         let _ ← checkExpr fuel inc
         pure ()
       | none => pure ())
      checkStmts fuel body
      CM.modify CSt.popScope
    | .returnStmt value loc => do
      let returnType ← match value with
        | some v => checkExpr fuel v
        | none => pure Ty.nil
      let st ← CM.get
      match st.currentFunctionReturnType with
      | some expected =>
        if !returnType.beq .nil
            && !typesCompatible expected returnType then
          CM.typeErr ("Return type mismatch: expected "
            ++ expected.debug ++ ", got " ++ returnType.debug) loc
        else pure ()
      | none => pure ()
    | .breakStmt _ => pure ()
    | .continueStmt _ => pure ()
    | .block statements _ => do
      CM.modify CSt.pushScope
      checkStmts fuel statements
      CM.modify CSt.popScope

def checkStmts : Nat → List Stmt → CM Unit
  | 0, _ => CM.fail .fuel
  | fuel + 1, stmts =>
    match stmts with
    | [] => pure ()
    | s :: rest => do
      checkStmt fuel s
      checkStmts fuel rest

/-- `TypeChecker::check_expr` (`types/checker.rs:583`). -/
def checkExpr : Nat → Expr → CM Ty
  | 0, _ => CM.fail .fuel
  | fuel + 1, e =>
    match e with
    | .literal value _ =>
      match value with
      | .integer _ => pure .int
      | .float _ => pure .float
      | .string _ => pure .string
      | .boolean _ => pure .bool
      | .nil => pure .nil
    | .variable name loc => do
      let st ← CM.get
      match st.get name with
      | some t => pure t
      | none =>
        CM.typeErr ("Undefined variable '" ++ name ++ "'") loc
    | .binary left operator right loc => do
      let leftType ← checkExpr fuel left
      let rightType ← checkExpr fuel right
      if leftType.beq .nil || rightType.beq .nil then
        match operator with
        | .equal => pure .bool
        | .notEqual => pure .bool
        | .less => pure .bool
        | .lessEqual => pure .bool
        | .greater => pure .bool
        | .greaterEqual => pure .bool
        | _ => pure .nil
      else
        match operator with
        | .add =>
          if typesCompatible leftType rightType then
            match leftType with
            | .int => pure leftType
            | .float => pure leftType
            | .string => pure leftType
            | _ =>
              CM.typeErr ("Cannot add " ++ leftType.debug ++ " and "
                ++ rightType.debug) loc
          else
            CM.typeErr ("Type mismatch: cannot add " ++ leftType.debug
              ++ " and " ++ rightType.debug) loc
        | .subtract => checkArith fuel leftType rightType operator loc
        | .multiply => checkArith fuel leftType rightType operator loc
        | .divide => checkArith fuel leftType rightType operator loc
        | .modulo => checkArith fuel leftType rightType operator loc
        | .equal => pure .bool
        | .notEqual => pure .bool
        | .less => checkOrdering fuel leftType rightType loc
        | .lessEqual => checkOrdering fuel leftType rightType loc
        | .greater => checkOrdering fuel leftType rightType loc
        | .greaterEqual => checkOrdering fuel leftType rightType loc
    | .unary operator operand loc => do
      let operandType ← checkExpr fuel operand
      match operator with
      | .negate =>
        match operandType with
        | .int => pure operandType
        | .float => pure operandType
        | _ =>
          CM.typeErr ("Cannot negate " ++ operandType.debug) loc
      | .notOp => pure .bool
      | .length =>
        match operandType with
        | .string => pure .int
        | .table => pure .int
        | _ =>
          CM.typeErr ("Cannot get length of " ++ operandType.debug) loc
      | .addressOf => pure (.pointer operandType)
      | .dereference =>
        match operandType with
        | .pointer innerType => pure innerType
        | _ =>
          CM.typeErr ("Cannot dereference non-pointer type "
            ++ operandType.debug) loc
    | .logical left _ right _ => do
      let _ ← checkExpr fuel left
      let _ ← checkExpr fuel right
      pure .bool
    | .assign target value loc =>
      match target with
      | .variable name _ => do
        -- `checker.rs:741`: the target name must be bound; a value of
        -- static type `Nil` is always accepted.
        let st ← CM.get
        match st.get name with
        | none =>
          CM.typeErr ("Undefined variable '" ++ name ++ "'") loc
        | some varType => do
          let valueType ← checkExpr fuel value
          if !valueType.beq .nil
              && !typesCompatible varType valueType then
            CM.typeErr ("Type mismatch: cannot assign "
              ++ valueType.debug ++ " to variable of type "
              ++ varType.debug) loc
          else pure valueType
      | .tableAccess _ _ _ => do
        -- Modelled from the spec: the checker's handling of an
        -- assignment whose target is a table-access expression is
        -- missing from `src/` (the `Expr::Assign` arm of `checker.rs`
        -- predates `parser.rs`, which builds expression targets, and
        -- only handles a plain variable name). Following §4.2/§4.3:
        -- the target is checked as a table access (whose static type
        -- is the unknown marker `Nil`, which matches anything), so
        -- any value type is accepted.
        let _ ← checkExpr fuel target
        let valueType ← checkExpr fuel value
        pure valueType
      | _ => CM.typeErr "Invalid assignment target" loc
    | .call callee arguments loc => do
      let funcType ← checkExpr fuel callee
      match funcType with
      | .function params returnType => do
        let isBuiltin := params.length = 1
          && (params.getD 0 .int).beq .nil
        if !isBuiltin && arguments.length ≠ params.length then
          CM.typeErr ("Function expects " ++ toString params.length
            ++ " arguments, got " ++ toString arguments.length) loc
        else do
          if !isBuiltin then
            checkArgs fuel (arguments.zip params) 1 loc
          else
            checkExprList fuel arguments
          pure returnType
      | _ => pure .nil
    | .table fields _ => do
      checkTableValues fuel fields
      pure .table
    | .tableAccess tbl key loc => do
      let tableType ← checkExpr fuel tbl
      let _ ← checkExpr fuel key
      match tableType with
      | .table => pure .nil
      | .nil => pure .nil
      | _ => CM.typeErr ("Cannot index " ++ tableType.debug) loc
    | .function params returnType body _ => do
      let funcType : Ty := .function (params.map Prod.snd)
        (returnType.getD .nil)
      CM.modify CSt.pushScope
      CM.modify (fun st => params.foldl
        (fun acc p => acc.define p.1 p.2) st)
      let prevReturnType ← do
        let st ← CM.get
        pure st.currentFunctionReturnType
      CM.modify (fun st =>
        { st with currentFunctionReturnType := returnType })
      checkStmts fuel body
      CM.modify (fun st =>
        { st with currentFunctionReturnType := prevReturnType })
      CM.modify CSt.popScope
      pure funcType
    | .spawn callExpr _ => do
      let _ ← checkExpr fuel callExpr
      pure .int
    | .await task loc => do
      let taskType ← checkExpr fuel task
      match taskType with
      | .int => pure .nil
      | .table => pure .nil
      | .nil => pure .nil
      | _ =>
        CM.typeErr ("await expects task ID (int) or table of task IDs, got "
          ++ taskType.debug) loc

/-- The shared `Subtract | Multiply | Divide | Modulo` arm. -/
def checkArith : Nat → Ty → Ty → BinaryOp → SourceLocation → CM Ty
  | 0, _, _, _, _ => CM.fail .fuel
  | _ + 1, leftType, rightType, operator, loc => do
    let leftNumeric := match leftType with
      | .int => true
      | .float => true
      | _ => false
    let rightNumeric := match rightType with
      | .int => true
      | .float => true
      | _ => false
    if !leftNumeric then
      CM.typeErr ("Cannot apply " ++ operator.debug ++ " to "
        ++ leftType.debug) loc
    else if !rightNumeric then
      CM.typeErr ("Cannot apply " ++ operator.debug ++ " to "
        ++ rightType.debug) loc
    else if typesCompatible leftType rightType then pure leftType
    else
      CM.typeErr ("Type mismatch: " ++ leftType.debug ++ " and "
        ++ rightType.debug) loc

/-- The shared ordering-comparison arm. -/
def checkOrdering : Nat → Ty → Ty → SourceLocation → CM Ty
  | 0, _, _, _ => CM.fail .fuel
  | _ + 1, leftType, rightType, loc => do
    let leftNumeric := match leftType with
      | .int => true
      | .float => true
      | _ => false
    let rightNumeric := match rightType with
      | .int => true
      | .float => true
      | _ => false
    if !leftNumeric then
      CM.typeErr ("Cannot compare " ++ leftType.debug) loc
    else if !rightNumeric then
      CM.typeErr ("Cannot compare " ++ rightType.debug) loc
    else pure .bool

/-- Argument checking of a non-builtin call: a `Nil` on either side is
accepted. -/
def checkArgs : Nat → List (Expr × Ty) → Nat → SourceLocation → CM Unit
  | 0, _, _, _ => CM.fail .fuel
  | fuel + 1, pairs, i, loc =>
    match pairs with
    | [] => pure ()
    | (arg, expectedType) :: rest => do
      let argType ← checkExpr fuel arg
      if !argType.beq .nil && !expectedType.beq .nil
          && !typesCompatible expectedType argType then
        CM.typeErr ("Argument " ++ toString i
          ++ " type mismatch: expected " ++ expectedType.debug
          ++ ", got " ++ argType.debug) loc
      else checkArgs fuel rest (i + 1) loc

/-- Checking every argument of a builtin call. -/
def checkExprList : Nat → List Expr → CM Unit
  | 0, _ => CM.fail .fuel
  | fuel + 1, es =>
    match es with
    | [] => pure ()
    | e :: rest => do
      let _ ← checkExpr fuel e
      checkExprList fuel rest

/-- The value-checking loop of the `Expr::Table` arm (computed-key
expressions are not checked, exactly as in the source). -/
def checkTableValues : Nat → List (TableKey × Expr) → CM Unit
  | 0, _ => CM.fail .fuel
  | fuel + 1, fields =>
    match fields with
    | [] => pure ()
    | (_, value) :: rest => do
      let _ ← checkExpr fuel value
      checkTableValues fuel rest

end

/-- `TypeChecker::check`. -/
def checkAst (fuel : Nat) (ast : Ast) : Except RunErr Unit :=
  match checkStmts fuel ast.statements CSt.initial with
  | .ok _ => .ok ()
  | .error e => .error e

/-! ## The full pipeline (`lib.rs`, `run`) -/

/-- `run`: lex, parse, type-check, interpret (from `Interpreter::new`
with the builtins registered). On success the result is the text
printed to stdout, one entry per line. -/
def runPipeline (fuel : Nat) (source : String) :
    Except RunErr (List String) := do
  let tokens ← tokenize fuel source none
  let ast ← parseTokens fuel tokens
  checkAst fuel ast
  match interpret fuel ast IState.initial with
  | .ok _ st => .ok st.output
  | .err e _ => .error e

/-! ## The executor write system

The interpreter touches task states through exactly two executor
operations: `spawn_function` (from `Expr::Spawn`), which appends a
fresh `Pending` task, and `update_task_state` at the end of
`execute_task` (`interpreter.rs:820` and `interpreter.rs:836`), which
stores `Completed` or `Failed` unconditionally: the `Pending`
observation that triggered the dispatch happened earlier, so when runs
nest — a task whose function awaits its own id — the final write lands
on a task that is already terminal and overwrites it. -/

def TaskState.isTerminal : TaskState → Bool
  | .completed _ => true
  | .failed _ => true
  | _ => false

/-- Executor reachability by the two write operations: a reflexive,
transitive closure of `spawn_function` steps and unguarded
`update_task_state` steps whose written state is terminal (the only
states `execute_task` ever writes). -/
inductive ExecWrite : ExecutorSt → ExecutorSt → Prop where
  | refl (e : ExecutorSt) : ExecWrite e e
  | spawn {e e' : ExecutorSt} (f : FunctionValue) (args : List Value)
      (h : ExecWrite e e') : ExecWrite e (e'.spawnFunction f args).2
  | finish {e e' : ExecutorSt} (tid : Nat) (s : TaskState)
      (h : ExecWrite e e') (hs : s.isTerminal = true) :
      ExecWrite e (e'.updateTaskState tid s)

/-- A computation's executor transition is generated by the two write
operations, on the success and the failure path alike. -/
def WriteM {α : Type} (m : M α) : Prop :=
  ∀ st : IState, ExecWrite st.exec (((m st)).state).exec

/-- All six evaluator entry points only perform executor writes. -/
def WriteFns (F : EvalFns) : Prop :=
  (∀ e, WriteM (F.evalExpr e)) ∧
  (∀ s, WriteM (F.execStmt s)) ∧
  (∀ c b, WriteM (F.whileLoop c b)) ∧
  (∀ c i b, WriteM (F.forIter c i b)) ∧
  (∀ f a l, WriteM (F.callFunction f a l)) ∧
  (∀ t f a, WriteM (F.executeTask t f a))

/-- Task presence: every task id registered in `e` is still registered
in `e'`. The interpreter only appends tasks and updates states in
place, so every evaluator step preserves this. -/
def tasksPreserved (e e' : ExecutorSt) : Prop :=
  ∀ tid : Nat, (e.getTask tid).isSome → (e'.getTask tid).isSome

/-- A stateful computation preserves registered tasks, on both the
success and the failure path. -/
def PreservesM {α : Type} (m : M α) : Prop :=
  ∀ st : IState,
    match m st with
    | .ok _ st' => tasksPreserved st.exec st'.exec
    | .err _ st' => tasksPreserved st.exec st'.exec

/-- All six evaluator entry points preserve registered tasks. -/
def PreservesFns (F : EvalFns) : Prop :=
  (∀ e, PreservesM (F.evalExpr e)) ∧
  (∀ s, PreservesM (F.execStmt s)) ∧
  (∀ c b, PreservesM (F.whileLoop c b)) ∧
  (∀ c i b, PreservesM (F.forIter c i b)) ∧
  (∀ f a l, PreservesM (F.callFunction f a l)) ∧
  (∀ t f a, PreservesM (F.executeTask t f a))

/-! ## Concrete artifacts for the end-to-end claims

States and stage results of the two pipeline runs, generated by
evaluating the embedding; each equality below them is checked
definitionally. -/

def srcC1str : String := "local t = {} t.x = 7 print(#t) print(t.x)"

def srcC1 : List Char := srcC1str.toList

def srcC9str : String := "local y = 1 / 0"

def srcC9 : List Char := srcC9str.toList

def toksC1 : List Token :=
  [⟨.keyword .kLocal, "local", ⟨1, 1, none⟩⟩,
   ⟨.identifier, "t", ⟨1, 7, none⟩⟩,
   ⟨.assign, "=", ⟨1, 9, none⟩⟩,
   ⟨.leftBrace, "\x7b", ⟨1, 11, none⟩⟩,
   ⟨.rightBrace, "\x7d", ⟨1, 12, none⟩⟩,
   ⟨.identifier, "t", ⟨1, 14, none⟩⟩,
   ⟨.dot, ".", ⟨1, 15, none⟩⟩,
   ⟨.identifier, "x", ⟨1, 16, none⟩⟩,
   ⟨.assign, "=", ⟨1, 18, none⟩⟩,
   ⟨.literal (.integer 7), "7", ⟨1, 20, none⟩⟩,
   ⟨.identifier, "print", ⟨1, 22, none⟩⟩,
   ⟨.leftParen, "(", ⟨1, 27, none⟩⟩,
   ⟨.hash, "#", ⟨1, 28, none⟩⟩,
   ⟨.identifier, "t", ⟨1, 29, none⟩⟩,
   ⟨.rightParen, ")", ⟨1, 30, none⟩⟩,
   ⟨.identifier, "print", ⟨1, 32, none⟩⟩,
   ⟨.leftParen, "(", ⟨1, 37, none⟩⟩,
   ⟨.identifier, "t", ⟨1, 38, none⟩⟩,
   ⟨.dot, ".", ⟨1, 39, none⟩⟩,
   ⟨.identifier, "x", ⟨1, 40, none⟩⟩,
   ⟨.rightParen, ")", ⟨1, 41, none⟩⟩,
   ⟨.eof, "", ⟨1, 42, none⟩⟩]

def toksC9 : List Token :=
  [⟨.keyword .kLocal, "local", ⟨1, 1, none⟩⟩,
   ⟨.identifier, "y", ⟨1, 7, none⟩⟩,
   ⟨.assign, "=", ⟨1, 9, none⟩⟩,
   ⟨.literal (.integer 1), "1", ⟨1, 11, none⟩⟩,
   ⟨.slash, "/", ⟨1, 13, none⟩⟩,
   ⟨.literal (.integer 0), "0", ⟨1, 15, none⟩⟩,
   ⟨.eof, "", ⟨1, 16, none⟩⟩]

def lexStC1_0 : LexSt := ⟨srcC1, toksC1.take 0, 0, 0, 1, 1, none⟩
def lexStC1_1 : LexSt := ⟨srcC1, toksC1.take 1, 0, 5, 1, 6, none⟩
def lexStC1_2 : LexSt := ⟨srcC1, toksC1.take 1, 5, 6, 1, 7, none⟩
def lexStC1_3 : LexSt := ⟨srcC1, toksC1.take 2, 6, 7, 1, 8, none⟩
def lexStC1_4 : LexSt := ⟨srcC1, toksC1.take 2, 7, 8, 1, 9, none⟩
def lexStC1_5 : LexSt := ⟨srcC1, toksC1.take 3, 8, 9, 1, 10, none⟩
def lexStC1_6 : LexSt := ⟨srcC1, toksC1.take 3, 9, 10, 1, 11, none⟩
def lexStC1_7 : LexSt := ⟨srcC1, toksC1.take 4, 10, 11, 1, 12, none⟩
def lexStC1_8 : LexSt := ⟨srcC1, toksC1.take 5, 11, 12, 1, 13, none⟩
def lexStC1_9 : LexSt := ⟨srcC1, toksC1.take 5, 12, 13, 1, 14, none⟩
def lexStC1_10 : LexSt := ⟨srcC1, toksC1.take 6, 13, 14, 1, 15, none⟩
def lexStC1_11 : LexSt := ⟨srcC1, toksC1.take 7, 14, 15, 1, 16, none⟩
def lexStC1_12 : LexSt := ⟨srcC1, toksC1.take 8, 15, 16, 1, 17, none⟩
def lexStC1_13 : LexSt := ⟨srcC1, toksC1.take 8, 16, 17, 1, 18, none⟩
def lexStC1_14 : LexSt := ⟨srcC1, toksC1.take 9, 17, 18, 1, 19, none⟩
def lexStC1_15 : LexSt := ⟨srcC1, toksC1.take 9, 18, 19, 1, 20, none⟩
def lexStC1_16 : LexSt := ⟨srcC1, toksC1.take 10, 19, 20, 1, 21, none⟩
def lexStC1_17 : LexSt := ⟨srcC1, toksC1.take 10, 20, 21, 1, 22, none⟩
def lexStC1_18 : LexSt := ⟨srcC1, toksC1.take 11, 21, 26, 1, 27, none⟩
def lexStC1_19 : LexSt := ⟨srcC1, toksC1.take 12, 26, 27, 1, 28, none⟩
def lexStC1_20 : LexSt := ⟨srcC1, toksC1.take 13, 27, 28, 1, 29, none⟩
def lexStC1_21 : LexSt := ⟨srcC1, toksC1.take 14, 28, 29, 1, 30, none⟩
def lexStC1_22 : LexSt := ⟨srcC1, toksC1.take 15, 29, 30, 1, 31, none⟩
def lexStC1_23 : LexSt := ⟨srcC1, toksC1.take 15, 30, 31, 1, 32, none⟩
def lexStC1_24 : LexSt := ⟨srcC1, toksC1.take 16, 31, 36, 1, 37, none⟩
def lexStC1_25 : LexSt := ⟨srcC1, toksC1.take 17, 36, 37, 1, 38, none⟩
def lexStC1_26 : LexSt := ⟨srcC1, toksC1.take 18, 37, 38, 1, 39, none⟩
def lexStC1_27 : LexSt := ⟨srcC1, toksC1.take 19, 38, 39, 1, 40, none⟩
def lexStC1_28 : LexSt := ⟨srcC1, toksC1.take 20, 39, 40, 1, 41, none⟩
def lexStC1_29 : LexSt := ⟨srcC1, toksC1.take 21, 40, 41, 1, 42, none⟩

def lexStC9_0 : LexSt := ⟨srcC9, toksC9.take 0, 0, 0, 1, 1, none⟩
def lexStC9_1 : LexSt := ⟨srcC9, toksC9.take 1, 0, 5, 1, 6, none⟩
def lexStC9_2 : LexSt := ⟨srcC9, toksC9.take 1, 5, 6, 1, 7, none⟩
def lexStC9_3 : LexSt := ⟨srcC9, toksC9.take 2, 6, 7, 1, 8, none⟩
def lexStC9_4 : LexSt := ⟨srcC9, toksC9.take 2, 7, 8, 1, 9, none⟩
def lexStC9_5 : LexSt := ⟨srcC9, toksC9.take 3, 8, 9, 1, 10, none⟩
def lexStC9_6 : LexSt := ⟨srcC9, toksC9.take 3, 9, 10, 1, 11, none⟩
def lexStC9_7 : LexSt := ⟨srcC9, toksC9.take 4, 10, 11, 1, 12, none⟩
def lexStC9_8 : LexSt := ⟨srcC9, toksC9.take 4, 11, 12, 1, 13, none⟩
def lexStC9_9 : LexSt := ⟨srcC9, toksC9.take 5, 12, 13, 1, 14, none⟩
def lexStC9_10 : LexSt := ⟨srcC9, toksC9.take 5, 13, 14, 1, 15, none⟩
def lexStC9_11 : LexSt := ⟨srcC9, toksC9.take 6, 14, 15, 1, 16, none⟩

def stmtC1_1 : Stmt :=
  .varDecl "t" none (some (.table [] ⟨1, 11, none⟩)) false ⟨1, 1, none⟩

def stmtC1_2 : Stmt :=
  .exprStmt (.assign (.tableAccess (.variable "t" ⟨1, 14, none⟩)
    (.literal (.string "x") ⟨1, 15, none⟩) ⟨1, 15, none⟩)
    (.literal (.integer 7) ⟨1, 20, none⟩) ⟨1, 18, none⟩) ⟨1, 18, none⟩

def stmtC1_3 : Stmt :=
  .exprStmt (.call (.variable "print" ⟨1, 22, none⟩)
    [.unary .length (.variable "t" ⟨1, 29, none⟩) ⟨1, 28, none⟩]
    ⟨1, 27, none⟩) ⟨1, 27, none⟩

def stmtC1_4 : Stmt :=
  .exprStmt (.call (.variable "print" ⟨1, 32, none⟩)
    [.tableAccess (.variable "t" ⟨1, 38, none⟩)
      (.literal (.string "x") ⟨1, 39, none⟩) ⟨1, 39, none⟩]
    ⟨1, 37, none⟩) ⟨1, 37, none⟩

def astC1 : Ast := ⟨[stmtC1_1, stmtC1_2, stmtC1_3, stmtC1_4]⟩

def stmtC9_1 : Stmt :=
  .varDecl "y" none (some (.binary (.literal (.integer 1) ⟨1, 11, none⟩)
    .divide (.literal (.integer 0) ⟨1, 15, none⟩) ⟨1, 13, none⟩)) false
    ⟨1, 1, none⟩

def astC9 : Ast := ⟨[stmtC9_1]⟩

def locZ : SourceLocation := ⟨1, 1, none⟩

/-- The program `local t = {} local x: int = t.y`: a declaration with
an `int` annotation and an initializer of static type `Nil` (a table
access). -/
def astC3 : Ast :=
  ⟨[.varDecl "t" none (some (.table [] locZ)) false locZ,
    .varDecl "x" (some .int)
      (some (.tableAccess (.variable "t" ⟨1, 29, none⟩)
        (.literal (.string "y") ⟨1, 30, none⟩) ⟨1, 30, none⟩))
      false ⟨1, 14, none⟩]⟩

/-- The program `local t = {} local x: int = 1 x = t.y`: the same
`Nil`-typed value accepted through the assignment rule's explicit
`Nil` test. -/
def astC3b : Ast :=
  ⟨[.varDecl "t" none (some (.table [] locZ)) false locZ,
    .varDecl "x" (some .int) (some (.literal (.integer 1) locZ)) false
      locZ,
    .exprStmt (.assign (.variable "x" locZ)
      (.tableAccess (.variable "t" locZ)
        (.literal (.string "y") locZ) locZ) locZ) locZ]⟩

/-- The program `local z = 5 % 0`. -/
def astC2 : Ast :=
  ⟨[.varDecl "z" none (some (.binary (.literal (.integer 5) locZ)
    .modulo (.literal (.integer 0) locZ) locZ)) false locZ]⟩

/-- The program `fn work(k) { return 42 } local a = spawn work()
local r = await a print(r)`: a one-parameter function spawned with
zero arguments and executed at `await`. -/
def astC8 : Ast :=
  ⟨[.functionDecl "work" [("k", .nil)] none
      [.returnStmt (some (.literal (.integer 42) locZ)) locZ] false locZ,
    .varDecl "a" none
      (some (.spawn (.call (.variable "work" locZ) [] locZ) locZ)) false
      locZ,
    .varDecl "r" none (some (.await (.variable "a" locZ) locZ)) false
      locZ,
    .exprStmt (.call (.variable "print" locZ) [.variable "r" locZ] locZ)
      locZ]⟩

/-- Success observer on an interpreter outcome. -/
def Res.isOk {α : Type} : Res α → Bool
  | .ok _ _ => true
  | .err _ _ => false

/-- Function `fn w() return 1 end` of the plain C7 probe. -/
def fRet1 : FunctionValue :=
  ⟨"w", [], [.returnStmt (some (.literal (.integer 1) locZ)) locZ], false⟩

/-- Executor holding task 0 `Pending` with function `fRet1`. -/
def exPend1 : ExecutorSt := ⟨[⟨0, "w", [], .pending, some fRet1, []⟩], [], 1⟩

/-- Interpreter state over `exPend1`. -/
def stPend1 : IState := ⟨Env.new, .none, exPend1, [], [], none⟩

/-- Function `fn w() return 42 end` of the overwrite probe. -/
def fRet42 : FunctionValue :=
  ⟨"w", [], [.returnStmt (some (.literal (.integer 42) locZ)) locZ], false⟩

/-- Executor whose task 0 is already `Completed(99)` while still holding
its function — exactly the record shape `update_task_state` leaves
behind, since completion never clears the `function` field. -/
def exOver : ExecutorSt :=
  ⟨[⟨0, "w", [], .completed (.int 99), some fRet42, []⟩], [], 1⟩

/-- Interpreter state over `exOver`. -/
def stOver99 : IState := ⟨Env.new, .none, exOver, [], [], none⟩

/-- The self-await body
`count = count + 1 if count < 2 { return (await 0) + 1 } return 9`:
on its first run it re-awaits its own task id. -/
def bodySelf : List Stmt :=
  [.exprStmt (.assign (.variable "count" locZ)
      (.binary (.variable "count" locZ) .add
        (.literal (.integer 1) locZ) locZ) locZ) locZ,
   .ifStmt (.binary (.variable "count" locZ) .less
       (.literal (.integer 2) locZ) locZ)
     [.returnStmt (some (.binary
         (.await (.literal (.integer 0) locZ) locZ) .add
         (.literal (.integer 1) locZ) locZ)) locZ]
     none locZ,
   .returnStmt (some (.literal (.integer 9) locZ)) locZ]

/-- The self-awaiting task function. -/
def fSelf : FunctionValue := ⟨"f", [], bodySelf, false⟩

/-- Executor holding task 0 `Pending` with the self-awaiting function. -/
def exSelf : ExecutorSt :=
  ⟨[⟨0, "f", bodySelf, .pending, some fSelf, []⟩], [], 1⟩

/-- State at the outer `execute_task` entry: `count = 0`, task 0
`Pending`. -/
def stSelf0 : IState :=
  ⟨Env.new.define "count" (.int 0), .none, exSelf, [], [], none⟩

/-- State at the inner self-`await` dispatch: the state the outer run
from `stSelf0` reaches when its body hits `await 0` — the body scope has
been pushed, `count` has been incremented to 1, and task 0 is still
`Pending` because the outer `execute_task` writes only at the end. -/
def stSelf1 : IState :=
  ⟨(Env.new.define "count" (.int 1)).pushScope, .none, exSelf, [], [],
    none⟩

/-- Executor holding one `Completed` task, the concrete input of the C4
witness. -/
def exC4 : ExecutorSt := ⟨[⟨0, "w", [], .completed (.int 7), none, []⟩], [], 1⟩

/-- Interpreter state over `exC4`. -/
def stC4 : IState := ⟨Env.new, .none, exC4, [], [], none⟩

/-- Executor holding two `Completed` tasks, the concrete input of the C6
witness. -/
def exC6 : ExecutorSt :=
  ⟨[⟨0, "w", [], .completed (.int 5), none, []⟩,
    ⟨1, "w", [], .completed (.string "x"), none, []⟩], [], 2⟩

/-- Interpreter state over `exC6`. -/
def stC6 : IState := ⟨Env.new, .none, exC6, [], [], none⟩

/-- The join table `\x7ba = task 1, [1] = task 0\x7d` of the C6 witness. -/
def tblC6 : TableValue := .mk [("a", .int 1)] [.int 0] none

/-! # Theorems -/

/-! ## Stage lemmas: evaluating the two pipeline runs step by step -/

theorem tokenizeLoop_step {f : Nat} {st st' : LexSt}
    (h1 : st.isAtEnd = false)
    (h2 : scanToken f { st with start := st.current } = .ok ((), st')) :
    tokenizeLoop (f + 1) st = tokenizeLoop f st' := by
  conv_lhs => rw [tokenizeLoop]
  simp only [Bind.bind, LexM.bind, LexM.get, LexM.set, h1, h2,
    Bool.false_eq_true, if_false]

theorem tokenizeLoop_end {f : Nat} {st : LexSt}
    (h1 : st.isAtEnd = true) :
    tokenizeLoop (f + 1) st = .ok ((), st) := by
  conv_lhs => rw [tokenizeLoop]
  simp only [Bind.bind, LexM.bind, LexM.get, h1, if_true]
  rfl

theorem pProgram_step {f : Nat} {tks : List Token} {cur cur' : Nat}
    {acc : List Stmt} {s : Stmt}
    (h1 : PM.isAtEnd ⟨tks, cur⟩ = .ok (false, ⟨tks, cur⟩))
    (h2 : pDeclaration f ⟨tks, cur⟩ = .ok (s, ⟨tks, cur'⟩)) :
    pProgram (f + 1) acc ⟨tks, cur⟩ = pProgram f (acc ++ [s]) ⟨tks, cur'⟩ := by
  conv_lhs => rw [pProgram]
  simp only [Bind.bind, PM.bind, h1, h2, Bool.false_eq_true, if_false]

theorem pProgram_end {f : Nat} {tks : List Token} {cur : Nat}
    {acc : List Stmt}
    (h1 : PM.isAtEnd ⟨tks, cur⟩ = .ok (true, ⟨tks, cur⟩)) :
    pProgram (f + 1) acc ⟨tks, cur⟩ = .ok (acc, ⟨tks, cur⟩) := by
  conv_lhs => rw [pProgram]
  simp only [Bind.bind, PM.bind, h1, if_true]
  rfl

theorem lexStepC1_0 : tokenizeLoop 100 lexStC1_0 = tokenizeLoop 99 lexStC1_1 := tokenizeLoop_step rfl rfl
theorem lexStepC1_1 : tokenizeLoop 99 lexStC1_1 = tokenizeLoop 98 lexStC1_2 := tokenizeLoop_step rfl rfl
theorem lexStepC1_2 : tokenizeLoop 98 lexStC1_2 = tokenizeLoop 97 lexStC1_3 := tokenizeLoop_step rfl rfl
theorem lexStepC1_3 : tokenizeLoop 97 lexStC1_3 = tokenizeLoop 96 lexStC1_4 := tokenizeLoop_step rfl rfl
theorem lexStepC1_4 : tokenizeLoop 96 lexStC1_4 = tokenizeLoop 95 lexStC1_5 := tokenizeLoop_step rfl rfl
theorem lexStepC1_5 : tokenizeLoop 95 lexStC1_5 = tokenizeLoop 94 lexStC1_6 := tokenizeLoop_step rfl rfl
theorem lexStepC1_6 : tokenizeLoop 94 lexStC1_6 = tokenizeLoop 93 lexStC1_7 := tokenizeLoop_step rfl rfl
theorem lexStepC1_7 : tokenizeLoop 93 lexStC1_7 = tokenizeLoop 92 lexStC1_8 := tokenizeLoop_step rfl rfl
theorem lexStepC1_8 : tokenizeLoop 92 lexStC1_8 = tokenizeLoop 91 lexStC1_9 := tokenizeLoop_step rfl rfl
theorem lexStepC1_9 : tokenizeLoop 91 lexStC1_9 = tokenizeLoop 90 lexStC1_10 := tokenizeLoop_step rfl rfl
theorem lexStepC1_10 : tokenizeLoop 90 lexStC1_10 = tokenizeLoop 89 lexStC1_11 := tokenizeLoop_step rfl rfl
theorem lexStepC1_11 : tokenizeLoop 89 lexStC1_11 = tokenizeLoop 88 lexStC1_12 := tokenizeLoop_step rfl rfl
theorem lexStepC1_12 : tokenizeLoop 88 lexStC1_12 = tokenizeLoop 87 lexStC1_13 := tokenizeLoop_step rfl rfl
theorem lexStepC1_13 : tokenizeLoop 87 lexStC1_13 = tokenizeLoop 86 lexStC1_14 := tokenizeLoop_step rfl rfl
theorem lexStepC1_14 : tokenizeLoop 86 lexStC1_14 = tokenizeLoop 85 lexStC1_15 := tokenizeLoop_step rfl rfl
theorem lexStepC1_15 : tokenizeLoop 85 lexStC1_15 = tokenizeLoop 84 lexStC1_16 := tokenizeLoop_step rfl rfl
theorem lexStepC1_16 : tokenizeLoop 84 lexStC1_16 = tokenizeLoop 83 lexStC1_17 := tokenizeLoop_step rfl rfl
theorem lexStepC1_17 : tokenizeLoop 83 lexStC1_17 = tokenizeLoop 82 lexStC1_18 := tokenizeLoop_step rfl rfl
theorem lexStepC1_18 : tokenizeLoop 82 lexStC1_18 = tokenizeLoop 81 lexStC1_19 := tokenizeLoop_step rfl rfl
theorem lexStepC1_19 : tokenizeLoop 81 lexStC1_19 = tokenizeLoop 80 lexStC1_20 := tokenizeLoop_step rfl rfl
theorem lexStepC1_20 : tokenizeLoop 80 lexStC1_20 = tokenizeLoop 79 lexStC1_21 := tokenizeLoop_step rfl rfl
theorem lexStepC1_21 : tokenizeLoop 79 lexStC1_21 = tokenizeLoop 78 lexStC1_22 := tokenizeLoop_step rfl rfl
theorem lexStepC1_22 : tokenizeLoop 78 lexStC1_22 = tokenizeLoop 77 lexStC1_23 := tokenizeLoop_step rfl rfl
theorem lexStepC1_23 : tokenizeLoop 77 lexStC1_23 = tokenizeLoop 76 lexStC1_24 := tokenizeLoop_step rfl rfl
theorem lexStepC1_24 : tokenizeLoop 76 lexStC1_24 = tokenizeLoop 75 lexStC1_25 := tokenizeLoop_step rfl rfl
theorem lexStepC1_25 : tokenizeLoop 75 lexStC1_25 = tokenizeLoop 74 lexStC1_26 := tokenizeLoop_step rfl rfl
theorem lexStepC1_26 : tokenizeLoop 74 lexStC1_26 = tokenizeLoop 73 lexStC1_27 := tokenizeLoop_step rfl rfl
theorem lexStepC1_27 : tokenizeLoop 73 lexStC1_27 = tokenizeLoop 72 lexStC1_28 := tokenizeLoop_step rfl rfl
theorem lexStepC1_28 : tokenizeLoop 72 lexStC1_28 = tokenizeLoop 71 lexStC1_29 := tokenizeLoop_step rfl rfl

theorem lexStepC9_0 : tokenizeLoop 100 lexStC9_0 = tokenizeLoop 99 lexStC9_1 := tokenizeLoop_step rfl rfl
theorem lexStepC9_1 : tokenizeLoop 99 lexStC9_1 = tokenizeLoop 98 lexStC9_2 := tokenizeLoop_step rfl rfl
theorem lexStepC9_2 : tokenizeLoop 98 lexStC9_2 = tokenizeLoop 97 lexStC9_3 := tokenizeLoop_step rfl rfl
theorem lexStepC9_3 : tokenizeLoop 97 lexStC9_3 = tokenizeLoop 96 lexStC9_4 := tokenizeLoop_step rfl rfl
theorem lexStepC9_4 : tokenizeLoop 96 lexStC9_4 = tokenizeLoop 95 lexStC9_5 := tokenizeLoop_step rfl rfl
theorem lexStepC9_5 : tokenizeLoop 95 lexStC9_5 = tokenizeLoop 94 lexStC9_6 := tokenizeLoop_step rfl rfl
theorem lexStepC9_6 : tokenizeLoop 94 lexStC9_6 = tokenizeLoop 93 lexStC9_7 := tokenizeLoop_step rfl rfl
theorem lexStepC9_7 : tokenizeLoop 93 lexStC9_7 = tokenizeLoop 92 lexStC9_8 := tokenizeLoop_step rfl rfl
theorem lexStepC9_8 : tokenizeLoop 92 lexStC9_8 = tokenizeLoop 91 lexStC9_9 := tokenizeLoop_step rfl rfl
theorem lexStepC9_9 : tokenizeLoop 91 lexStC9_9 = tokenizeLoop 90 lexStC9_10 := tokenizeLoop_step rfl rfl
theorem lexStepC9_10 : tokenizeLoop 90 lexStC9_10 = tokenizeLoop 89 lexStC9_11 := tokenizeLoop_step rfl rfl

/-- Lexing the scenario-5 program. -/
theorem lexC1 : tokenize 100 srcC1str none = .ok toksC1 := by
  unfold tokenize
  rw [show LexSt.new srcC1str none = lexStC1_0 from rfl]
  rw [lexStepC1_0, lexStepC1_1, lexStepC1_2, lexStepC1_3, lexStepC1_4,
    lexStepC1_5, lexStepC1_6, lexStepC1_7, lexStepC1_8, lexStepC1_9,
    lexStepC1_10, lexStepC1_11, lexStepC1_12, lexStepC1_13, lexStepC1_14,
    lexStepC1_15, lexStepC1_16, lexStepC1_17, lexStepC1_18, lexStepC1_19,
    lexStepC1_20, lexStepC1_21, lexStepC1_22, lexStepC1_23, lexStepC1_24,
    lexStepC1_25, lexStepC1_26, lexStepC1_27, lexStepC1_28,
    tokenizeLoop_end (show lexStC1_29.isAtEnd = true from rfl)]
  rfl

/-- Lexing the scenario-7 program. -/
theorem lexC9 : tokenize 100 srcC9str none = .ok toksC9 := by
  unfold tokenize
  rw [show LexSt.new srcC9str none = lexStC9_0 from rfl]
  rw [lexStepC9_0, lexStepC9_1, lexStepC9_2, lexStepC9_3, lexStepC9_4,
    lexStepC9_5, lexStepC9_6, lexStepC9_7, lexStepC9_8, lexStepC9_9,
    lexStepC9_10,
    tokenizeLoop_end (show lexStC9_11.isAtEnd = true from rfl)]
  rfl

theorem parStepC1_1 : pProgram 100 [] ⟨toksC1, 0⟩ = pProgram 99 [stmtC1_1] ⟨toksC1, 5⟩ := pProgram_step rfl rfl
theorem parStepC1_2 : pProgram 99 [stmtC1_1] ⟨toksC1, 5⟩ = pProgram 98 [stmtC1_1, stmtC1_2] ⟨toksC1, 10⟩ := pProgram_step rfl rfl
theorem parStepC1_3 : pProgram 98 [stmtC1_1, stmtC1_2] ⟨toksC1, 10⟩ = pProgram 97 [stmtC1_1, stmtC1_2, stmtC1_3] ⟨toksC1, 15⟩ := pProgram_step rfl rfl
theorem parStepC1_4 : pProgram 97 [stmtC1_1, stmtC1_2, stmtC1_3] ⟨toksC1, 15⟩ = pProgram 96 [stmtC1_1, stmtC1_2, stmtC1_3, stmtC1_4] ⟨toksC1, 21⟩ := pProgram_step rfl rfl
theorem parStepC9_1 : pProgram 100 [] ⟨toksC9, 0⟩ = pProgram 99 [stmtC9_1] ⟨toksC9, 6⟩ := pProgram_step rfl rfl

/-- Parsing the scenario-5 program. -/
theorem parseC1 : parseTokens 100 toksC1 = .ok astC1 := by
  unfold parseTokens
  rw [parStepC1_1, parStepC1_2, parStepC1_3, parStepC1_4,
    pProgram_end (show PM.isAtEnd ⟨toksC1, 21⟩ = .ok (true, ⟨toksC1, 21⟩) from rfl)]
  rfl

/-- Parsing the scenario-7 program. -/
theorem parseC9 : parseTokens 100 toksC9 = .ok astC9 := by
  unfold parseTokens
  rw [parStepC9_1,
    pProgram_end (show PM.isAtEnd ⟨toksC9, 6⟩ = .ok (true, ⟨toksC9, 6⟩) from rfl)]
  rfl

/-- Type-checking the scenario-5 program. -/
theorem checkC1 : checkAst 100 astC1 = .ok () := rfl

/-- Type-checking the scenario-7 program. -/
theorem checkC9 : checkAst 100 astC9 = .ok () := rfl

/-- Writing a named field stores it in the field map. -/
theorem lookup_insertField (fs : List (String × Value)) (k : String)
    (v : Value) : lookupField (insertField fs k v) k = some v := by
  induction fs with
  | nil => simp [insertField, lookupField]
  | cons p rest ih =>
    by_cases h : p.1 = k
    · simp [insertField, lookupField, h]
    · simp [insertField, lookupField, h, ih]

/-! ## Claim theorems -/

/-- C1: the program `local t = {} t.x = 7 print(#t) print(t.x)` runs
through the full pipeline — lex, parse, check, evaluate — printing
"0" then "7" and terminating cleanly; moreover, for every table,
storing a value under a string key leaves the positional array (and
hence `#t`) unchanged and makes the value retrievable under that
string key. -/
theorem c1_pipeline_named_fields :
    runPipeline 100 srcC1str = .ok ["0", "7"]
    ∧ (∀ (t : TableValue) (s : String) (v : Value),
        (t.set (.string s) v).array = t.array
        ∧ (t.set (.string s) v).len = t.len
        ∧ (t.set (.string s) v).get (.string s) = some v) := by
  constructor
  · unfold runPipeline
    simp only [Bind.bind, Except.bind, lexC1, parseC1, checkC1]
    rfl
  · intro t s v
    refine ⟨rfl, rfl, ?_⟩
    show lookupField (insertField t.fields s v) s = some v
    exact lookup_insertField t.fields s v

/-- C2: the `Modulo` arm of `eval_binary` computes `a % b` with no
zero-divisor check, so `a % 0` on `Int` operands aborts the process
(Rust remainder-by-zero panic) instead of returning an error value;
the abort propagates out of the evaluator uncaught. -/
theorem c2_modulo_zero_aborts :
    (∀ (a : Int) (loc : SourceLocation),
      evalBinary (.int a) .modulo (.int 0) loc
        = .error (.panicked
          "attempt to calculate the remainder with a divisor of zero"))
    ∧ (∃ st, interpret 20 astC2 IState.initial
        = .err (.panicked
          "attempt to calculate the remainder with a divisor of zero") st) := by
  exact ⟨fun a loc => rfl, ⟨_, rfl⟩⟩

/-- C3 counterexample: `types_compatible` does not accept `Nil`
against `Int`, and the checker rejects the declaration
`local x: int = t.y` whose initializer has static type `Nil`. -/
theorem c3_nil_not_universally_compatible :
    typesCompatible .int .nil = false
    ∧ checkAst 20 astC3
      = .error (.lux (.typeError
        "Type mismatch: variable 'x' declared as Int but initialized with Nil"
        ⟨1, 14, none⟩)) :=
  ⟨rfl, rfl⟩

/-- C3 (amended): `types_compatible` treats the `Nil` type term as
compatible only with `Nil` itself; the gradual leniency lives at use
sites through explicit `Nil` tests (as in the assignment rule, which
accepts a `Nil`-typed value for an `int` variable), and a variable
declaration carrying an annotation `T ≠ Nil` and a `Nil`-typed
initializer is rejected. -/
theorem c3_amended_nil_only_with_nil :
    (∀ T : Ty, (typesCompatible T .nil = true ↔ T = .nil)
      ∧ (typesCompatible .nil T = true ↔ T = .nil))
    ∧ checkAst 20 astC3b = .ok () := by
  refine ⟨fun T => ⟨?_, ?_⟩, rfl⟩
  · cases T <;> simp [typesCompatible]
  · cases T <;> simp [typesCompatible]

/-- C9: integer division by zero is a `Runtime` error
"Division by zero" carried at the operator's source location and never
a value — shown both on `eval_binary` and end to end on
`local y = 1 / 0`, where the error's location 1:13 is the `/` token's
location — while `Float` division always returns a `Float` value and
is never an error. (A non-zero process exit on error is the CLI
front end, outside the modelled core.) -/
theorem c9_division_by_zero :
    (∀ (a : Int) (loc : SourceLocation),
      evalBinary (.int a) .divide (.int 0) loc
        = .error (.lux (.runtimeError "Division by zero" (some loc))))
    ∧ (∀ (a b : Float) (loc : SourceLocation),
      evalBinary (.float a) .divide (.float b) loc = .ok (.float (a / b)))
    ∧ runPipeline 100 srcC9str
      = .error (.lux (.runtimeError "Division by zero"
          (some ⟨1, 13, none⟩))) := by
  refine ⟨fun a loc => rfl, fun a b loc => rfl, ?_⟩
  unfold runPipeline
  simp only [Bind.bind, Except.bind, lexC9, parseC9, checkC9]
  rfl

/-- C10: `TableValue::set` with a key that is neither a positive `Int`
nor a `String` is a silent no-op: the table — its named-field map,
positional array and metatable — is returned unchanged, and `set` has
no error channel at all. -/
theorem c10_set_ignores_other_keys (t : TableValue) (k v : Value)
    (hInt : ∀ n : Int, k = .int n → n ≤ 0)
    (hStr : ∀ s : String, k ≠ .string s) :
    t.set k v = t := by
  cases k with
  | int n =>
    have hn : ¬ (0 : Int) < n := by
      have := hInt n rfl
      omega
    simp [TableValue.set, hn]
  | string s => exact absurd rfl (hStr s)
  | float f => rfl
  | bool b => rfl
  | nil => rfl
  | table tv => rfl
  | function fv => rfl
  | nativeFunction nf => rfl
  | pointer c => rfl

/-- C10 witness: setting key `Int 0` leaves a table unchanged. -/
theorem c10_witness :
    (TableValue.mk [("a", .int 1)] [.int 2] none).set (.int 0) (.int 9)
      = TableValue.mk [("a", .int 1)] [.int 2] none :=
  c10_set_ignores_other_keys _ _ _
    (fun n h => by cases h; omega)
    (fun s h => by cases h)

theorem find?_append_some {α : Type} {p : α → Bool} {l₁ : List α}
    (l₂ : List α) {x : α} (h : l₁.find? p = some x) :
    (l₁ ++ l₂).find? p = some x := by
  induction l₁ with
  | nil => simp [List.find?] at h
  | cons a rest ih =>
    by_cases hp : p a
    · simp_all [List.find?_cons_of_pos]
    · simp_all [List.find?_cons_of_neg]

theorem updateTasks_find_ne (tasks : List Task) (a : Nat)
    (s : TaskState) (b : Nat) (hab : b ≠ a) :
    (updateTasks tasks a s).find? (fun t => t.id == b)
      = tasks.find? (fun t => t.id == b) := by
  induction tasks with
  | nil => rfl
  | cons u rest ih =>
    by_cases ha : u.id = a
    · have hb : ¬ u.id = b := by omega
      simp [updateTasks, ha, List.find?_cons, hb, hab,
        beq_eq_false_iff_ne.mpr (fun h : a = b => hab h.symm)]
    · by_cases hb : u.id = b
      · simp [updateTasks, ha, List.find?_cons, hb, hab]
      · simp [updateTasks, ha, List.find?_cons, hb, hab, ih]

theorem updateTasks_find_eq (tasks : List Task) (a : Nat)
    (s : TaskState) {t : Task}
    (h : tasks.find? (fun t => t.id == a) = some t) :
    (updateTasks tasks a s).find? (fun t => t.id == a)
      = some { t with state := s } := by
  induction tasks with
  | nil => simp [List.find?] at h
  | cons u rest ih =>
    by_cases ha : u.id = a
    · rw [List.find?_cons_of_pos _ (by simpa using ha)] at h
      cases h
      simp [updateTasks, ha, List.find?_cons]
    · rw [List.find?_cons_of_neg _ (by simpa using ha)] at h
      simp [updateTasks, ha, List.find?_cons, ih h]

theorem updateTasks_isSome (tasks : List Task) (a : Nat)
    (s : TaskState) (b : Nat) :
    ((updateTasks tasks a s).find? (fun t => t.id == b)).isSome
      = (tasks.find? (fun t => t.id == b)).isSome := by
  induction tasks with
  | nil => rfl
  | cons u rest ih =>
    by_cases ha : u.id = a
    · simp only [updateTasks, ha, beq_self_eq_true, if_true,
        List.find?_cons]
      cases (a == b) <;> rfl
    · by_cases hb : u.id = b
      · by_cases hba : b = a
        · exact absurd (hb.trans hba) ha
        · simp [updateTasks, ha, List.find?_cons, hb, hba]
      · simp [updateTasks, ha, List.find?_cons, hb, ih]

theorem updateTasks_mem {tasks : List Task} {a : Nat} {s : TaskState}
    {x : Task} (h : x ∈ updateTasks tasks a s) :
    x ∈ tasks ∨ ∃ t ∈ tasks, x = { t with state := s } := by
  induction tasks with
  | nil => simp [updateTasks] at h
  | cons u rest ih =>
    rw [updateTasks] at h
    by_cases ha : (u.id == a) = true
    · rw [if_pos ha] at h
      rcases List.mem_cons.mp h with h1 | h1
      · exact Or.inr ⟨u, List.mem_cons_self u rest, h1⟩
      · exact Or.inl (List.mem_cons_of_mem u h1)
    · rw [if_neg ha] at h
      rcases List.mem_cons.mp h with h1 | h1
      · exact Or.inl (h1 ▸ List.mem_cons_self u rest)
      · rcases ih h1 with h2 | ⟨t, ht, hx⟩
        · exact Or.inl (List.mem_cons_of_mem u h2)
        · exact Or.inr ⟨t, List.mem_cons_of_mem u ht, hx⟩

theorem getTask_spawn {e : ExecutorSt} (f : FunctionValue)
    (args : List Value) {tid : Nat} {t : Task}
    (h : e.getTask tid = some t) :
    ((e.spawnFunction f args).2).getTask tid = some t :=
  find?_append_some _ h

theorem getTask_update_ne {e : ExecutorSt} {a : Nat} (s : TaskState)
    {b : Nat} (hab : b ≠ a) :
    (e.updateTaskState a s).getTask b = e.getTask b :=
  updateTasks_find_ne e.tasks a s b hab

theorem getTask_update_eq {e : ExecutorSt} {a : Nat} (s : TaskState)
    {t : Task} (h : e.getTask a = some t) :
    (e.updateTaskState a s).getTask a = some { t with state := s } :=
  updateTasks_find_eq e.tasks a s h

theorem tasksPreserved_refl (e : ExecutorSt) : tasksPreserved e e :=
  fun _ h => h

theorem tasksPreserved_trans {a b c : ExecutorSt}
    (h1 : tasksPreserved a b) (h2 : tasksPreserved b c) :
    tasksPreserved a c :=
  fun tid h => h2 tid (h1 tid h)

theorem tasksPreserved_spawn (e : ExecutorSt) (f : FunctionValue)
    (args : List Value) :
    tasksPreserved e (e.spawnFunction f args).2 := by
  intro tid h
  obtain ⟨t, ht⟩ := Option.isSome_iff_exists.mp h
  rw [getTask_spawn f args ht]
  rfl

theorem tasksPreserved_update (e : ExecutorSt) (a : Nat)
    (s : TaskState) : tasksPreserved e (e.updateTaskState a s) := by
  intro tid h
  show ((updateTasks e.tasks a s).find? (fun t => t.id == tid)).isSome = true
  rw [updateTasks_isSome]
  exact h

theorem preservesM_iff {α : Type} (m : M α) :
    PreservesM m ↔ ∀ st : IState, tasksPreserved st.exec ((m st).state).exec := by
  unfold PreservesM
  constructor
  · intro h st
    have h' := h st
    cases hm : m st <;> rw [hm] at h' <;> exact h'
  · intro h st
    have h' := h st
    cases hm : m st <;> rw [hm] at h' <;> exact h'

theorem pres_bind {α β : Type} {m : M α} {k : α → M β}
    (hm : PreservesM m) (hk : ∀ a, PreservesM (k a)) :
    PreservesM (M.bind m k) := by
  rw [preservesM_iff]
  intro st
  show tasksPreserved st.exec (((M.bind m k) st).state).exec
  unfold M.bind
  cases h1 : m st with
  | ok a st' =>
    have hp1 := (preservesM_iff m).mp hm st
    rw [h1] at hp1
    have hp2 := (preservesM_iff (k a)).mp (hk a) st'
    exact tasksPreserved_trans hp1 hp2
  | err e st' =>
    have hp1 := (preservesM_iff m).mp hm st
    rw [h1] at hp1
    exact hp1

theorem pres_bind' {α β : Type} {m : M α} {k : α → M β}
    (hm : PreservesM m) (hk : ∀ a, PreservesM (k a)) :
    PreservesM (m >>= k) :=
  pres_bind hm hk

theorem pres_pure {α : Type} (a : α) : PreservesM (M.pure a) :=
  fun st => tasksPreserved_refl st.exec

theorem pres_pure' {α : Type} (a : α) : PreservesM (pure a : M α) :=
  pres_pure a

theorem pres_throw {α : Type} (e : RunErr) :
    PreservesM (M.throw e : M α) :=
  fun st => tasksPreserved_refl st.exec

theorem pres_runtimeErr {α : Type} (msg : String)
    (loc : Option SourceLocation) :
    PreservesM (M.runtimeErr msg loc : M α) :=
  fun st => tasksPreserved_refl st.exec

theorem pres_getState : PreservesM M.getState :=
  fun st => tasksPreserved_refl st.exec

theorem pres_printLine (s : String) : PreservesM (M.printLine s) :=
  fun st => tasksPreserved_refl st.exec

theorem pres_modifyEnv (f : Env → Env) : PreservesM (M.modifyEnv f) :=
  fun st => tasksPreserved_refl st.exec

theorem pres_setControl (c : CtrlFlow) : PreservesM (M.setControl c) :=
  fun st => tasksPreserved_refl st.exec

theorem pres_getState_bind {β : Type} {k : IState → M β}
    (hk : ∀ st : IState, tasksPreserved st.exec (((k st) st).state).exec) :
    PreservesM (M.getState >>= k) := by
  rw [preservesM_iff]
  intro st
  show tasksPreserved st.exec ((k st st).state).exec
  exact hk st

theorem pres_evalArgs {ev : Expr → M Value}
    (hev : ∀ e, PreservesM (ev e)) :
    ∀ es, PreservesM (evalArgsWith ev es) := by
  intro es
  induction es with
  | nil => exact pres_pure' []
  | cons e rest ih =>
    rw [evalArgsWith]
    exact pres_bind' (hev e) fun v => pres_bind' ih fun vs => pres_pure' _

theorem pres_evalEntries {ev : Expr → M Value}
    (hev : ∀ e, PreservesM (ev e)) :
    ∀ entries acc, PreservesM (evalEntriesWith ev entries acc) := by
  intro entries
  induction entries with
  | nil => intro acc; exact pres_pure' _
  | cons p rest ih =>
    intro acc
    obtain ⟨key, valueExpr⟩ := p
    rw [evalEntriesWith]
    apply pres_bind' (hev valueExpr)
    intro v
    cases key with
    | identifier name => exact ih _
    | expression keyExpr => exact pres_bind' (hev keyExpr) fun kv => ih _

theorem pres_execSeq {ex : Stmt → M Unit}
    (hex : ∀ s, PreservesM (ex s)) :
    ∀ ss, PreservesM (execSeqWith ex ss) := by
  intro ss
  induction ss with
  | nil => exact pres_pure' ()
  | cons s rest ih =>
    rw [execSeqWith]
    apply pres_bind' (hex s)
    intro u
    apply pres_bind' pres_getState
    intro st
    cases st.control <;> first | exact ih | exact pres_pure' ()

theorem pres_execRetOnly {ex : Stmt → M Unit}
    (hex : ∀ s, PreservesM (ex s)) :
    ∀ ss, PreservesM (execRetOnlyWith ex ss) := by
  intro ss
  induction ss with
  | nil => exact pres_pure' ()
  | cons s rest ih =>
    rw [execRetOnlyWith]
    apply pres_bind' (hex s)
    intro u
    apply pres_bind' pres_getState
    intro st
    cases st.control <;> first | exact ih | exact pres_pure' ()

theorem pres_loopBody {ex : Stmt → M Unit}
    (hex : ∀ s, PreservesM (ex s)) :
    ∀ ss, PreservesM (loopBodyWith ex ss) := by
  intro ss
  induction ss with
  | nil => exact pres_pure' _
  | cons s rest ih =>
    rw [loopBodyWith]
    apply pres_bind' (hex s)
    intro u
    apply pres_bind' pres_getState
    intro st
    cases st.control <;> first | exact ih | exact pres_pure' _

theorem pres_assignInto {ev : Expr → M Value}
    (hev : ∀ e, PreservesM (ev e)) :
    ∀ target val loc, PreservesM (assignIntoWith ev target val loc)
  | .variable name l, val, loc => by
    rw [assignIntoWith]
    apply pres_getState_bind
    intro st
    cases st.env.set name val
    · exact tasksPreserved_refl st.exec
    · exact tasksPreserved_refl st.exec
  | .tableAccess base key l, val, loc => by
    rw [assignIntoWith]
    apply pres_bind' (hev base)
    intro bv
    apply pres_bind' (hev key)
    intro kv
    cases bv
    case table t => exact pres_assignInto hev base _ loc
    all_goals exact pres_runtimeErr _ _
  | .literal v l, val, loc => pres_runtimeErr _ _
  | .binary a o b l, val, loc => pres_runtimeErr _ _
  | .unary o a l, val, loc => pres_runtimeErr _ _
  | .assign a b l, val, loc => pres_runtimeErr _ _
  | .call a b l, val, loc => pres_runtimeErr _ _
  | .table f l, val, loc => pres_runtimeErr _ _
  | .logical a o b l, val, loc => pres_runtimeErr _ _
  | .function p r b l, val, loc => pres_runtimeErr _ _
  | .spawn c l, val, loc => pres_runtimeErr _ _
  | .await t l, val, loc => pres_runtimeErr _ _

theorem pres_runNative (name : String) (args : List Value)
    (loc : SourceLocation) : PreservesM (runNative name args loc) := by
  rw [runNative]
  split
  · exact pres_bind' (pres_printLine _) fun _ => pres_pure' _
  split
  · split
    · exact pres_pure' _
    · exact pres_runtimeErr _ _
  split
  · split
    · split
      · exact pres_pure' _
      · exact pres_pure' _
    · exact pres_runtimeErr _ _
  exact pres_runtimeErr _ _

theorem pres_awaitInt {F : EvalFns}
    (hTask : ∀ t f a, PreservesM (F.executeTask t f a)) :
    ∀ taskId loc, PreservesM (awaitIntWith F taskId loc) := by
  intro taskId loc
  rw [awaitIntWith]
  apply pres_bind' pres_getState
  intro st
  split
  · split
    · exact pres_pure' _
    · exact pres_runtimeErr _ _
    · split
      · exact hTask _ _ _
      · exact pres_runtimeErr _ _
    · exact pres_runtimeErr _ _
  · exact pres_runtimeErr _ _

theorem pres_runTaskThread
    {exec : Nat → FunctionValue → List Value → M Value}
    (hexec : ∀ t f a, PreservesM (exec t f a)) :
    ∀ tid f args, PreservesM (runTaskThreadWith exec tid f args) := by
  intro tid f args
  rw [preservesM_iff]
  intro st
  simp only [runTaskThreadWith]
  have h := (preservesM_iff _).mp (hexec tid f args)
    ⟨st.env, .none, st.exec, st.output, [], none⟩
  cases hr : exec tid f args ⟨st.env, .none, st.exec, st.output, [], none⟩ with
  | ok v st' =>
    rw [hr] at h
    exact h
  | err e st' =>
    rw [hr] at h
    cases e <;> exact h

theorem pres_runPendingList
    {exec : Nat → FunctionValue → List Value → M Value}
    (hexec : ∀ t f a, PreservesM (exec t f a)) :
    ∀ loc vs, PreservesM (runPendingListWith exec loc vs) := by
  intro loc vs
  induction vs with
  | nil => exact pres_pure' []
  | cons v rest ih =>
    cases v with
    | int taskId =>
      rw [runPendingListWith]
      apply pres_bind' pres_getState
      intro st
      split
      · apply pres_bind' ?_ fun _ => pres_bind' ih fun tids => pres_pure' _
        split
        · exact pres_runTaskThread hexec _ _ _
        · exact pres_pure' ()
      · exact pres_runtimeErr _ _
    | nil => exact pres_runtimeErr _ _
    | float f => exact pres_runtimeErr _ _
    | string s => exact pres_runtimeErr _ _
    | bool b => exact pres_runtimeErr _ _
    | table tb => exact pres_runtimeErr _ _
    | function fn => exact pres_runtimeErr _ _
    | nativeFunction fn => exact pres_runtimeErr _ _
    | pointer c => exact pres_runtimeErr _ _

theorem pres_runPendingFields
    {exec : Nat → FunctionValue → List Value → M Value}
    (hexec : ∀ t f a, PreservesM (exec t f a)) :
    ∀ loc fs, PreservesM (runPendingFieldsWith exec loc fs) := by
  intro loc fs
  induction fs with
  | nil => exact pres_pure' []
  | cons p rest ih =>
    obtain ⟨key, v⟩ := p
    cases v with
    | int taskId =>
      rw [runPendingFieldsWith]
      apply pres_bind' pres_getState
      intro st
      split
      · apply pres_bind' ?_ fun _ => pres_bind' ih fun pairs => pres_pure' _
        split
        · exact pres_runTaskThread hexec _ _ _
        · exact pres_pure' ()
      · exact pres_runtimeErr _ _
    | nil => exact pres_runtimeErr _ _
    | float f => exact pres_runtimeErr _ _
    | string s => exact pres_runtimeErr _ _
    | bool b => exact pres_runtimeErr _ _
    | table tb => exact pres_runtimeErr _ _
    | function fn => exact pres_runtimeErr _ _
    | nativeFunction fn => exact pres_runtimeErr _ _
    | pointer c => exact pres_runtimeErr _ _

theorem pres_collectArr (loc : SourceLocation) :
    ∀ tids, PreservesM (collectArr loc tids) := by
  intro tids
  induction tids with
  | nil => exact pres_pure' []
  | cons tid rest ih =>
    rw [collectArr]
    apply pres_bind' pres_getState
    intro st
    split
    · split
      · exact pres_bind' ih fun vs => pres_pure' _
      · exact pres_runtimeErr _ _
      · exact pres_runtimeErr _ _
    · exact ih

theorem pres_collectFields (loc : SourceLocation) :
    ∀ pairs, PreservesM (collectFields loc pairs) := by
  intro pairs
  induction pairs with
  | nil => exact pres_pure' []
  | cons p rest ih =>
    obtain ⟨key, tid⟩ := p
    rw [collectFields]
    apply pres_bind' pres_getState
    intro st
    split
    · split
      · exact pres_bind' ih fun fs => pres_pure' _
      · exact pres_runtimeErr _ _
      · exact pres_runtimeErr _ _
    · exact ih

theorem pres_awaitTable {F : EvalFns}
    (hTask : ∀ t f a, PreservesM (F.executeTask t f a)) :
    ∀ t loc, PreservesM (awaitTableWith F t loc) := by
  intro t loc
  rw [preservesM_iff]
  intro st
  simp only [awaitTableWith]
  split
  · rename_i heq
    have h1 := (preservesM_iff _).mp
      (pres_bind' (pres_runPendingList hTask loc t.array) fun tids =>
        pres_bind' (pres_runPendingFields hTask loc t.fields) fun pairs =>
          pres_pure' (tids, pairs)) st
    rw [heq] at h1
    exact h1
  · rename_i heq
    have h1 := (preservesM_iff _).mp
      (pres_bind' (pres_runPendingList hTask loc t.array) fun tids =>
        pres_bind' (pres_runPendingFields hTask loc t.fields) fun pairs =>
          pres_pure' (tids, pairs)) st
    rw [heq] at h1
    exact h1
  · rename_i tids pairs st' heq
    have h1 := (preservesM_iff _).mp
      (pres_bind' (pres_runPendingList hTask loc t.array) fun tids =>
        pres_bind' (pres_runPendingFields hTask loc t.fields) fun pairs =>
          pres_pure' (tids, pairs)) st
    rw [heq] at h1
    have h2 := (preservesM_iff _).mp
      (pres_bind' (pres_collectArr loc tids) fun vs =>
        pres_bind' (pres_collectFields loc pairs) fun fs =>
          pres_pure' (Value.table (.mk fs vs none))) st'
    exact tasksPreserved_trans h1 h2

theorem pres_executeTask_step {F : EvalFns}
    (hEx : ∀ s, PreservesM (F.execStmt s)) :
    ∀ tid f args, PreservesM ((stepFns F).executeTask tid f args) := by
  intro tid f args
  rw [preservesM_iff]
  intro st
  simp only [stepFns]
  split
  all_goals
    rename_i heq
    have h := (preservesM_iff (execRetOnlyWith F.execStmt f.body)).mp
      (pres_execRetOnly hEx f.body)
      { env := List.foldl (fun env p => env.define p.1 p.2)
          st.env.pushScope (f.params.zip args),
        control := st.control, exec := st.exec, output := st.output,
        loadedModules := st.loadedModules,
        currentFileDir := st.currentFileDir }
    rw [heq] at h
    first
      | exact tasksPreserved_trans h (tasksPreserved_update _ _ _)
      | exact h

theorem pres_ite {α : Type} {c : Prop} [h : Decidable c] {a b : M α}
    (ha : PreservesM a) (hb : PreservesM b) :
    PreservesM (if c then a else b) := by
  by_cases hc : c
  · rw [if_pos hc]
    exact ha
  · rw [if_neg hc]
    exact hb

theorem pres_evalExpr_step {F : EvalFns} (hF : PreservesFns F) :
    ∀ e, PreservesM ((stepFns F).evalExpr e) := by
  obtain ⟨hEv, hEx, hWh, hFor, hCall, hTask⟩ := hF
  intro e
  cases e
  · rename_i v l
    cases v <;> exact pres_pure' _
  · rename_i name l
    apply pres_bind' pres_getState
    intro st
    split
    · exact pres_pure' _
    · exact pres_runtimeErr _ _
  · rename_i left op right l
    apply pres_bind' (hEv left)
    intro lv
    apply pres_bind' (hEv right)
    intro rv
    split
    · exact pres_pure' _
    · exact pres_throw _
  · rename_i op operand l
    apply pres_bind' (hEv operand)
    intro v
    split
    · exact pres_pure' _
    · exact pres_throw _
  · rename_i target value l
    exact pres_bind' (hEv value) fun val =>
      pres_bind' (pres_assignInto hEv target val l) fun _ => pres_pure' _
  · rename_i callee arguments l
    exact pres_bind' (hEv callee) fun func =>
      pres_bind' (pres_evalArgs hEv arguments) fun args =>
        hCall func args l
  · rename_i fields l
    exact pres_bind' (pres_evalEntries hEv fields TableValue.new)
      fun t => pres_pure' _
  · rename_i tbl key l
    apply pres_bind' (hEv tbl)
    intro tv
    apply pres_bind' (hEv key)
    intro kv
    split
    · exact pres_pure' _
    · exact pres_runtimeErr _ _
  · rename_i left op right l
    apply pres_bind' (hEv left)
    intro lv
    cases op
    · exact pres_ite (pres_pure' _) (hEv right)
    · exact pres_ite (pres_pure' _) (hEv right)
  · exact pres_pure' _
  · rename_i callExpr l
    cases callExpr
    · exact pres_runtimeErr _ _
    · exact pres_runtimeErr _ _
    · exact pres_runtimeErr _ _
    · exact pres_runtimeErr _ _
    · exact pres_runtimeErr _ _
    · rename_i callee arguments l'
      apply pres_bind' (hEv callee)
      intro funcValue
      split
      · apply pres_bind' (pres_evalArgs hEv arguments)
        intro args
        apply pres_getState_bind
        intro st
        exact tasksPreserved_spawn st.exec _ args
      · exact pres_runtimeErr _ _
    · exact pres_runtimeErr _ _
    · exact pres_runtimeErr _ _
    · exact pres_runtimeErr _ _
    · exact pres_runtimeErr _ _
    · exact pres_runtimeErr _ _
    · exact pres_runtimeErr _ _
  · rename_i task l
    apply pres_bind' (hEv task)
    intro tv
    split
    · exact pres_awaitInt hTask _ _
    · exact pres_awaitTable hTask _ _
    · exact pres_runtimeErr _ _

theorem pres_execStmt_step {F : EvalFns} (hF : PreservesFns F) :
    ∀ s, PreservesM ((stepFns F).execStmt s) := by
  obtain ⟨hEv, hEx, hWh, hFor, hCall, hTask⟩ := hF
  intro s
  cases s
  · rename_i name ty initializer isConst l
    cases initializer
    · exact pres_bind' (pres_pure' _) fun value => pres_modifyEnv _
    · rename_i init
      exact pres_bind' (hEv init) fun value => pres_modifyEnv _
  · rename_i name params r body isAsync l
    exact pres_modifyEnv (fun env =>
      env.define name (.function ⟨name, params.map Prod.fst, body, isAsync⟩))
  · rename_i e l
    exact pres_bind' (hEv e) fun _ => pres_pure' _
  · rename_i condition thenBranch elseBranch l
    apply pres_bind' (hEv condition)
    intro cond
    apply pres_ite
    · exact pres_execSeq hEx thenBranch
    · cases elseBranch
      · exact pres_pure' _
      · rename_i es
        exact pres_execSeq hEx es
  · rename_i condition body l
    exact hWh condition body
  · rename_i initializer condition increment body l
    cases initializer
    · exact pres_bind' (pres_modifyEnv _) fun _ =>
        pres_bind' (pres_pure' _) fun _ => hFor condition increment body
    · rename_i init
      exact pres_bind' (pres_modifyEnv _) fun _ =>
        pres_bind' (hEx init) fun _ => hFor condition increment body
  · rename_i value l
    cases value
    · exact pres_bind' (pres_pure' _) fun v => pres_setControl _
    · rename_i e
      exact pres_bind' (hEv e) fun v => pres_setControl _
  · exact pres_setControl _
  · exact pres_setControl _
  · rename_i statements l
    exact pres_bind' (pres_modifyEnv _) fun _ =>
      pres_bind' (pres_execSeq hEx statements) fun _ => pres_modifyEnv _
  · rename_i path l
    apply pres_bind' pres_getState
    intro st
    apply pres_ite
    · exact pres_pure' _
    · exact pres_runtimeErr _ _

theorem pres_whileLoop_step {F : EvalFns} (hF : PreservesFns F) :
    ∀ c b, PreservesM ((stepFns F).whileLoop c b) := by
  obtain ⟨hEv, hEx, hWh, hFor, hCall, hTask⟩ := hF
  intro c b
  apply pres_bind' (hEv c)
  intro cond
  apply pres_ite
  · exact pres_pure' _
  · apply pres_bind' (pres_loopBody hEx b)
    intro sig
    cases sig
    · exact hWh c b
    · exact pres_setControl _
    · exact pres_bind' (pres_setControl _) fun _ => hWh c b
    · exact pres_pure' _

theorem pres_forIter_step {F : EvalFns} (hF : PreservesFns F) :
    ∀ c i b, PreservesM ((stepFns F).forIter c i b) := by
  obtain ⟨hEv, hEx, hWh, hFor, hCall, hTask⟩ := hF
  intro c i b
  have htail : ∀ y : Bool,
      PreservesM (if !y then M.modifyEnv Env.popScope
        else do
          let sig ← loopBodyWith F.execStmt b
          match sig with
          | .brk => do
            M.setControl .none
            M.modifyEnv Env.popScope
          | .ret => M.modifyEnv Env.popScope
          | .cont => do
            M.setControl .none
            (match i with
             | some inc => do
               let _ ← F.evalExpr inc
               pure ()
             | none => pure ())
            F.forIter c i b
          | .normal => do
            (match i with
             | some inc => do
               let _ ← F.evalExpr inc
               pure ()
             | none => pure ())
            F.forIter c i b) := by
    intro y
    apply pres_ite
    · exact pres_modifyEnv _
    · apply pres_bind' (pres_loopBody hEx b)
      intro sig
      cases sig
      · exact pres_bind'
          (by
            cases i
            · exact pres_pure' ()
            · rename_i inc
              exact pres_bind' (hEv inc) fun _ => pres_pure' ())
          fun _ => hFor c i b
      · exact pres_bind' (pres_setControl _) fun _ => pres_modifyEnv _
      · exact pres_bind' (pres_setControl _) fun _ =>
          pres_bind'
            (by
              cases i
              · exact pres_pure' ()
              · rename_i inc
                exact pres_bind' (hEv inc) fun _ => pres_pure' ())
            fun _ => hFor c i b
      · exact pres_modifyEnv _
  cases c
  · exact pres_bind' (pres_pure' true) fun y => htail y
  · rename_i cond
    exact pres_bind' (hEv cond) fun v =>
      pres_bind' (pres_pure' _) fun y => htail y

theorem pres_callFunction_step {F : EvalFns} (hF : PreservesFns F) :
    ∀ f a l, PreservesM ((stepFns F).callFunction f a l) := by
  obtain ⟨hEv, hEx, hWh, hFor, hCall, hTask⟩ := hF
  intro func args loc
  cases func
  · exact pres_runtimeErr _ _
  · exact pres_runtimeErr _ _
  · exact pres_runtimeErr _ _
  · exact pres_runtimeErr _ _
  · exact pres_runtimeErr _ _
  · exact pres_runtimeErr _ _
  · rename_i userFunc
    apply pres_ite
    · exact pres_runtimeErr _ _
    · apply pres_bind' (pres_modifyEnv _)
      intro u
      apply pres_bind' (pres_modifyEnv _)
      intro u'
      apply pres_bind' (pres_execRetOnly hEx _)
      intro u''
      apply pres_bind' pres_getState
      intro st
      split
      · exact pres_bind' (pres_setControl _) fun _ =>
          pres_bind' (pres_modifyEnv _) fun _ => pres_pure' _
      · exact pres_bind' (pres_modifyEnv _) fun _ =>
          pres_bind' (pres_setControl _) fun _ => pres_pure' _
  · rename_i native
    apply pres_ite
    · exact pres_runtimeErr _ _
    · exact pres_runNative _ _ _
  · exact pres_runtimeErr _ _

theorem pres_stepFns {F : EvalFns} (hF : PreservesFns F) :
    PreservesFns (stepFns F) :=
  ⟨pres_evalExpr_step hF, pres_execStmt_step hF,
   pres_whileLoop_step hF, pres_forIter_step hF,
   pres_callFunction_step hF,
   pres_executeTask_step hF.2.1⟩

theorem pres_evalFns : ∀ fuel, PreservesFns (evalFns fuel)
  | 0 =>
    ⟨fun _ => pres_throw _, fun _ => pres_throw _,
     fun _ _ => pres_throw _, fun _ _ _ => pres_throw _,
     fun _ _ _ => pres_throw _, fun _ _ _ => pres_throw _⟩
  | fuel + 1 => pres_stepFns (pres_evalFns fuel)

theorem bind_ok {α β : Type} {m : M α} {k : α → M β} {st st1 : IState}
    {a : α} (h : m st = .ok a st1) : (m >>= k) st = k a st1 := by
  show M.bind m k st = k a st1
  unfold M.bind
  rw [h]

theorem bind_ok_inv {α β : Type} {m : M α} {k : α → M β} {st : IState}
    {b : β} {st' : IState} (h : (m >>= k) st = .ok b st') :
    ∃ a st1, m st = .ok a st1 ∧ k a st1 = .ok b st' := by
  have h' : M.bind m k st = .ok b st' := h
  unfold M.bind at h'
  split at h'
  · rename_i a st1 hm
    exact ⟨a, st1, hm, h'⟩
  · cases h'

/-- C5: the spawn case of `Expr::Spawn` (`interpreter.rs:1191`): once the
callee has resolved to a user function and the arguments are evaluated,
the spawn appends exactly one `Pending` task holding the resolved
function and the evaluated arguments, returns the fresh id as an `Int`,
bumps the dense id counter by one (the counter starts at 0 in
`AsyncExecutor::new`), and touches nothing else: environment, output,
control register and ready queue are unchanged, and no statement of the
function body runs at spawn time. -/

theorem c5_spawn_frame (F : EvalFns) (callee : Expr)
    (arguments : List Expr) (l l' : SourceLocation)
    (st st1 st2 : IState) (f : FunctionValue) (vs : List Value)
    (v : Value) (st' : IState)
    (h1 : F.evalExpr callee st = .ok (.function f) st1)
    (h2 : evalArgsWith F.evalExpr arguments st1 = .ok vs st2)
    (h : (stepFns F).evalExpr (.spawn (.call callee arguments l') l) st
      = .ok v st') :
    v = .int (i64OfUsize st2.exec.nextTaskId)
    ∧ st'.exec.tasks
        = st2.exec.tasks
          ++ [Task.newWithFunction st2.exec.nextTaskId f vs]
    ∧ (Task.newWithFunction st2.exec.nextTaskId f vs).state = .pending
    ∧ (Task.newWithFunction st2.exec.nextTaskId f vs).function = some f
    ∧ (Task.newWithFunction st2.exec.nextTaskId f vs).arguments = vs
    ∧ st'.exec.nextTaskId = st2.exec.nextTaskId + 1
    ∧ st'.exec.readyQueue = st2.exec.readyQueue
    ∧ st'.env = st2.env
    ∧ st'.output = st2.output
    ∧ st'.control = st2.control
    ∧ ExecutorSt.new.nextTaskId = 0 := by
  have b1 := bind_ok (k := fun funcValue =>
    match funcValue with
    | Value.function f => do
      let args ← evalArgsWith F.evalExpr arguments
      let st ← M.getState
      let (taskId, exec2) := st.exec.spawnFunction f args
      M.setState { st with exec := exec2 }
      pure (Value.int (i64OfUsize taskId))
    | _ => M.runtimeErr "spawn expects a function call" (some l)) h1
  have b2 := bind_ok (k := fun args => do
    let st ← M.getState
    let (taskId, exec2) := st.exec.spawnFunction f args
    M.setState { st with exec := exec2 }
    pure (Value.int (i64OfUsize taskId))) h2
  have hrun : (stepFns F).evalExpr (.spawn (.call callee arguments l') l) st
      = .ok (.int (i64OfUsize st2.exec.nextTaskId))
          { st2 with exec := (st2.exec.spawnFunction f vs).2 } :=
    b1.trans (b2.trans rfl)
  rw [hrun] at h
  cases h
  exact ⟨rfl, rfl, rfl, rfl, rfl, rfl, rfl, rfl, rfl, rfl, rfl⟩

/-- Witness for the C5 frame theorem: spawning an anonymous function
with no arguments from the initial state registers task 0. -/

theorem c5_spawn_frame_witness :
    ({ IState.initial with
        exec := (IState.initial.exec.spawnFunction
          ⟨"<anonymous>", [], [], false⟩ []).2 } : IState).exec.tasks
      = IState.initial.exec.tasks
        ++ [Task.newWithFunction IState.initial.exec.nextTaskId
          ⟨"<anonymous>", [], [], false⟩ []] :=
  (c5_spawn_frame (evalFns 1) (.function [] none [] locZ) []
    locZ locZ IState.initial IState.initial IState.initial
    ⟨"<anonymous>", [], [], false⟩ []
    (.int (i64OfUsize IState.initial.exec.nextTaskId))
    { IState.initial with
      exec := (IState.initial.exec.spawnFunction
        ⟨"<anonymous>", [], [], false⟩ []).2 }
    rfl rfl rfl).2.1

set_option maxHeartbeats 2000000 in
/-- C8 counterexample: the program
`fn work(k) return 42 end  local a = spawn work()  local r = await a
print(r)` spawns `work` with zero arguments against one declared
parameter; the spawned task is executed at the `await` (through
`execute_task`, which zips parameters with arguments without comparing
lengths), the run succeeds and prints `42` — no arity error is ever
raised on the task path. -/
theorem c8_spawned_task_skips_arity_check :
    (interpret 8 astC8 IState.initial).isOk = true
    ∧ ((interpret 8 astC8 IState.initial).state).output = ["42"] :=
  ⟨rfl, rfl⟩

/-- C8 (amended): only `Interpreter::call_function` checks arity —
calling a user function or a native function through a call expression
with the wrong number of arguments is a runtime error; a spawned task's
function executed at an `await` goes through `Interpreter::execute_task`
instead, which binds parameters by `zip` and silently truncates. -/

theorem c8_amended_call_arity_only :
    (∀ F : EvalFns, ∀ userFunc : FunctionValue, ∀ args loc st,
        args.length ≠ userFunc.params.length →
        (stepFns F).callFunction (.function userFunc) args loc st
          = .err (.lux (.runtimeError
              ("Expected " ++ toString userFunc.params.length
                ++ " arguments but got " ++ toString args.length)
              (some loc))) st)
    ∧ (∀ F : EvalFns, ∀ native : NativeFunctionValue, ∀ args loc st,
        args.length ≠ native.arity →
        (stepFns F).callFunction (.nativeFunction native) args loc st
          = .err (.lux (.runtimeError
              ("Expected " ++ toString native.arity
                ++ " arguments but got " ++ toString args.length)
              (some loc))) st) := by
  constructor
  · intro F userFunc args loc st h
    show (if args.length ≠ userFunc.params.length then
        M.runtimeErr ("Expected " ++ toString userFunc.params.length
          ++ " arguments but got " ++ toString args.length) (some loc)
      else do
        M.modifyEnv Env.pushScope
        bindParams (userFunc.params.zip args)
        execRetOnlyWith F.execStmt userFunc.body
        let st ← M.getState
        match st.control with
        | .ret v => do
          M.setControl .none
          M.modifyEnv Env.popScope
          pure v
        | _ => do
          M.modifyEnv Env.popScope
          M.setControl .none
          pure .nil) st = _
    rw [if_pos h]
    rfl
  · intro F native args loc st h
    show (if args.length ≠ native.arity then
        M.runtimeErr ("Expected " ++ toString native.arity
          ++ " arguments but got " ++ toString args.length) (some loc)
      else runNative native.name args loc) st = _
    rw [if_pos h]
    rfl

/-- Witness for the amended C8 theorem: calling a one-parameter user
function with zero arguments from the initial state is an arity error. -/

theorem c8_amended_call_arity_only_witness :
    (stepFns (evalFns 0)).callFunction
        (.function ⟨"w", ["k"], [], false⟩) [] locZ IState.initial
      = .err (.lux (.runtimeError "Expected 1 arguments but got 0"
          (some locZ))) IState.initial :=
  c8_amended_call_arity_only.1 (evalFns 0) ⟨"w", ["k"], [], false⟩
    [] locZ IState.initial (by decide)

theorem res_err_ne_ok {α : Type} {e : RunErr} {st st1 : IState} {a : α} :
    (Res.err e st : Res α) ≠ .ok a st1 := by
  intro h
  cases h

/-- C4: the `Int` case of `Expr::Await` (`interpreter.rs:1229`) and
`Interpreter::execute_task` (`interpreter.rs:805`). A `Completed(v)`
task yields `v`; a `Failed(m)` task fails with an error carrying `m`; a
`Pending` task holding a function is executed inline by the current
evaluator through `execute_task`, which on success stores `Completed`
with the returned value at the task's id (and on a Lux error stores
`Failed` with the rendered error) and yields that value; an id naming no
registered task fails with a "not found" error. -/

theorem c4_await_int_semantics :
    (∀ F : EvalFns, ∀ taskId loc st t v,
        st.exec.getTask (usizeOfI64 taskId) = some t →
        t.state = .completed v →
        awaitIntWith F taskId loc st = .ok v st)
    ∧ (∀ F : EvalFns, ∀ taskId loc st t m,
        st.exec.getTask (usizeOfI64 taskId) = some t →
        t.state = .failed m →
        awaitIntWith F taskId loc st
          = .err (.lux (.runtimeError
              ("Task " ++ toString taskId ++ " failed: " ++ m)
              (some loc))) st)
    ∧ (∀ F : EvalFns, ∀ taskId loc st t f,
        st.exec.getTask (usizeOfI64 taskId) = some t →
        t.state = .pending → t.function = some f →
        awaitIntWith F taskId loc st
          = F.executeTask (usizeOfI64 taskId) f t.arguments st)
    ∧ (∀ F : EvalFns, ∀ taskId loc st,
        st.exec.getTask (usizeOfI64 taskId) = none →
        awaitIntWith F taskId loc st
          = .err (.lux (.runtimeError
              ("Task " ++ toString taskId ++ " not found")
              (some loc))) st)
    ∧ (∀ fuel tid f args st v st',
        (st.exec.getTask tid).isSome = true →
        executeTask (fuel + 1) tid f args st = .ok v st' →
        ∃ t', st'.exec.getTask tid = some t'
          ∧ t'.state = .completed v)
    ∧ (∀ fuel tid f args st e st',
        (st.exec.getTask tid).isSome = true →
        executeTask (fuel + 1) tid f args st = .err (.lux e) st' →
        ∃ t', st'.exec.getTask tid = some t'
          ∧ t'.state = .failed e.display) := by
  have hbody : ∀ (F : EvalFns) (taskId : Int) (loc : SourceLocation)
      (st : IState),
      awaitIntWith F taskId loc st
        = (match st.exec.getTask (usizeOfI64 taskId) with
          | some task =>
            match task.state with
            | .completed v => pure v
            | .failed msg =>
              M.runtimeErr
                ("Task " ++ toString taskId ++ " failed: " ++ msg)
                (some loc)
            | .pending =>
              match task.function with
              | some f => F.executeTask (usizeOfI64 taskId) f task.arguments
              | none =>
                M.runtimeErr
                  ("Task " ++ toString taskId
                    ++ " has no function to execute")
                  (some loc)
            | .running =>
              M.runtimeErr
                ("Task " ++ toString taskId ++ " is in invalid state")
                (some loc)
          | none =>
            M.runtimeErr ("Task " ++ toString taskId ++ " not found")
              (some loc)) st := fun F taskId loc st => rfl
  refine ⟨?_, ?_, ?_, ?_, ?_, ?_⟩
  · intro F taskId loc st t v hg hst
    rw [hbody, hg]
    simp only [hst]
    rfl
  · intro F taskId loc st t m hg hst
    rw [hbody, hg]
    simp only [hst]
    rfl
  · intro F taskId loc st t f hg hst hfn
    rw [hbody, hg]
    simp only [hst, hfn]
  · intro F taskId loc st hg
    rw [hbody, hg]
    rfl
  · intro fuel tid f args st v st' hsome h
    have h' : (stepFns (evalFns fuel)).executeTask tid f args st
        = .ok v st' := h
    simp only [stepFns] at h'
    split at h'
    · cases h'
    · cases h'
    · rename_i st2 heq
      cases h'
      have hp := (preservesM_iff
          (execRetOnlyWith (evalFns fuel).execStmt f.body)).mp
        (pres_execRetOnly (pres_evalFns fuel).2.1 f.body)
        { env := List.foldl (fun env p => env.define p.1 p.2)
            st.env.pushScope (f.params.zip args),
          control := st.control, exec := st.exec, output := st.output,
          loadedModules := st.loadedModules,
          currentFileDir := st.currentFileDir }
      rw [heq] at hp
      obtain ⟨t2, ht2⟩ := Option.isSome_iff_exists.mp (hp tid hsome)
      exact ⟨{ t2 with state := .completed _ }, getTask_update_eq _ ht2,
        rfl⟩
  · intro fuel tid f args st e st' hsome h
    have h' : (stepFns (evalFns fuel)).executeTask tid f args st
        = .err (.lux e) st' := h
    simp only [stepFns] at h'
    split at h'
    · rename_i e2 st2 heq
      cases h'
      have hp := (preservesM_iff
          (execRetOnlyWith (evalFns fuel).execStmt f.body)).mp
        (pres_execRetOnly (pres_evalFns fuel).2.1 f.body)
        { env := List.foldl (fun env p => env.define p.1 p.2)
            st.env.pushScope (f.params.zip args),
          control := st.control, exec := st.exec, output := st.output,
          loadedModules := st.loadedModules,
          currentFileDir := st.currentFileDir }
      rw [heq] at hp
      obtain ⟨t2, ht2⟩ := Option.isSome_iff_exists.mp (hp tid hsome)
      exact ⟨{ t2 with state := .failed e.display },
        getTask_update_eq _ ht2, rfl⟩
    · rename_i e2 st2 hne heq
      cases h'
      exact absurd rfl (hne e)
    · cases h'

/-- Witness for the C4 theorem: awaiting the already-`Completed` task 0
yields its stored value `7` without touching the state. -/

theorem c4_await_int_semantics_witness :
    awaitIntWith (evalFns 0) 0 locZ stC4 = .ok (.int 7) stC4 :=
  c4_await_int_semantics.1 (evalFns 0) 0 locZ stC4
    ⟨0, "w", [], .completed (.int 7), none, []⟩ (.int 7) rfl rfl

theorem forall2_compose {α β γ : Type} {r : α → β → Prop}
    {s : β → γ → Prop} {l1 : List α} {l2 : List β} {l3 : List γ}
    (h1 : List.Forall₂ r l1 l2) (h2 : List.Forall₂ s l2 l3) :
    List.Forall₂ (fun a c => ∃ b, r a b ∧ s b c) l1 l3 := by
  induction h1 generalizing l3 with
  | nil =>
    cases h2
    exact .nil
  | cons hab hrest ih =>
    cases h2 with
    | cons hbc hrest2 => exact .cons ⟨_, hab, hbc⟩ (ih hrest2)

theorem forall2_fst {γ δ : Type}
    {R : (String × γ) → (String × δ) → Prop}
    (hR : ∀ a b, R a b → b.1 = a.1) :
    ∀ {l1 : List (String × γ)} {l2 : List (String × δ)},
    List.Forall₂ R l1 l2 → l2.map Prod.fst = l1.map Prod.fst := by
  intro l1 l2 h
  induction h with
  | nil => rfl
  | cons hab hrest ih => simp [hR _ _ hab, ih]

theorem runPendingList_ok
    {ex : Nat → FunctionValue → List Value → M Value}
    (hexec : ∀ t f a, PreservesM (ex t f a)) (loc : SourceLocation) :
    ∀ vs st tids st',
    runPendingListWith ex loc vs st = .ok tids st' →
    tasksPreserved st.exec st'.exec
    ∧ List.Forall₂ (fun v tid => ∃ k, v = Value.int k
        ∧ tid = usizeOfI64 k) vs tids
    ∧ ∀ tid ∈ tids, (st'.exec.getTask tid).isSome = true := by
  intro vs
  induction vs with
  | nil =>
    intro st tids st' h
    have h' : (Res.ok ([] : List Nat) st : Res (List Nat))
        = .ok tids st' := h
    cases h'
    refine ⟨tasksPreserved_refl st.exec, .nil, ?_⟩
    intro tid htid
    exact absurd htid (List.not_mem_nil tid)
  | cons v rest ih =>
    intro st tids st' h
    cases v with
    | int taskId =>
      have e1 : runPendingListWith ex loc (.int taskId :: rest) st
          = (match st.exec.getTask (usizeOfI64 taskId) with
            | some task =>
              (match task.state, task.function with
                | .pending, some f =>
                  runTaskThreadWith ex (usizeOfI64 taskId) f
                    task.arguments
                | _, _ => pure ()) >>= fun _ =>
              runPendingListWith ex loc rest >>= fun tids =>
              pure (usizeOfI64 taskId :: tids)
            | none =>
              M.runtimeErr ("Task " ++ toString taskId ++ " not found")
                (some loc)) st := rfl
      have h2 := e1.symm.trans h
      cases hg : st.exec.getTask (usizeOfI64 taskId) with
      | none =>
        rw [hg] at h2
        have h3 : (Res.err (.lux (.runtimeError
            ("Task " ++ toString taskId ++ " not found") (some loc))) st
            : Res (List Nat)) = .ok tids st' := h2
        cases h3
      | some task =>
        rw [hg] at h2
        have h3 : ((match task.state, task.function with
            | .pending, some f =>
              runTaskThreadWith ex (usizeOfI64 taskId) f task.arguments
            | _, _ => (pure () : M Unit)) >>= fun _ =>
            runPendingListWith ex loc rest >>= fun tids =>
            pure (usizeOfI64 taskId :: tids)) st = .ok tids st' := h2
        obtain ⟨u, st1, hd, hrest⟩ := bind_ok_inv h3
        obtain ⟨tids1, st2, hrec, hpure⟩ := bind_ok_inv hrest
        have hpure' : (Res.ok (usizeOfI64 taskId :: tids1) st2
            : Res (List Nat)) = .ok tids st' := hpure
        cases hpure'
        have hdp : PreservesM (match task.state, task.function with
            | .pending, some f =>
              runTaskThreadWith ex (usizeOfI64 taskId) f task.arguments
            | _, _ => (pure () : M Unit)) := by
          cases task.state <;> cases task.function <;>
            first
            | exact pres_runTaskThread hexec _ _ _
            | exact pres_pure' ()
        have hp1 := (preservesM_iff _).mp hdp st
        rw [hd] at hp1
        obtain ⟨hp2, hf2, hpres⟩ := ih st1 tids1 st' hrec
        refine ⟨tasksPreserved_trans hp1 hp2,
          .cons ⟨taskId, rfl, rfl⟩ hf2, ?_⟩
        intro tid htid
        rcases List.mem_cons.mp htid with rfl | hmem
        · exact hp2 _ (hp1 _ (by rw [hg]; rfl))
        · exact hpres _ hmem
    | nil => exact absurd h res_err_ne_ok
    | float x => exact absurd h res_err_ne_ok
    | string s => exact absurd h res_err_ne_ok
    | bool b => exact absurd h res_err_ne_ok
    | table tb => exact absurd h res_err_ne_ok
    | function fn => exact absurd h res_err_ne_ok
    | nativeFunction fn => exact absurd h res_err_ne_ok
    | pointer c => exact absurd h res_err_ne_ok

theorem runPendingFields_ok
    {ex : Nat → FunctionValue → List Value → M Value}
    (hexec : ∀ t f a, PreservesM (ex t f a)) (loc : SourceLocation) :
    ∀ fs st pairs st',
    runPendingFieldsWith ex loc fs st = .ok pairs st' →
    tasksPreserved st.exec st'.exec
    ∧ List.Forall₂ (fun (p : String × Value) (q : String × Nat) =>
        q.1 = p.1 ∧ ∃ k, p.2 = Value.int k ∧ q.2 = usizeOfI64 k)
        fs pairs
    ∧ ∀ q ∈ pairs, (st'.exec.getTask q.2).isSome = true := by
  intro fs
  induction fs with
  | nil =>
    intro st pairs st' h
    have h' : (Res.ok ([] : List (String × Nat)) st
        : Res (List (String × Nat))) = .ok pairs st' := h
    cases h'
    refine ⟨tasksPreserved_refl st.exec, .nil, ?_⟩
    intro q hq
    exact absurd hq (List.not_mem_nil q)
  | cons p rest ih =>
    intro st pairs st' h
    obtain ⟨key, v⟩ := p
    cases v with
    | int taskId =>
      have e1 : runPendingFieldsWith ex loc ((key, .int taskId) :: rest) st
          = (match st.exec.getTask (usizeOfI64 taskId) with
            | some task =>
              (match task.state, task.function with
                | .pending, some f =>
                  runTaskThreadWith ex (usizeOfI64 taskId) f
                    task.arguments
                | _, _ => pure ()) >>= fun _ =>
              runPendingFieldsWith ex loc rest >>= fun pairs =>
              pure ((key, usizeOfI64 taskId) :: pairs)
            | none =>
              M.runtimeErr ("Task " ++ toString taskId ++ " not found")
                (some loc)) st := rfl
      have h2 := e1.symm.trans h
      cases hg : st.exec.getTask (usizeOfI64 taskId) with
      | none =>
        rw [hg] at h2
        have h3 : (Res.err (.lux (.runtimeError
            ("Task " ++ toString taskId ++ " not found") (some loc))) st
            : Res (List (String × Nat))) = .ok pairs st' := h2
        cases h3
      | some task =>
        rw [hg] at h2
        have h3 : ((match task.state, task.function with
            | .pending, some f =>
              runTaskThreadWith ex (usizeOfI64 taskId) f task.arguments
            | _, _ => (pure () : M Unit)) >>= fun _ =>
            runPendingFieldsWith ex loc rest >>= fun pairs =>
            pure ((key, usizeOfI64 taskId) :: pairs)) st
            = .ok pairs st' := h2
        obtain ⟨u, st1, hd, hrest⟩ := bind_ok_inv h3
        obtain ⟨pairs1, st2, hrec, hpure⟩ := bind_ok_inv hrest
        have hpure' : (Res.ok ((key, usizeOfI64 taskId) :: pairs1) st2
            : Res (List (String × Nat))) = .ok pairs st' := hpure
        cases hpure'
        have hdp : PreservesM (match task.state, task.function with
            | .pending, some f =>
              runTaskThreadWith ex (usizeOfI64 taskId) f task.arguments
            | _, _ => (pure () : M Unit)) := by
          cases task.state <;> cases task.function <;>
            first
            | exact pres_runTaskThread hexec _ _ _
            | exact pres_pure' ()
        have hp1 := (preservesM_iff _).mp hdp st
        rw [hd] at hp1
        obtain ⟨hp2, hf2, hpres⟩ := ih st1 pairs1 st' hrec
        refine ⟨tasksPreserved_trans hp1 hp2,
          .cons ⟨rfl, taskId, rfl, rfl⟩ hf2, ?_⟩
        intro q hq
        rcases List.mem_cons.mp hq with rfl | hmem
        · exact hp2 _ (hp1 _ (by rw [hg]; rfl))
        · exact hpres _ hmem
    | nil => exact absurd h res_err_ne_ok
    | float x => exact absurd h res_err_ne_ok
    | string s => exact absurd h res_err_ne_ok
    | bool b => exact absurd h res_err_ne_ok
    | table tb => exact absurd h res_err_ne_ok
    | function fn => exact absurd h res_err_ne_ok
    | nativeFunction fn => exact absurd h res_err_ne_ok
    | pointer c => exact absurd h res_err_ne_ok

theorem collectArr_ok (loc : SourceLocation) :
    ∀ tids st vs st',
    collectArr loc tids st = .ok vs st' →
    (∀ tid ∈ tids, (st.exec.getTask tid).isSome = true) →
    st' = st
    ∧ List.Forall₂ (fun tid v => ∃ t, st.exec.getTask tid = some t
        ∧ t.state = .completed v) tids vs := by
  intro tids
  induction tids with
  | nil =>
    intro st vs st' h hpres
    have h' : (Res.ok ([] : List Value) st : Res (List Value))
        = .ok vs st' := h
    cases h'
    exact ⟨rfl, .nil⟩
  | cons tid rest ih =>
    intro st vs st' h hpres
    have e1 : collectArr loc (tid :: rest) st
        = (match st.exec.getTask tid with
          | some task =>
            match task.state with
            | .completed v =>
              collectArr loc rest >>= fun vs => pure (v :: vs)
            | .failed msg =>
              M.runtimeErr ("Task " ++ toString tid ++ " failed: "
                ++ msg) (some loc)
            | _ =>
              M.runtimeErr ("Task " ++ toString tid
                ++ " did not complete") (some loc)
          | none => collectArr loc rest) st := rfl
    have h2 := e1.symm.trans h
    cases hg : st.exec.getTask tid with
    | none =>
      have hx := hpres tid (List.mem_cons_self tid rest)
      rw [hg] at hx
      simp at hx
    | some task =>
      rw [hg] at h2
      have h3 : (match task.state with
          | .completed v =>
            collectArr loc rest >>= fun vs => pure (v :: vs)
          | .failed msg =>
            M.runtimeErr ("Task " ++ toString tid ++ " failed: "
              ++ msg) (some loc)
          | _ =>
            M.runtimeErr ("Task " ++ toString tid
              ++ " did not complete") (some loc)) st = .ok vs st' := h2
      cases hts : task.state with
      | completed v =>
        rw [hts] at h3
        have h4 : (collectArr loc rest >>= fun vs => pure (v :: vs)) st
            = .ok vs st' := h3
        obtain ⟨vs1, st1, hrec, hpure⟩ := bind_ok_inv h4
        have hpure' : (Res.ok (v :: vs1) st1 : Res (List Value))
            = .ok vs st' := hpure
        cases hpure'
        obtain ⟨rfl, hf2⟩ := ih st vs1 st' hrec
          (fun tid2 hm => hpres tid2 (List.mem_cons_of_mem tid hm))
        exact ⟨rfl, .cons ⟨task, hg, hts⟩ hf2⟩
      | failed msg =>
        rw [hts] at h3
        have h4 : (Res.err (.lux (.runtimeError
            ("Task " ++ toString tid ++ " failed: " ++ msg)
            (some loc))) st : Res (List Value)) = .ok vs st' := h3
        cases h4
      | pending =>
        rw [hts] at h3
        have h4 : (Res.err (.lux (.runtimeError
            ("Task " ++ toString tid ++ " did not complete")
            (some loc))) st : Res (List Value)) = .ok vs st' := h3
        cases h4
      | running =>
        rw [hts] at h3
        have h4 : (Res.err (.lux (.runtimeError
            ("Task " ++ toString tid ++ " did not complete")
            (some loc))) st : Res (List Value)) = .ok vs st' := h3
        cases h4

theorem collectFields_ok (loc : SourceLocation) :
    ∀ pairs st fs st',
    collectFields loc pairs st = .ok fs st' →
    (∀ q ∈ pairs, (st.exec.getTask (Prod.snd q)).isSome = true) →
    st' = st
    ∧ List.Forall₂ (fun (q : String × Nat) (r : String × Value) =>
        r.1 = q.1 ∧ ∃ t, st.exec.getTask q.2 = some t
          ∧ t.state = .completed r.2) pairs fs := by
  intro pairs
  induction pairs with
  | nil =>
    intro st fs st' h hpres
    have h' : (Res.ok ([] : List (String × Value)) st
        : Res (List (String × Value))) = .ok fs st' := h
    cases h'
    exact ⟨rfl, .nil⟩
  | cons q rest ih =>
    intro st fs st' h hpres
    obtain ⟨key, tid⟩ := q
    have e1 : collectFields loc ((key, tid) :: rest) st
        = (match st.exec.getTask tid with
          | some task =>
            match task.state with
            | .completed v =>
              collectFields loc rest >>= fun fs => pure ((key, v) :: fs)
            | .failed msg =>
              M.runtimeErr ("Task " ++ toString tid ++ " failed: "
                ++ msg) (some loc)
            | _ =>
              M.runtimeErr ("Task " ++ toString tid
                ++ " did not complete") (some loc)
          | none => collectFields loc rest) st := rfl
    have h2 := e1.symm.trans h
    cases hg : st.exec.getTask tid with
    | none =>
      have hx := hpres (key, tid) (List.mem_cons_self (key, tid) rest)
      rw [hg] at hx
      simp at hx
    | some task =>
      rw [hg] at h2
      have h3 : (match task.state with
          | .completed v =>
            collectFields loc rest >>= fun fs => pure ((key, v) :: fs)
          | .failed msg =>
            M.runtimeErr ("Task " ++ toString tid ++ " failed: "
              ++ msg) (some loc)
          | _ =>
            M.runtimeErr ("Task " ++ toString tid
              ++ " did not complete") (some loc)) st = .ok fs st' := h2
      cases hts : task.state with
      | completed v =>
        rw [hts] at h3
        have h4 : (collectFields loc rest >>= fun fs =>
            pure ((key, v) :: fs)) st = .ok fs st' := h3
        obtain ⟨fs1, st1, hrec, hpure⟩ := bind_ok_inv h4
        have hpure' : (Res.ok ((key, v) :: fs1) st1
            : Res (List (String × Value))) = .ok fs st' := hpure
        cases hpure'
        obtain ⟨rfl, hf2⟩ := ih st fs1 st' hrec
          (fun q2 hm => hpres q2 (List.mem_cons_of_mem (key, tid) hm))
        exact ⟨rfl, .cons ⟨rfl, task, hg, hts⟩ hf2⟩
      | failed msg =>
        rw [hts] at h3
        have h4 : (Res.err (.lux (.runtimeError
            ("Task " ++ toString tid ++ " failed: " ++ msg)
            (some loc))) st : Res (List (String × Value)))
            = .ok fs st' := h3
        cases h4
      | pending =>
        rw [hts] at h3
        have h4 : (Res.err (.lux (.runtimeError
            ("Task " ++ toString tid ++ " did not complete")
            (some loc))) st : Res (List (String × Value)))
            = .ok fs st' := h3
        cases h4
      | running =>
        rw [hts] at h3
        have h4 : (Res.err (.lux (.runtimeError
            ("Task " ++ toString tid ++ " did not complete")
            (some loc))) st : Res (List (String × Value)))
            = .ok fs st' := h3
        cases h4

/-- C6: the table case of `Expr::Await` (`interpreter.rs:1263`). When a
join over a table of task ids succeeds, the result table mirrors the
input's shape: the positional array has the same length, entry i is the
completed value of the task named at position i of the input (input
order preserved), and the named entries carry exactly the input's key
list, each key mapped to the completed value of the task its input
entry named. -/

theorem c6_join_shape (fuel : Nat) (t : TableValue)
    (loc : SourceLocation) (st : IState) (v : Value) (st' : IState)
    (h : awaitTable fuel t loc st = .ok v st') :
    ∃ fs vs,
      v = .table (.mk fs vs none)
      ∧ vs.length = t.array.length
      ∧ fs.map Prod.fst = t.fields.map Prod.fst
      ∧ List.Forall₂ (fun a r => ∃ k task,
          a = Value.int k
          ∧ st'.exec.getTask (usizeOfI64 k) = some task
          ∧ task.state = .completed r) t.array vs
      ∧ List.Forall₂ (fun (p : String × Value) (q : String × Value) =>
          q.1 = p.1 ∧ ∃ k task,
            p.2 = Value.int k
            ∧ st'.exec.getTask (usizeOfI64 k) = some task
            ∧ task.state = .completed q.2) t.fields fs := by
  have hexec := (pres_evalFns fuel).2.2.2.2.2
  have h' : awaitTableWith (evalFns fuel) t loc st = .ok v st' := h
  simp only [awaitTableWith] at h'
  split at h'
  · cases h'
  · cases h'
  · rename_i tids pairs st1 heq
    obtain ⟨tA, stA, hlist, h2⟩ := bind_ok_inv heq
    obtain ⟨pA, stB, hfields, hpure⟩ := bind_ok_inv h2
    have hpure' : (Res.ok (tA, pA) stB
        : Res (List Nat × List (String × Nat))) = .ok (tids, pairs) st1 :=
      hpure
    cases hpure'
    obtain ⟨hpA, f2A, presA⟩ :=
      runPendingList_ok hexec loc t.array st tids stA hlist
    obtain ⟨hpB, f2B, presB⟩ :=
      runPendingFields_ok hexec loc t.fields stA pairs st1 hfields
    have presA' : ∀ tid ∈ tids, (st1.exec.getTask tid).isSome = true :=
      fun tid hm => hpB tid (presA tid hm)
    obtain ⟨vs0, stC, harr, h3⟩ := bind_ok_inv h'
    obtain ⟨hC, f2C⟩ := collectArr_ok loc tids st1 vs0 stC harr presA'
    rw [hC] at h3
    obtain ⟨fs0, stD, hflds, hpure2⟩ := bind_ok_inv h3
    obtain ⟨hD, f2D⟩ := collectFields_ok loc pairs st1 fs0 stD hflds
      (fun q hq => presB q hq)
    rw [hD] at hpure2
    have hpure2' : (Res.ok (Value.table (.mk fs0 vs0 none)) st1
        : Res Value) = .ok v st' := hpure2
    cases hpure2'
    refine ⟨fs0, vs0, rfl, ?_, ?_, ?_, ?_⟩
    · exact (forall2_compose f2A f2C).length_eq.symm
    · refine forall2_fst ?_ (forall2_compose f2B f2D)
      intro a b hb
      obtain ⟨q, hq1, hq2⟩ := hb
      exact hq2.1.trans hq1.1
    · refine List.Forall₂.imp ?_ (forall2_compose f2A f2C)
      intro a r har
      obtain ⟨tid, ⟨k, ha, htid⟩, ⟨task, hg, hs⟩⟩ := har
      exact ⟨k, task, ha, htid ▸ hg, hs⟩
    · refine List.Forall₂.imp ?_ (forall2_compose f2B f2D)
      intro p q hpq
      obtain ⟨w, ⟨hw1, k, hk1, hk2⟩, ⟨hq1, task, hg, hs⟩⟩ := hpq
      refine ⟨hq1.trans hw1, k, task, hk1, ?_, hs⟩
      rw [← hk2]
      exact hg

/-- Witness for the C6 shape theorem: joining the table
`{a = task 1, [1] = task 0}` over two completed tasks yields a table
with one positional entry and the key list `["a"]`. -/

theorem c6_join_shape_witness :
    ∃ fs vs,
      Value.table (.mk [("a", Value.string "x")] [Value.int 5] none)
        = .table (.mk fs vs none)
      ∧ vs.length = tblC6.array.length
      ∧ fs.map Prod.fst = tblC6.fields.map Prod.fst
      ∧ List.Forall₂ (fun a r => ∃ k task,
          a = Value.int k
          ∧ stC6.exec.getTask (usizeOfI64 k) = some task
          ∧ task.state = .completed r) tblC6.array vs
      ∧ List.Forall₂ (fun (p : String × Value) (q : String × Value) =>
          q.1 = p.1 ∧ ∃ k task,
            p.2 = Value.int k
            ∧ stC6.exec.getTask (usizeOfI64 k) = some task
            ∧ task.state = .completed q.2) tblC6.fields fs :=
  c6_join_shape 1 tblC6 locZ stC6
    (.table (.mk [("a", .string "x")] [.int 5] none)) stC6 rfl

theorem execWrite_trans {a b c : ExecutorSt}
    (h1 : ExecWrite a b) (h2 : ExecWrite b c) : ExecWrite a c := by
  induction h2 with
  | refl => exact h1
  | spawn f args h ih => exact ExecWrite.spawn f args ih
  | finish tid s h hs ih => exact ExecWrite.finish tid s ih hs

theorem writeM_def {α : Type} (m : M α) :
    WriteM m ↔ ∀ st : IState, ExecWrite st.exec (((m st)).state).exec :=
  Iff.rfl

theorem wr_bind {α β : Type} {m : M α} {k : α → M β}
    (hm : WriteM m) (hk : ∀ a, WriteM (k a)) :
    WriteM (M.bind m k) := by
  rw [writeM_def]
  intro st
  show ExecWrite st.exec (((M.bind m k) st).state).exec
  unfold M.bind
  cases h1 : m st with
  | ok a st' =>
    have hp1 := (writeM_def m).mp hm st
    rw [h1] at hp1
    have hp2 := (writeM_def (k a)).mp (hk a) st'
    exact execWrite_trans hp1 hp2
  | err e st' =>
    have hp1 := (writeM_def m).mp hm st
    rw [h1] at hp1
    exact hp1

theorem wr_bind' {α β : Type} {m : M α} {k : α → M β}
    (hm : WriteM m) (hk : ∀ a, WriteM (k a)) :
    WriteM (m >>= k) :=
  wr_bind hm hk

theorem wr_pure {α : Type} (a : α) : WriteM (M.pure a) :=
  fun st => ExecWrite.refl st.exec

theorem wr_pure' {α : Type} (a : α) : WriteM (pure a : M α) :=
  wr_pure a

theorem wr_throw {α : Type} (e : RunErr) :
    WriteM (M.throw e : M α) :=
  fun st => ExecWrite.refl st.exec

theorem wr_runtimeErr {α : Type} (msg : String)
    (loc : Option SourceLocation) :
    WriteM (M.runtimeErr msg loc : M α) :=
  fun st => ExecWrite.refl st.exec

theorem wr_getState : WriteM M.getState :=
  fun st => ExecWrite.refl st.exec

theorem wr_printLine (s : String) : WriteM (M.printLine s) :=
  fun st => ExecWrite.refl st.exec

theorem wr_modifyEnv (f : Env → Env) : WriteM (M.modifyEnv f) :=
  fun st => ExecWrite.refl st.exec

theorem wr_setControl (c : CtrlFlow) : WriteM (M.setControl c) :=
  fun st => ExecWrite.refl st.exec

theorem wr_getState_bind {β : Type} {k : IState → M β}
    (hk : ∀ st : IState, ExecWrite st.exec (((k st) st).state).exec) :
    WriteM (M.getState >>= k) := by
  rw [writeM_def]
  intro st
  show ExecWrite st.exec ((k st st).state).exec
  exact hk st

theorem wr_evalArgs {ev : Expr → M Value}
    (hev : ∀ e, WriteM (ev e)) :
    ∀ es, WriteM (evalArgsWith ev es) := by
  intro es
  induction es with
  | nil => exact wr_pure' []
  | cons e rest ih =>
    rw [evalArgsWith]
    exact wr_bind' (hev e) fun v => wr_bind' ih fun vs => wr_pure' _

theorem wr_evalEntries {ev : Expr → M Value}
    (hev : ∀ e, WriteM (ev e)) :
    ∀ entries acc, WriteM (evalEntriesWith ev entries acc) := by
  intro entries
  induction entries with
  | nil => intro acc; exact wr_pure' _
  | cons p rest ih =>
    intro acc
    obtain ⟨key, valueExpr⟩ := p
    rw [evalEntriesWith]
    apply wr_bind' (hev valueExpr)
    intro v
    cases key with
    | identifier name => exact ih _
    | expression keyExpr => exact wr_bind' (hev keyExpr) fun kv => ih _

theorem wr_execSeq {ex : Stmt → M Unit}
    (hex : ∀ s, WriteM (ex s)) :
    ∀ ss, WriteM (execSeqWith ex ss) := by
  intro ss
  induction ss with
  | nil => exact wr_pure' ()
  | cons s rest ih =>
    rw [execSeqWith]
    apply wr_bind' (hex s)
    intro u
    apply wr_bind' wr_getState
    intro st
    cases st.control <;> first | exact ih | exact wr_pure' ()

theorem wr_execRetOnly {ex : Stmt → M Unit}
    (hex : ∀ s, WriteM (ex s)) :
    ∀ ss, WriteM (execRetOnlyWith ex ss) := by
  intro ss
  induction ss with
  | nil => exact wr_pure' ()
  | cons s rest ih =>
    rw [execRetOnlyWith]
    apply wr_bind' (hex s)
    intro u
    apply wr_bind' wr_getState
    intro st
    cases st.control <;> first | exact ih | exact wr_pure' ()

theorem wr_loopBody {ex : Stmt → M Unit}
    (hex : ∀ s, WriteM (ex s)) :
    ∀ ss, WriteM (loopBodyWith ex ss) := by
  intro ss
  induction ss with
  | nil => exact wr_pure' _
  | cons s rest ih =>
    rw [loopBodyWith]
    apply wr_bind' (hex s)
    intro u
    apply wr_bind' wr_getState
    intro st
    cases st.control <;> first | exact ih | exact wr_pure' _

theorem wr_assignInto {ev : Expr → M Value}
    (hev : ∀ e, WriteM (ev e)) :
    ∀ target val loc, WriteM (assignIntoWith ev target val loc)
  | .variable name l, val, loc => by
    rw [assignIntoWith]
    apply wr_getState_bind
    intro st
    cases st.env.set name val
    · exact ExecWrite.refl st.exec
    · exact ExecWrite.refl st.exec
  | .tableAccess base key l, val, loc => by
    rw [assignIntoWith]
    apply wr_bind' (hev base)
    intro bv
    apply wr_bind' (hev key)
    intro kv
    cases bv
    case table t => exact wr_assignInto hev base _ loc
    all_goals exact wr_runtimeErr _ _
  | .literal v l, val, loc => wr_runtimeErr _ _
  | .binary a o b l, val, loc => wr_runtimeErr _ _
  | .unary o a l, val, loc => wr_runtimeErr _ _
  | .assign a b l, val, loc => wr_runtimeErr _ _
  | .call a b l, val, loc => wr_runtimeErr _ _
  | .table f l, val, loc => wr_runtimeErr _ _
  | .logical a o b l, val, loc => wr_runtimeErr _ _
  | .function p r b l, val, loc => wr_runtimeErr _ _
  | .spawn c l, val, loc => wr_runtimeErr _ _
  | .await t l, val, loc => wr_runtimeErr _ _

theorem wr_runNative (name : String) (args : List Value)
    (loc : SourceLocation) : WriteM (runNative name args loc) := by
  rw [runNative]
  split
  · exact wr_bind' (wr_printLine _) fun _ => wr_pure' _
  split
  · split
    · exact wr_pure' _
    · exact wr_runtimeErr _ _
  split
  · split
    · split
      · exact wr_pure' _
      · exact wr_pure' _
    · exact wr_runtimeErr _ _
  exact wr_runtimeErr _ _

theorem wr_awaitInt {F : EvalFns}
    (hTask : ∀ t f a, WriteM (F.executeTask t f a)) :
    ∀ taskId loc, WriteM (awaitIntWith F taskId loc) := by
  intro taskId loc
  rw [awaitIntWith]
  apply wr_bind' wr_getState
  intro st
  split
  · split
    · exact wr_pure' _
    · exact wr_runtimeErr _ _
    · split
      · exact hTask _ _ _
      · exact wr_runtimeErr _ _
    · exact wr_runtimeErr _ _
  · exact wr_runtimeErr _ _

theorem wr_runTaskThread
    {exec : Nat → FunctionValue → List Value → M Value}
    (hexec : ∀ t f a, WriteM (exec t f a)) :
    ∀ tid f args, WriteM (runTaskThreadWith exec tid f args) := by
  intro tid f args
  rw [writeM_def]
  intro st
  simp only [runTaskThreadWith]
  have h := (writeM_def _).mp (hexec tid f args)
    ⟨st.env, .none, st.exec, st.output, [], none⟩
  cases hr : exec tid f args ⟨st.env, .none, st.exec, st.output, [], none⟩ with
  | ok v st' =>
    rw [hr] at h
    exact h
  | err e st' =>
    rw [hr] at h
    cases e <;> exact h

theorem wr_runPendingList
    {exec : Nat → FunctionValue → List Value → M Value}
    (hexec : ∀ t f a, WriteM (exec t f a)) :
    ∀ loc vs, WriteM (runPendingListWith exec loc vs) := by
  intro loc vs
  induction vs with
  | nil => exact wr_pure' []
  | cons v rest ih =>
    cases v with
    | int taskId =>
      rw [runPendingListWith]
      apply wr_bind' wr_getState
      intro st
      split
      · apply wr_bind' ?_ fun _ => wr_bind' ih fun tids => wr_pure' _
        split
        · exact wr_runTaskThread hexec _ _ _
        · exact wr_pure' ()
      · exact wr_runtimeErr _ _
    | nil => exact wr_runtimeErr _ _
    | float f => exact wr_runtimeErr _ _
    | string s => exact wr_runtimeErr _ _
    | bool b => exact wr_runtimeErr _ _
    | table tb => exact wr_runtimeErr _ _
    | function fn => exact wr_runtimeErr _ _
    | nativeFunction fn => exact wr_runtimeErr _ _
    | pointer c => exact wr_runtimeErr _ _

theorem wr_runPendingFields
    {exec : Nat → FunctionValue → List Value → M Value}
    (hexec : ∀ t f a, WriteM (exec t f a)) :
    ∀ loc fs, WriteM (runPendingFieldsWith exec loc fs) := by
  intro loc fs
  induction fs with
  | nil => exact wr_pure' []
  | cons p rest ih =>
    obtain ⟨key, v⟩ := p
    cases v with
    | int taskId =>
      rw [runPendingFieldsWith]
      apply wr_bind' wr_getState
      intro st
      split
      · apply wr_bind' ?_ fun _ => wr_bind' ih fun pairs => wr_pure' _
        split
        · exact wr_runTaskThread hexec _ _ _
        · exact wr_pure' ()
      · exact wr_runtimeErr _ _
    | nil => exact wr_runtimeErr _ _
    | float f => exact wr_runtimeErr _ _
    | string s => exact wr_runtimeErr _ _
    | bool b => exact wr_runtimeErr _ _
    | table tb => exact wr_runtimeErr _ _
    | function fn => exact wr_runtimeErr _ _
    | nativeFunction fn => exact wr_runtimeErr _ _
    | pointer c => exact wr_runtimeErr _ _

theorem wr_collectArr (loc : SourceLocation) :
    ∀ tids, WriteM (collectArr loc tids) := by
  intro tids
  induction tids with
  | nil => exact wr_pure' []
  | cons tid rest ih =>
    rw [collectArr]
    apply wr_bind' wr_getState
    intro st
    split
    · split
      · exact wr_bind' ih fun vs => wr_pure' _
      · exact wr_runtimeErr _ _
      · exact wr_runtimeErr _ _
    · exact ih

theorem wr_collectFields (loc : SourceLocation) :
    ∀ pairs, WriteM (collectFields loc pairs) := by
  intro pairs
  induction pairs with
  | nil => exact wr_pure' []
  | cons p rest ih =>
    obtain ⟨key, tid⟩ := p
    rw [collectFields]
    apply wr_bind' wr_getState
    intro st
    split
    · split
      · exact wr_bind' ih fun fs => wr_pure' _
      · exact wr_runtimeErr _ _
      · exact wr_runtimeErr _ _
    · exact ih

theorem wr_awaitTable {F : EvalFns}
    (hTask : ∀ t f a, WriteM (F.executeTask t f a)) :
    ∀ t loc, WriteM (awaitTableWith F t loc) := by
  intro t loc
  rw [writeM_def]
  intro st
  simp only [awaitTableWith]
  split
  · rename_i heq
    have h1 := (writeM_def _).mp
      (wr_bind' (wr_runPendingList hTask loc t.array) fun tids =>
        wr_bind' (wr_runPendingFields hTask loc t.fields) fun pairs =>
          wr_pure' (tids, pairs)) st
    rw [heq] at h1
    exact h1
  · rename_i heq
    have h1 := (writeM_def _).mp
      (wr_bind' (wr_runPendingList hTask loc t.array) fun tids =>
        wr_bind' (wr_runPendingFields hTask loc t.fields) fun pairs =>
          wr_pure' (tids, pairs)) st
    rw [heq] at h1
    exact h1
  · rename_i tids pairs st' heq
    have h1 := (writeM_def _).mp
      (wr_bind' (wr_runPendingList hTask loc t.array) fun tids =>
        wr_bind' (wr_runPendingFields hTask loc t.fields) fun pairs =>
          wr_pure' (tids, pairs)) st
    rw [heq] at h1
    have h2 := (writeM_def _).mp
      (wr_bind' (wr_collectArr loc tids) fun vs =>
        wr_bind' (wr_collectFields loc pairs) fun fs =>
          wr_pure' (Value.table (.mk fs vs none))) st'
    exact execWrite_trans h1 h2

theorem wr_executeTask_step {F : EvalFns}
    (hEx : ∀ s, WriteM (F.execStmt s)) :
    ∀ tid f args, WriteM ((stepFns F).executeTask tid f args) := by
  intro tid f args
  rw [writeM_def]
  intro st
  simp only [stepFns]
  split
  all_goals
    rename_i heq
    have h := (writeM_def (execRetOnlyWith F.execStmt f.body)).mp
      (wr_execRetOnly hEx f.body)
      { env := List.foldl (fun env p => env.define p.1 p.2)
          st.env.pushScope (f.params.zip args),
        control := st.control, exec := st.exec, output := st.output,
        loadedModules := st.loadedModules,
        currentFileDir := st.currentFileDir }
    rw [heq] at h
    first
      | exact ExecWrite.finish _ _ h rfl
      | exact h

theorem wr_ite {α : Type} {c : Prop} [h : Decidable c] {a b : M α}
    (ha : WriteM a) (hb : WriteM b) :
    WriteM (if c then a else b) := by
  by_cases hc : c
  · rw [if_pos hc]
    exact ha
  · rw [if_neg hc]
    exact hb

theorem wr_evalExpr_step {F : EvalFns} (hF : WriteFns F) :
    ∀ e, WriteM ((stepFns F).evalExpr e) := by
  obtain ⟨hEv, hEx, hWh, hFor, hCall, hTask⟩ := hF
  intro e
  cases e
  · rename_i v l
    cases v <;> exact wr_pure' _
  · rename_i name l
    apply wr_bind' wr_getState
    intro st
    split
    · exact wr_pure' _
    · exact wr_runtimeErr _ _
  · rename_i left op right l
    apply wr_bind' (hEv left)
    intro lv
    apply wr_bind' (hEv right)
    intro rv
    split
    · exact wr_pure' _
    · exact wr_throw _
  · rename_i op operand l
    apply wr_bind' (hEv operand)
    intro v
    split
    · exact wr_pure' _
    · exact wr_throw _
  · rename_i target value l
    exact wr_bind' (hEv value) fun val =>
      wr_bind' (wr_assignInto hEv target val l) fun _ => wr_pure' _
  · rename_i callee arguments l
    exact wr_bind' (hEv callee) fun func =>
      wr_bind' (wr_evalArgs hEv arguments) fun args =>
        hCall func args l
  · rename_i fields l
    exact wr_bind' (wr_evalEntries hEv fields TableValue.new)
      fun t => wr_pure' _
  · rename_i tbl key l
    apply wr_bind' (hEv tbl)
    intro tv
    apply wr_bind' (hEv key)
    intro kv
    split
    · exact wr_pure' _
    · exact wr_runtimeErr _ _
  · rename_i left op right l
    apply wr_bind' (hEv left)
    intro lv
    cases op
    · exact wr_ite (wr_pure' _) (hEv right)
    · exact wr_ite (wr_pure' _) (hEv right)
  · exact wr_pure' _
  · rename_i callExpr l
    cases callExpr
    · exact wr_runtimeErr _ _
    · exact wr_runtimeErr _ _
    · exact wr_runtimeErr _ _
    · exact wr_runtimeErr _ _
    · exact wr_runtimeErr _ _
    · rename_i callee arguments l'
      apply wr_bind' (hEv callee)
      intro funcValue
      split
      · apply wr_bind' (wr_evalArgs hEv arguments)
        intro args
        apply wr_getState_bind
        intro st
        exact ExecWrite.spawn _ args (ExecWrite.refl st.exec)
      · exact wr_runtimeErr _ _
    · exact wr_runtimeErr _ _
    · exact wr_runtimeErr _ _
    · exact wr_runtimeErr _ _
    · exact wr_runtimeErr _ _
    · exact wr_runtimeErr _ _
    · exact wr_runtimeErr _ _
  · rename_i task l
    apply wr_bind' (hEv task)
    intro tv
    split
    · exact wr_awaitInt hTask _ _
    · exact wr_awaitTable hTask _ _
    · exact wr_runtimeErr _ _

theorem wr_execStmt_step {F : EvalFns} (hF : WriteFns F) :
    ∀ s, WriteM ((stepFns F).execStmt s) := by
  obtain ⟨hEv, hEx, hWh, hFor, hCall, hTask⟩ := hF
  intro s
  cases s
  · rename_i name ty initializer isConst l
    cases initializer
    · exact wr_bind' (wr_pure' _) fun value => wr_modifyEnv _
    · rename_i init
      exact wr_bind' (hEv init) fun value => wr_modifyEnv _
  · rename_i name params r body isAsync l
    exact wr_modifyEnv (fun env =>
      env.define name (.function ⟨name, params.map Prod.fst, body, isAsync⟩))
  · rename_i e l
    exact wr_bind' (hEv e) fun _ => wr_pure' _
  · rename_i condition thenBranch elseBranch l
    apply wr_bind' (hEv condition)
    intro cond
    apply wr_ite
    · exact wr_execSeq hEx thenBranch
    · cases elseBranch
      · exact wr_pure' _
      · rename_i es
        exact wr_execSeq hEx es
  · rename_i condition body l
    exact hWh condition body
  · rename_i initializer condition increment body l
    cases initializer
    · exact wr_bind' (wr_modifyEnv _) fun _ =>
        wr_bind' (wr_pure' _) fun _ => hFor condition increment body
    · rename_i init
      exact wr_bind' (wr_modifyEnv _) fun _ =>
        wr_bind' (hEx init) fun _ => hFor condition increment body
  · rename_i value l
    cases value
    · exact wr_bind' (wr_pure' _) fun v => wr_setControl _
    · rename_i e
      exact wr_bind' (hEv e) fun v => wr_setControl _
  · exact wr_setControl _
  · exact wr_setControl _
  · rename_i statements l
    exact wr_bind' (wr_modifyEnv _) fun _ =>
      wr_bind' (wr_execSeq hEx statements) fun _ => wr_modifyEnv _
  · rename_i path l
    apply wr_bind' wr_getState
    intro st
    apply wr_ite
    · exact wr_pure' _
    · exact wr_runtimeErr _ _

theorem wr_whileLoop_step {F : EvalFns} (hF : WriteFns F) :
    ∀ c b, WriteM ((stepFns F).whileLoop c b) := by
  obtain ⟨hEv, hEx, hWh, hFor, hCall, hTask⟩ := hF
  intro c b
  apply wr_bind' (hEv c)
  intro cond
  apply wr_ite
  · exact wr_pure' _
  · apply wr_bind' (wr_loopBody hEx b)
    intro sig
    cases sig
    · exact hWh c b
    · exact wr_setControl _
    · exact wr_bind' (wr_setControl _) fun _ => hWh c b
    · exact wr_pure' _

theorem wr_forIter_step {F : EvalFns} (hF : WriteFns F) :
    ∀ c i b, WriteM ((stepFns F).forIter c i b) := by
  obtain ⟨hEv, hEx, hWh, hFor, hCall, hTask⟩ := hF
  intro c i b
  have htail : ∀ y : Bool,
      WriteM (if !y then M.modifyEnv Env.popScope
        else do
          let sig ← loopBodyWith F.execStmt b
          match sig with
          | .brk => do
            M.setControl .none
            M.modifyEnv Env.popScope
          | .ret => M.modifyEnv Env.popScope
          | .cont => do
            M.setControl .none
            (match i with
             | some inc => do
               let _ ← F.evalExpr inc
               pure ()
             | none => pure ())
            F.forIter c i b
          | .normal => do
            (match i with
             | some inc => do
               let _ ← F.evalExpr inc
               pure ()
             | none => pure ())
            F.forIter c i b) := by
    intro y
    apply wr_ite
    · exact wr_modifyEnv _
    · apply wr_bind' (wr_loopBody hEx b)
      intro sig
      cases sig
      · exact wr_bind'
          (by
            cases i
            · exact wr_pure' ()
            · rename_i inc
              exact wr_bind' (hEv inc) fun _ => wr_pure' ())
          fun _ => hFor c i b
      · exact wr_bind' (wr_setControl _) fun _ => wr_modifyEnv _
      · exact wr_bind' (wr_setControl _) fun _ =>
          wr_bind'
            (by
              cases i
              · exact wr_pure' ()
              · rename_i inc
                exact wr_bind' (hEv inc) fun _ => wr_pure' ())
            fun _ => hFor c i b
      · exact wr_modifyEnv _
  cases c
  · exact wr_bind' (wr_pure' true) fun y => htail y
  · rename_i cond
    exact wr_bind' (hEv cond) fun v =>
      wr_bind' (wr_pure' _) fun y => htail y

theorem wr_callFunction_step {F : EvalFns} (hF : WriteFns F) :
    ∀ f a l, WriteM ((stepFns F).callFunction f a l) := by
  obtain ⟨hEv, hEx, hWh, hFor, hCall, hTask⟩ := hF
  intro func args loc
  cases func
  · exact wr_runtimeErr _ _
  · exact wr_runtimeErr _ _
  · exact wr_runtimeErr _ _
  · exact wr_runtimeErr _ _
  · exact wr_runtimeErr _ _
  · exact wr_runtimeErr _ _
  · rename_i userFunc
    apply wr_ite
    · exact wr_runtimeErr _ _
    · apply wr_bind' (wr_modifyEnv _)
      intro u
      apply wr_bind' (wr_modifyEnv _)
      intro u'
      apply wr_bind' (wr_execRetOnly hEx _)
      intro u''
      apply wr_bind' wr_getState
      intro st
      split
      · exact wr_bind' (wr_setControl _) fun _ =>
          wr_bind' (wr_modifyEnv _) fun _ => wr_pure' _
      · exact wr_bind' (wr_modifyEnv _) fun _ =>
          wr_bind' (wr_setControl _) fun _ => wr_pure' _
  · rename_i native
    apply wr_ite
    · exact wr_runtimeErr _ _
    · exact wr_runNative _ _ _
  · exact wr_runtimeErr _ _

theorem wr_stepFns {F : EvalFns} (hF : WriteFns F) :
    WriteFns (stepFns F) :=
  ⟨wr_evalExpr_step hF, wr_execStmt_step hF,
   wr_whileLoop_step hF, wr_forIter_step hF,
   wr_callFunction_step hF,
   wr_executeTask_step hF.2.1⟩

theorem wr_evalFns : ∀ fuel, WriteFns (evalFns fuel)
  | 0 =>
    ⟨fun _ => wr_throw _, fun _ => wr_throw _,
     fun _ _ => wr_throw _, fun _ _ _ => wr_throw _,
     fun _ _ _ => wr_throw _, fun _ _ _ => wr_throw _⟩
  | fuel + 1 => wr_stepFns (wr_evalFns fuel)


theorem wr_interpretStmts (fuel : Nat) :
    ∀ ss, WriteM (interpretStmts fuel ss) := by
  intro ss
  induction ss with
  | nil => exact wr_pure' ()
  | cons s rest ih =>
    rw [interpretStmts]
    apply wr_bind' ((wr_evalFns fuel).2.1 s)
    intro u
    apply wr_bind' wr_getState
    intro st
    cases st.control <;> first | exact ih | exact wr_pure' ()

theorem execWrite_terminal_mono {e e' : ExecutorSt} (h : ExecWrite e e') :
    ∀ tid t, e.getTask tid = some t →
      ∃ t', e'.getTask tid = some t'
        ∧ (t.state.isTerminal = true → t'.state.isTerminal = true) := by
  induction h with
  | refl =>
    intro tid t ht
    exact ⟨t, ht, fun h => h⟩
  | spawn f args h ih =>
    intro tid t ht
    obtain ⟨t', ht', hmono⟩ := ih tid t ht
    exact ⟨t', getTask_spawn f args ht', hmono⟩
  | finish tid2 s h hs ih =>
    intro tid t ht
    obtain ⟨t', ht', hmono⟩ := ih tid t ht
    by_cases htt : tid = tid2
    · subst htt
      exact ⟨{ t' with state := s }, getTask_update_eq _ ht',
        fun _ => hs⟩
    · rw [getTask_update_ne _ htt]
      exact ⟨t', ht', hmono⟩

theorem execWrite_no_running {e e' : ExecutorSt} (h : ExecWrite e e')
    (h0 : ∀ u ∈ e.tasks, u.state ≠ .running) :
    ∀ u ∈ e'.tasks, u.state ≠ .running := by
  induction h with
  | refl => exact h0
  | spawn f args h ih =>
    intro u hu
    simp only [ExecutorSt.spawnFunction] at hu
    rcases List.mem_append.mp hu with h2 | h2
    · exact ih u h2
    · rw [List.mem_singleton.mp h2]
      simp [Task.newWithFunction]
  | finish tid s h hs ih =>
    intro u hu
    simp only [ExecutorSt.updateTaskState] at hu
    rcases updateTasks_mem hu with h2 | ⟨t0, ht0, rfl⟩
    · exact ih u h2
    · intro hcon
      have hs2 : s = .running := hcon
      rw [hs2] at hs
      simp [TaskState.isTerminal] at hs

set_option maxHeartbeats 4000000 in
/-- C7 counterexample, on the interpreter itself. (i) `execute_task` on
the `Pending` task of `stPend1` writes `Completed(1)` directly — there
is no `Running` stage between `Pending` and the terminal state. (ii) A
terminal state transitions again: `execute_task` runs the body and
rewrites the state unconditionally, so from `stOver99`, whose task 0 is
already `Completed(99)`, one step leaves it `Completed(42)`; and that
situation is reachable — the self-awaiting task of `stSelf0` starts
`Pending`, its inner self-`await` (dispatched at `stSelf1`, the state
the outer run reaches, with the same fuel the outer run hands down)
writes `Completed(9)`, and the outer frame then overwrites it with
`Completed(10)`: task 0 moves Pending → Completed(9) → Completed(10)
inside one actual `execute_task` computation. -/
theorem c7_terminal_state_overwritten :
    (∃ st', executeTask 3 0 fRet1 [] stPend1 = .ok (.int 1) st'
       ∧ st'.exec.getTask 0
           = some ⟨0, "w", [], .completed (.int 1), some fRet1, []⟩)
    ∧ (∃ st', executeTask 3 0 fRet42 [] stOver99 = .ok (.int 42) st'
       ∧ st'.exec.getTask 0
           = some ⟨0, "w", [], .completed (.int 42), some fRet42, []⟩)
    ∧ (∃ st', executeTask 5 0 fSelf [] stSelf1 = .ok (.int 9) st'
       ∧ st'.exec.getTask 0
           = some ⟨0, "f", bodySelf, .completed (.int 9), some fSelf,
               []⟩)
    ∧ (∃ st', executeTask 10 0 fSelf [] stSelf0 = .ok (.int 10) st'
       ∧ st'.exec.getTask 0
           = some ⟨0, "f", bodySelf, .completed (.int 10), some fSelf,
               []⟩) :=
  ⟨⟨_, rfl, rfl⟩, ⟨_, rfl, rfl⟩, ⟨_, rfl, rfl⟩, ⟨_, rfl, rfl⟩⟩

/-- C7 (amended): the four-state machine degenerates on the
interpreter. Every executor transition an evaluator entry point
performs — on the success and on the failure path alike — is generated
by the source's two unguarded write operations (`spawn_function`, which
appends a `Pending` task, and `execute_task`'s final unconditional
`update_task_state` with a terminal state); along such writes a
registered task stays registered and, once terminal, stays terminal —
though not necessarily in the same terminal state, since a nested run
may overwrite `Completed(v)` with `Completed(v')` — and a `Running`
task never appears in an executor that had none: `TaskState::Running`
is dead code. -/
theorem c7_amended_monotonic :
    (∀ e e' : ExecutorSt, ExecWrite e e' →
        (∀ tid t, e.getTask tid = some t →
            ∃ t', e'.getTask tid = some t'
              ∧ (t.state.isTerminal = true → t'.state.isTerminal = true))
        ∧ ((∀ u ∈ e.tasks, u.state ≠ .running) →
            ∀ u ∈ e'.tasks, u.state ≠ .running))
    ∧ (∀ fuel e, WriteM (evalExpr fuel e))
    ∧ (∀ fuel s, WriteM (execStmt fuel s))
    ∧ (∀ fuel func args loc, WriteM (callFunction fuel func args loc))
    ∧ (∀ fuel tid f args, WriteM (executeTask fuel tid f args))
    ∧ (∀ fuel ast, WriteM (interpret fuel ast)) := by
  refine ⟨fun e e' h =>
      ⟨execWrite_terminal_mono h, execWrite_no_running h⟩,
    ?_, ?_, ?_, ?_, ?_⟩
  · intro fuel e
    exact (wr_evalFns fuel).1 e
  · intro fuel s
    exact (wr_evalFns fuel).2.1 s
  · intro fuel func args loc
    exact (wr_evalFns fuel).2.2.2.2.1 func args loc
  · intro fuel tid f args
    exact (wr_evalFns fuel).2.2.2.2.2 tid f args
  · intro fuel ast
    exact wr_interpretStmts fuel ast.statements

/-- Witness for the amended C7 theorem at a concrete input: along the
single unguarded write that overwrites `Completed(99)` with
`Completed(42)`, task 0 stays registered and stays terminal. -/
theorem c7_amended_monotonic_witness :
    ∃ t', (exOver.updateTaskState 0 (.completed (.int 42))).getTask 0
        = some t' ∧ t'.state.isTerminal = true := by
  obtain ⟨t', ht', hmono⟩ :=
    (c7_amended_monotonic.1 exOver
      (exOver.updateTaskState 0 (.completed (.int 42)))
      (ExecWrite.finish 0 (.completed (.int 42))
        (ExecWrite.refl exOver) rfl)).1 0
      ⟨0, "w", [], .completed (.int 99), some fRet42, []⟩ rfl
  exact ⟨t', ht', hmono rfl⟩

end Lux
